import Mathlib

set_option maxRecDepth 10000

/- Model of usr/src/uts/common/fs/zfs/metaslab.c.  Machine integers are
   modelled as Nat; theorems carry explicit bounds wherever uint64
   wrap-around could otherwise matter (with those bounds, Nat arithmetic
   and uint64 arithmetic agree).  Range trees (range_tree.c is not part of
   the excerpt) are modelled from the spec as canonical lists of disjoint,
   coalesced, start-sorted half-open intervals; the secondary size-ordered
   tree is derived from the same list. -/

def METASLAB_WEIGHT_PRIMARY : Nat := 2 ^ 63

def METASLAB_WEIGHT_SECONDARY : Nat := 2 ^ 62

def METASLAB_ACTIVE_MASK : Nat := METASLAB_WEIGHT_PRIMARY ||| METASLAB_WEIGHT_SECONDARY

def SPA_MINBLOCKSHIFT : Nat := 9

def SPA_MINBLOCKSIZE : Nat := 2 ^ SPA_MINBLOCKSHIFT

/- Modelled from the spec: the on-disk record is a 64-bit word with a
   15-bit run-length field (sys/space_map.h is not in the excerpt), so a
   single entry covers at most 2^15 sectors. -/
def SM_RUN_MAX : Nat := 2 ^ 15

def ENOENT : Nat := 2

def ENXIO : Nat := 6

def ENOSPC : Nat := 28

/- highbit64(x): 1-based index of the highest set bit, 0 for x = 0
   (written as a fold so that it reduces inside the kernel). -/
def highbit64 (n : Nat) : Nat :=
  (List.range 64).foldl (fun acc i => if 2 ^ i ≤ n then i + 1 else acc) 0

/- size & -size in uint64: the lowest set bit of size. -/
def lowbit64 (n : Nat) : Nat := n &&& (2 ^ 64 - n)

/- P2ROUNDUP; the C macro assumes a power-of-two alignment, for which it
   agrees with this rounded-up-division form. -/
def p2roundup (x a : Nat) : Nat := if a = 0 then x else (x + a - 1) / a * a

/- Pointwise function update (used for the per-metaslab cursor array). -/
def fupd (f : Nat → Nat) (k v : Nat) : Nat → Nat := fun x => if x = k then v else f x

/- Global tunables of metaslab.c, gathered into one record. -/
structure ZfsConfig where
  zfs_condense_pct : Nat := 200
  metaslab_df_alloc_threshold : Nat := 2 ^ 17
  metaslab_df_free_pct : Nat := 4
  metaslab_min_alloc_size : Nat := 2 ^ 25
  metaslab_ndf_clump_shift : Nat := 4
  metaslab_unload_delay : Nat := 8
  metaslab_debug_unload : Bool := false
  metaslab_weight_factor_enable : Bool := false
  metaslab_gang_bang : Nat := 2 ^ 17 + 1
  zfs_write_to_degraded : Bool := false
deriving Repr

/- A half-open interval [rs_start, rs_end), exactly range_seg_t. -/
structure Seg where
  rs_start : Nat
  rs_end : Nat
deriving DecidableEq, Repr

def segLen (s : Seg) : Nat := s.rs_end - s.rs_start

/- Canonical range tree: every segment non-empty, sorted by start with a
   strict gap between consecutive segments (coalesced). -/
def rtWF (l : List Seg) : Prop :=
  (∀ s ∈ l, s.rs_start < s.rs_end) ∧ List.Chain' (fun a b => a.rs_end < b.rs_start) l

/- Executable mirror of the Chain' gap condition, so that rtWF reduces
   inside the kernel. -/
def rtChainB : List Seg → Bool
  | [] => true
  | [_] => true
  | a :: b :: rest => decide (a.rs_end < b.rs_start) && rtChainB (b :: rest)

lemma rtChainB_iff : ∀ l : List Seg,
    rtChainB l = true ↔ List.Chain' (fun a b : Seg => a.rs_end < b.rs_start) l := by
  intro l
  induction l with
  | nil => simp [rtChainB]
  | cons a rest ih =>
    cases rest with
    | nil => simp [rtChainB]
    | cons b rest2 =>
      simp only [rtChainB, List.chain'_cons, Bool.and_eq_true,
        decide_eq_true_eq, ih]

instance rtWF_decidable : DecidablePred rtWF := fun l =>
  decidable_of_iff ((∀ s ∈ l, s.rs_start < s.rs_end) ∧ rtChainB l = true)
    (by rw [rtChainB_iff]; exact Iff.rfl)

/- range_tree_add: insert a segment, coalescing with any neighbor that
   shares an endpoint (overlap would trip a VERIFY in the source; the model
   merges it, and the theorems only use the disjoint case). -/
def range_tree_add_seg : List Seg → Seg → List Seg
  | [], x => [x]
  | s :: rest, x =>
    if x.rs_end < s.rs_start then x :: s :: rest
    else if s.rs_end < x.rs_start then s :: range_tree_add_seg rest x
    else range_tree_add_seg rest ⟨min s.rs_start x.rs_start, max s.rs_end x.rs_end⟩

def range_tree_add (l : List Seg) (start size : Nat) : List Seg :=
  range_tree_add_seg l ⟨start, start + size⟩

/- range_tree_remove: the removed range must lie inside one existing
   segment, which is split into up to two residues. -/
def range_tree_remove_seg : List Seg → Nat → Nat → List Seg
  | [], _, _ => []
  | s :: rest, o, e =>
    if s.rs_start ≤ o ∧ e ≤ s.rs_end then
      (if s.rs_start < o then [⟨s.rs_start, o⟩] else []) ++
      (if e < s.rs_end then [⟨e, s.rs_end⟩] else []) ++ rest
    else s :: range_tree_remove_seg rest o e

def range_tree_remove (l : List Seg) (start size : Nat) : List Seg :=
  range_tree_remove_seg l start (start + size)

def range_tree_space (l : List Seg) : Nat :=
  l.foldr (fun s acc => segLen s + acc) 0

def range_tree_contains (l : List Seg) (start size : Nat) : Bool :=
  l.any fun s => decide (s.rs_start ≤ start ∧ start + size ≤ s.rs_end)

/- avl_last of the size-ordered tree (metaslab_rangesize_compare orders by
   (length, start)): the lexicographically largest segment. -/
def metaslab_largest_seg : List Seg → Option Seg
  | [] => none
  | s :: rest =>
    match metaslab_largest_seg rest with
    | none => some s
    | some t =>
      if segLen t < segLen s ∨ (segLen t = segLen s ∧ t.rs_start ≤ s.rs_start)
      then some s else some t

/- The first (smallest in (length, start) order) segment of the
   size-ordered tree whose key is at least (size, 0); since the start
   component of the search key is 0, this is just the smallest qualifying
   segment of length ≥ size. -/
def metaslab_smallest_fit : List Seg → Nat → Option Seg
  | [], _ => none
  | s :: rest, size =>
    match metaslab_smallest_fit rest size with
    | none => if size ≤ segLen s then some s else none
    | some t =>
      if size ≤ segLen s ∧
          (segLen s < segLen t ∨ (segLen s = segLen t ∧ s.rs_start ≤ t.rs_start))
      then some s else some t

/- The four allocation strategies operate on this record (a projection of
   metaslab_t to the fields they read). -/
inductive OpsKind
  | ff
  | df
  | cf
  | ndf
deriving DecidableEq, Repr

/- Per-metaslab state.  ms_smfree is modelled from the spec: the range set
   that space_map_load(sm, SM_FREE) would replay (space_map.c is not in the
   excerpt). -/
structure MetaslabM where
  ms_id : Nat
  ms_start : Nat
  ms_size : Nat
  ms_weight : Nat
  ms_loaded : Bool
  ms_condensing : Bool
  ms_access_txg : Nat
  ms_tree : List Seg
  ms_lbas : Nat → Nat
  ms_alloctree : Fin 4 → List Seg
  ms_freetree : Fin 4 → List Seg
  ms_defertree : Fin 2 → List Seg
  ms_sm_present : Bool
  ms_sm_alloc : Nat
  ms_sm_shift : Nat
  ms_sm_length : Nat
  ms_sm_dbuf_phys : Bool
  ms_sm_histogram : List Nat
  ms_ops : OpsKind
  ms_smfree : List Seg

def metaslab_block_maxsize (m : MetaslabM) : Nat :=
  match metaslab_largest_seg m.ms_tree with
  | none => 0
  | some rs => rs.rs_end - rs.rs_start

/- Inner loop of metaslab_block_picker: from the first segment at or after
   the cursor, take the first segment where the aligned offset fits. -/
def metaslab_picker_walk : List Seg → Nat → Nat → Option Nat
  | [], _, _ => none
  | s :: rest, size, align =>
    let offset := p2roundup s.rs_start align
    if offset + size ≤ s.rs_end then some offset
    else metaslab_picker_walk rest size align

def metaslab_picker_scan (l : List Seg) (cursor size align : Nat) : Option Nat :=
  metaslab_picker_walk (l.dropWhile fun s => decide (s.rs_start < cursor)) size align

/- metaslab_block_picker: search from the cursor; on failure reset the
   cursor to 0 and retry once.  Returns the offset (if any) and the final
   cursor value. -/
def metaslab_block_picker (l : List Seg) (cursor size align : Nat) : Option Nat × Nat :=
  match metaslab_picker_scan l cursor size align with
  | some off => (some off, off + size)
  | none =>
    if cursor = 0 then (none, cursor)
    else
      match metaslab_picker_scan l 0 size align with
      | some off => (some off, off + size)
      | none => (none, 0)

def metaslab_ff_alloc (m : MetaslabM) (size : Nat) : Option Nat × (Nat → Nat) :=
  let align := lowbit64 size
  let idx := highbit64 align - 1
  let r := metaslab_block_picker m.ms_tree (m.ms_lbas idx) size align
  (r.1, fupd m.ms_lbas idx r.2)

def metaslab_ff_fragmented (_ : MetaslabM) : Bool := true

def metaslab_df_alloc (cfg : ZfsConfig) (m : MetaslabM) (size : Nat) :
    Option Nat × (Nat → Nat) :=
  let align := lowbit64 size
  let idx := highbit64 align - 1
  let max_size := metaslab_block_maxsize m
  let free_pct := range_tree_space m.ms_tree * 100 / m.ms_size
  if max_size < size then (none, m.ms_lbas)
  else if max_size < cfg.metaslab_df_alloc_threshold ∨
      free_pct < cfg.metaslab_df_free_pct then
    match metaslab_smallest_fit m.ms_tree size with
    | some rs => (some rs.rs_start, fupd m.ms_lbas idx (rs.rs_start + size))
    | none => (none, fupd m.ms_lbas idx 0)
  else
    let r := metaslab_block_picker m.ms_tree (m.ms_lbas idx) size 1
    (r.1, fupd m.ms_lbas idx r.2)

def metaslab_df_fragmented (cfg : ZfsConfig) (m : MetaslabM) : Bool :=
  let max_size := metaslab_block_maxsize m
  let free_pct := range_tree_space m.ms_tree * 100 / m.ms_size
  if max_size ≥ cfg.metaslab_df_alloc_threshold ∧
      free_pct ≥ cfg.metaslab_df_free_pct then false
  else true

def metaslab_cf_alloc (m : MetaslabM) (size : Nat) : Option Nat × (Nat → Nat) :=
  let cursor := m.ms_lbas 0
  let cursor_end := m.ms_lbas 1
  if cursor + size > cursor_end then
    match metaslab_largest_seg m.ms_tree with
    | none => (none, m.ms_lbas)
    | some rs =>
      if segLen rs < size then (none, m.ms_lbas)
      else (some rs.rs_start, fupd (fupd m.ms_lbas 0 (rs.rs_start + size)) 1 rs.rs_end)
  else (some cursor, fupd m.ms_lbas 0 (cursor + size))

def metaslab_cf_fragmented (cfg : ZfsConfig) (m : MetaslabM) : Bool :=
  decide (metaslab_block_maxsize m < cfg.metaslab_min_alloc_size)

def metaslab_ndf_alloc (cfg : ZfsConfig) (m : MetaslabM) (size : Nat) :
    Option Nat × (Nat → Nat) :=
  let hbit := highbit64 size
  let cursor := m.ms_lbas (hbit - 1)
  let max_size := metaslab_block_maxsize m
  if max_size < size then (none, m.ms_lbas)
  else
    let rs0 := m.ms_tree.find? fun s => decide (s.rs_start = cursor)
    let rs1 :=
      match rs0 with
      | some rs => if segLen rs < size
          then metaslab_smallest_fit m.ms_tree
            (min max_size (1 <<< (hbit + cfg.metaslab_ndf_clump_shift)))
          else some rs
      | none => metaslab_smallest_fit m.ms_tree
          (min max_size (1 <<< (hbit + cfg.metaslab_ndf_clump_shift)))
    match rs1 with
    | some rs =>
      if size ≤ segLen rs
      then (some rs.rs_start, fupd m.ms_lbas (hbit - 1) (rs.rs_start + size))
      else (none, m.ms_lbas)
    | none => (none, m.ms_lbas)

def metaslab_ndf_fragmented (cfg : ZfsConfig) (m : MetaslabM) : Bool :=
  decide (metaslab_block_maxsize m ≤
    cfg.metaslab_min_alloc_size <<< cfg.metaslab_ndf_clump_shift)

def msop_alloc (cfg : ZfsConfig) (m : MetaslabM) (size : Nat) :
    Option Nat × (Nat → Nat) :=
  match m.ms_ops with
  | .ff => metaslab_ff_alloc m size
  | .df => metaslab_df_alloc cfg m size
  | .cf => metaslab_cf_alloc m size
  | .ndf => metaslab_ndf_alloc cfg m size

def msop_fragmented (cfg : ZfsConfig) (m : MetaslabM) : Bool :=
  match m.ms_ops with
  | .ff => metaslab_ff_fragmented m
  | .df => metaslab_df_fragmented cfg m
  | .cf => metaslab_cf_fragmented cfg m
  | .ndf => metaslab_ndf_fragmented cfg m

/- metaslab_block_alloc: the Bool result records whether the
   VERIFY(!msp->ms_condensing) at the top of the function held. -/
def metaslab_block_alloc (cfg : ZfsConfig) (m : MetaslabM) (size : Nat) :
    Option Nat × MetaslabM × Bool :=
  let ok := !m.ms_condensing
  match msop_alloc cfg m size with
  | (some start, lbas') =>
    (some start,
      { m with ms_lbas := lbas', ms_tree := range_tree_remove m.ms_tree start size },
      ok)
  | (none, lbas') => (none, { m with ms_lbas := lbas' }, ok)

/- A metaslab with all fields zeroed, used as the base of concrete states. -/
def msDefault : MetaslabM :=
  { ms_id := 0, ms_start := 0, ms_size := 0, ms_weight := 0, ms_loaded := false,
    ms_condensing := false, ms_access_txg := 0, ms_tree := [],
    ms_lbas := fun _ => 0, ms_alloctree := fun _ => [],
    ms_freetree := fun _ => [], ms_defertree := fun _ => [],
    ms_sm_present := false, ms_sm_alloc := 0, ms_sm_shift := 0,
    ms_sm_length := 0, ms_sm_dbuf_phys := false, ms_sm_histogram := [],
    ms_ops := .ff, ms_smfree := [] }

/- metaslab_group_sort re-inserts the metaslab into the group's avl tree
   with the new weight; only the stored weight matters for the claims
   modelled here. -/
def metaslab_group_sort (msp : MetaslabM) (weight : Nat) : MetaslabM :=
  { msp with ms_weight := weight }

def metaslab_passivate (msp : MetaslabM) (size : Nat) : MetaslabM :=
  metaslab_group_sort msp (min msp.ms_weight size)

/- space_map_allocated(sm): 0 for a NULL space map (space_map.c is not in
   the excerpt; modelled from the spec's allocated-bytes attribute). -/
def space_map_allocated (msp : MetaslabM) : Nat :=
  if msp.ms_sm_present then msp.ms_sm_alloc else 0

def metaslab_weight_factor (vd_ashift : Nat) (msp : MetaslabM) : Nat :=
  if !msp.ms_sm_present then
    let i := highbit64 msp.ms_size - 1
    let sectors := msp.ms_size >>> vd_ashift
    sectors * i * vd_ashift
  else if !msp.ms_sm_dbuf_phys then 0
  else
    (msp.ms_sm_histogram.enum.foldl
      (fun acc p =>
        if p.2 = 0 then acc
        else acc + (p.1 + msp.ms_sm_shift) * (p.2 <<< p.1)) 0) * msp.ms_sm_shift

/- Top-level vdev fields read by the modelled functions. -/
structure VdevM where
  vdev_id : Nat
  vdev_ms_shift : Nat
  vdev_ms_count : Nat
  vdev_ashift : Nat
  vdev_asize : Nat
  vdev_children : Nat
  vdev_ms : List MetaslabM
  vdev_removing : Bool
  vdev_allocatable : Bool
  vdev_write_errors : Nat
  vdev_below_healthy : Bool
  vdev_degraded : Bool

def metaslab_weight (cfg : ZfsConfig) (vd : VdevM) (msp : MetaslabM) : Nat :=
  if vd.vdev_removing then 0
  else
    let space := msp.ms_size - space_map_allocated msp
    let weight := space
    let weight := 2 * weight - msp.ms_id * weight / vd.vdev_ms_count
    let factor := metaslab_weight_factor vd.vdev_ashift msp
    let weight := if cfg.metaslab_weight_factor_enable then weight + factor else weight
    if msp.ms_loaded && !msop_fragmented cfg msp then
      weight ||| (msp.ms_weight &&& METASLAB_ACTIVE_MASK)
    else weight

def metaslab_should_condense (cfg : ZfsConfig) (msp : MetaslabM) : Bool :=
  match metaslab_largest_seg msp.ms_tree with
  | none => true
  | some rs =>
    let size := segLen rs >>> msp.ms_sm_shift
    let entries := size / min size SM_RUN_MAX
    let segsz := entries * 8
    decide (segsz ≤ msp.ms_sm_length ∧
      msp.ms_sm_length ≥ cfg.zfs_condense_pct * 8 * msp.ms_tree.length / 100)

lemma metaslab_largest_seg_eq_none {l : List Seg}
    (h : metaslab_largest_seg l = none) : l = [] := by
  cases l with
  | nil => rfl
  | cons s rest =>
    simp only [metaslab_largest_seg] at h
    split at h
    · simp at h
    · split at h <;> simp at h

lemma metaslab_largest_seg_mem {l : List Seg} {rs : Seg}
    (h : metaslab_largest_seg l = some rs) : rs ∈ l := by
  induction l with
  | nil => simp [metaslab_largest_seg] at h
  | cons s rest ih =>
    simp only [metaslab_largest_seg] at h
    split at h
    · simp at h; simp [h]
    · rename_i t heq
      split at h
      · simp at h; simp [h]
      · simp at h
        exact List.mem_cons_of_mem _ (ih (h ▸ heq))

lemma metaslab_largest_seg_max {l : List Seg} :
    ∀ {rs : Seg}, metaslab_largest_seg l = some rs → ∀ s ∈ l, segLen s ≤ segLen rs := by
  induction l with
  | nil => intro rs h; simp [metaslab_largest_seg] at h
  | cons s rest ih =>
    intro rs h u hu
    simp only [metaslab_largest_seg] at h
    split at h
    · rename_i heq
      have hrest := metaslab_largest_seg_eq_none heq
      subst hrest
      simp at h
      rcases List.mem_cons.mp hu with rfl | hmem
      · simp [h]
      · cases hmem
    · rename_i t heq
      split at h
      · rename_i hc
        simp at h
        subst h
        rcases List.mem_cons.mp hu with rfl | hmem
        · exact le_refl _
        · have := ih heq u hmem
          rcases hc with hlt | ⟨hle, _⟩ <;> omega
      · rename_i hc
        simp at h
        subst h
        push_neg at hc
        rcases List.mem_cons.mp hu with rfl | hmem
        · exact hc.1
        · exact ih heq u hmem

lemma metaslab_largest_seg_isSome {l : List Seg} (h : l ≠ []) :
    ∃ rs, metaslab_largest_seg l = some rs := by
  cases l with
  | nil => exact absurd rfl h
  | cons s rest =>
    simp only [metaslab_largest_seg]
    cases metaslab_largest_seg rest with
    | none => exact ⟨s, rfl⟩
    | some t =>
      by_cases hc : segLen t < segLen s ∨ (segLen t = segLen s ∧ t.rs_start ≤ s.rs_start)
      · exact ⟨s, if_pos hc⟩
      · exact ⟨t, if_neg hc⟩

lemma land_active_mask_eq_zero {n : Nat} (h : n < 2 ^ 62) :
    n &&& METASLAB_ACTIVE_MASK = 0 := by
  have h62 : n.testBit 62 = false := Nat.testBit_lt_two_pow h
  have h63 : n.testBit 63 = false :=
    Nat.testBit_lt_two_pow (h.trans (by norm_num))
  apply Nat.eq_of_testBit_eq
  intro i
  rw [Nat.testBit_and, Nat.zero_testBit]
  by_cases h1 : i = 62
  · subst h1; simp [h62]
  by_cases h2 : i = 63
  · subst h2; simp [h63]
  have hm : METASLAB_ACTIVE_MASK.testBit i = false := by
    simp only [METASLAB_ACTIVE_MASK, METASLAB_WEIGHT_PRIMARY,
      METASLAB_WEIGHT_SECONDARY, Nat.testBit_or]
    rw [Nat.testBit_two_pow_of_ne (fun h => h2 h.symm),
      Nat.testBit_two_pow_of_ne (fun h => h1 h.symm)]
    rfl
  simp [hm]

/-- C8 counterexample: the claim says the weight after metaslab_passivate
equals the caller-supplied size, but the code installs
MIN(ms_weight, size); with ms_weight = 100 and size = 200 the resulting
weight is 100. -/
theorem c8_passivate_counterexample :
    (metaslab_passivate { msDefault with ms_weight := 100 } 200).ms_weight ≠ 200 := by
  decide

/-- C8 (amended): after metaslab_passivate(msp, size) the weight equals
MIN(old weight, size); whenever the supplied size itself carries no active
bits (size < 2^62) the resulting weight has no active bits either. -/
theorem c8_passivate_weight (msp : MetaslabM) (size : Nat) :
    (metaslab_passivate msp size).ms_weight = min msp.ms_weight size ∧
    (size < 2 ^ 62 →
      (metaslab_passivate msp size).ms_weight &&& METASLAB_ACTIVE_MASK = 0) := by
  refine ⟨rfl, fun h => ?_⟩
  exact land_active_mask_eq_zero (lt_of_le_of_lt (min_le_right _ _) h)

/-- C8 witness: a concrete active metaslab passivated with size 200. -/
theorem c8_passivate_weight_witness :
    (metaslab_passivate { msDefault with ms_weight := 2 ^ 63 + 5 } 200).ms_weight = 200 ∧
    (metaslab_passivate { msDefault with ms_weight := 2 ^ 63 + 5 } 200).ms_weight &&&
      METASLAB_ACTIVE_MASK = 0 := by
  obtain ⟨h1, h2⟩ := c8_passivate_weight { msDefault with ms_weight := 2 ^ 63 + 5 } 200
  exact ⟨h1.trans (by decide), h2 (by norm_num)⟩

/- Concrete metaslab for the C2 boundary counterexample. -/
def c2ms : MetaslabM :=
  { msDefault with
    ms_loaded := true, ms_tree := [⟨0, 65536⟩],
    ms_sm_present := true, ms_sm_shift := 0, ms_sm_length := 16 }

/-- C2 counterexample: with one free segment of 65536 sectors (sm_shift 0)
the best-case encoding is exactly 16 bytes and the on-disk length is
exactly 16 = condense_pct/100 · 8 · node_count, so
metaslab_should_condense returns true although both of the claim's strict
inequalities ("less than" and "exceeds") fail. -/
theorem c2_should_condense_counterexample :
    metaslab_should_condense {} c2ms = true ∧
    ¬((segLen ⟨0, 65536⟩ >>> c2ms.ms_sm_shift) /
          min (segLen ⟨0, 65536⟩ >>> c2ms.ms_sm_shift) SM_RUN_MAX * 8
        < c2ms.ms_sm_length ∧
      c2ms.ms_sm_length >
        ({} : ZfsConfig).zfs_condense_pct * 8 * c2ms.ms_tree.length / 100) := by
  decide

/-- C2 (amended): for a loaded metaslab with a non-empty free tree,
metaslab_should_condense returns true iff the best-case on-disk encoding
of the largest free segment (one 64-bit word per run of at most SM_RUN_MAX
sectors) is at most (not strictly below) the current on-disk space-map
length AND the length is at least (not strictly above)
condense_pct/100 · 8 · (number of nodes in the free tree). -/
theorem c2_should_condense_iff (cfg : ZfsConfig) (msp : MetaslabM)
    (_hl : msp.ms_loaded = true) (hne : msp.ms_tree ≠ []) :
    metaslab_should_condense cfg msp = true ↔
      ∃ rs ∈ msp.ms_tree,
        (∀ s ∈ msp.ms_tree, segLen s ≤ segLen rs) ∧
        (segLen rs >>> msp.ms_sm_shift) /
            min (segLen rs >>> msp.ms_sm_shift) SM_RUN_MAX * 8 ≤ msp.ms_sm_length ∧
        cfg.zfs_condense_pct * 8 * msp.ms_tree.length / 100 ≤ msp.ms_sm_length := by
  obtain ⟨rs0, hrs0⟩ := metaslab_largest_seg_isSome hne
  simp only [metaslab_should_condense, hrs0, decide_eq_true_eq, ge_iff_le]
  constructor
  · rintro ⟨h1, h2⟩
    exact ⟨rs0, metaslab_largest_seg_mem hrs0, metaslab_largest_seg_max hrs0, h1, h2⟩
  · rintro ⟨rs, hmem, hmax, h1, h2⟩
    have e1 : segLen rs ≤ segLen rs0 := metaslab_largest_seg_max hrs0 rs hmem
    have e2 : segLen rs0 ≤ segLen rs := hmax rs0 (metaslab_largest_seg_mem hrs0)
    have heq : segLen rs = segLen rs0 := le_antisymm e1 e2
    rw [heq] at h1
    exact ⟨h1, h2⟩

/- Concrete metaslab on which condensing does pay off. -/
def c2msW : MetaslabM :=
  { msDefault with
    ms_loaded := true, ms_tree := [⟨0, 1024⟩],
    ms_sm_present := true, ms_sm_shift := 9, ms_sm_length := 16 }

/-- C2 witness: the amended criterion applied at a concrete metaslab. -/
theorem c2_should_condense_iff_witness :
    metaslab_should_condense {} c2msW = true :=
  (c2_should_condense_iff {} c2msW rfl (by decide)).mpr
    ⟨⟨0, 1024⟩, by decide, by decide, by decide, by decide⟩

/- Concrete active, loaded, first-fit (hence always "fragmented") metaslab
   for the C3 counterexample. -/
def c3ms : MetaslabM :=
  { msDefault with
    ms_size := 1024, ms_weight := METASLAB_WEIGHT_PRIMARY,
    ms_loaded := true, ms_ops := .ff }

def c3vd : VdevM :=
  { vdev_id := 0, vdev_ms_shift := 10, vdev_ms_count := 1, vdev_ashift := 9,
    vdev_asize := 1024, vdev_children := 1, vdev_ms := [],
    vdev_removing := false, vdev_allocatable := true, vdev_write_errors := 0,
    vdev_below_healthy := false, vdev_degraded := false }

/-- C3 counterexample: c3ms is currently active (primary bit set), yet
metaslab_weight does not OR the active bits into the result, because the
first-fit strategy's fragmented predicate is constantly true and the code
keeps the active bits only when loaded AND not fragmented. -/
theorem c3_weight_counterexample :
    c3ms.ms_weight &&& METASLAB_ACTIVE_MASK ≠ 0 ∧
    metaslab_weight {} c3vd c3ms ≠
      (2 * (c3ms.ms_size - space_map_allocated c3ms) -
        c3ms.ms_id * (c3ms.ms_size - space_map_allocated c3ms) /
          c3vd.vdev_ms_count) |||
      (c3ms.ms_weight &&& METASLAB_ACTIVE_MASK) := by
  decide

/-- C3 (amended): for a metaslab whose device is not being removed,
metaslab_weight returns 2·free − (id·free)/ms_count, plus the histogram
weight factor when weight_factor_enable is set, with the old active bits
OR'd in exactly when the metaslab is loaded AND its strategy's fragmented
predicate returns false (not merely "whenever active"). -/
theorem c3_weight_formula (cfg : ZfsConfig) (vd : VdevM) (msp : MetaslabM)
    (hrem : vd.vdev_removing = false) :
    (msp.ms_loaded = true → msop_fragmented cfg msp = false →
      metaslab_weight cfg vd msp =
        ((2 * (msp.ms_size - space_map_allocated msp) -
            msp.ms_id * (msp.ms_size - space_map_allocated msp) /
              vd.vdev_ms_count) +
          (if cfg.metaslab_weight_factor_enable
           then metaslab_weight_factor vd.vdev_ashift msp else 0)) |||
        (msp.ms_weight &&& METASLAB_ACTIVE_MASK)) ∧
    (msp.ms_loaded = false ∨ msop_fragmented cfg msp = true →
      metaslab_weight cfg vd msp =
        (2 * (msp.ms_size - space_map_allocated msp) -
          msp.ms_id * (msp.ms_size - space_map_allocated msp) /
            vd.vdev_ms_count) +
        (if cfg.metaslab_weight_factor_enable
         then metaslab_weight_factor vd.vdev_ashift msp else 0)) := by
  constructor
  · intro hl hf
    by_cases he : cfg.metaslab_weight_factor_enable <;>
      simp [metaslab_weight, hrem, hl, hf, he]
  · intro hor
    rcases hor with hl | hf
    · by_cases he : cfg.metaslab_weight_factor_enable <;>
        simp [metaslab_weight, hrem, hl, he]
    · by_cases he : cfg.metaslab_weight_factor_enable <;>
        simp [metaslab_weight, hrem, hf, he]

/- Concrete loaded, unfragmented dynamic-fit metaslab with the secondary
   active bit set. -/
def c3msW : MetaslabM :=
  { msDefault with
    ms_size := 2 ^ 17, ms_weight := METASLAB_WEIGHT_SECONDARY,
    ms_loaded := true, ms_ops := .df, ms_tree := [⟨0, 2 ^ 17⟩] }

/-- C3 witness: the amended formula applied at a concrete active metaslab
whose strategy reports not-fragmented. -/
theorem c3_weight_formula_witness :
    metaslab_weight {} c3vd c3msW =
      (2 * (c3msW.ms_size - space_map_allocated c3msW) -
        c3msW.ms_id * (c3msW.ms_size - space_map_allocated c3msW) /
          c3vd.vdev_ms_count) |||
      (c3msW.ms_weight &&& METASLAB_ACTIVE_MASK) := by
  have h := (c3_weight_formula {} c3vd c3msW rfl).1 rfl (by decide)
  simpa using h

/- C4 scenario: a single first-fit metaslab of size 4096 with ashift 9,
   starting fully free.  Frees in the scenario use the "now" path of
   metaslab_free_dva, which re-adds directly to the free tree. -/
def c4ms0 : MetaslabM :=
  { msDefault with
    ms_size := 4096, ms_loaded := true, ms_tree := [⟨0, 4096⟩],
    ms_ops := .ff }

def c4step1 : Option Nat × MetaslabM × Bool := metaslab_block_alloc {} c4ms0 512

def c4ms1 : MetaslabM := c4step1.2.1

def c4step2 : Option Nat × MetaslabM × Bool := metaslab_block_alloc {} c4ms1 1024

def c4ms2 : MetaslabM := c4step2.2.1

/- Free 512@0 via the now path (range_tree_add back into the free tree). -/
def c4ms2f : MetaslabM := { c4ms2 with ms_tree := range_tree_add c4ms2.ms_tree 0 512 }

def c4step3 : Option Nat × MetaslabM × Bool := metaslab_block_alloc {} c4ms2f 512

def c4ms3 : MetaslabM := c4step3.2.1

def c4step4 : Option Nat × MetaslabM × Bool := metaslab_block_alloc {} c4ms3 4096

/-- C4 counterexample: in the claimed scenario the first allocation does
return offset 0, but the second allocation (1024 bytes) returns 1024, not
512: metaslab_ff_alloc aligns the candidate offset up to
align = size & -size = 1024, so the segment starting at 512 yields 1024. -/
theorem c4_ff_counterexample : c4step1.1 = some 0 ∧ c4step2.1 ≠ some 512 := by
  decide

/-- C4 (amended): the actual first-fit trace is: alloc 512 → 0;
alloc 1024 → 1024 (offset rounded up to the 1024-byte alignment bucket);
free 512@0; alloc 512 → 2048 (the bucket-9 cursor sits at 512, and the
search finds the segment at 2048 without wrapping); alloc 4096 →
Exhausted.  The intermediate free trees are listed to make the trace
checkable. -/
theorem c4_ff_trace :
    c4step1.1 = some 0 ∧ c4ms1.ms_tree = [⟨512, 4096⟩] ∧
    c4step2.1 = some 1024 ∧ c4ms2.ms_tree = [⟨512, 1024⟩, ⟨2048, 4096⟩] ∧
    c4ms2f.ms_tree = [⟨0, 1024⟩, ⟨2048, 4096⟩] ∧
    c4step3.1 = some 2048 ∧ c4ms3.ms_tree = [⟨0, 1024⟩, ⟨2560, 4096⟩] ∧
    c4step4.1 = none := by
  decide

/- Pipeline model for metaslab_sync / metaslab_sync_done.  Range trees are
   abstracted to sets of addresses (the pipeline only unions, swaps and
   empties whole trees, for which this abstraction is exact):
   TXG_SIZE = 4, TXG_DEFER_SIZE = 2, TXG_CLEAN(txg) = txg - 1 in uint64,
   so its slot is (txg + 3) % 4 (sys/txg.h is not in the excerpt). -/
structure MsPipe where
  ms_tree : Finset Nat
  ms_alloctree : Fin 4 → Finset Nat
  ms_freetree : Fin 4 → Finset Nat
  ms_defertree : Fin 2 → Finset Nat
  ms_loaded : Bool
  ms_access_txg : Nat
  ms_deferspace : Int
  ms_vd_alloc : Int
  ms_vd_defer : Int
  ms_sm_alloc_delta : Int

def txgSlot (t : Nat) : Fin 4 := ⟨t % 4, by omega⟩

def cleanSlot (t : Nat) : Fin 4 := ⟨(t + 3) % 4, by omega⟩

def deferSlot (t : Nat) : Fin 2 := ⟨t % 2, by omega⟩

def ffupd {n : Nat} {β : Type} (f : Fin n → β) (k : Fin n) (v : β) : Fin n → β :=
  fun x => if x = k then v else f x

/- metaslab_sync(txg): writing the alloc/free records (or condensing) only
   changes the on-disk state; the in-core effect is vacating this txg's
   alloctree and, on pass 1, swapping freetree with the freed tree (on
   later passes, draining freetree into the freed tree).  When both this
   txg's alloctree and freetree are empty the function returns early. -/
def metaslab_sync_model (pass t : Nat) (s : MsPipe) : MsPipe :=
  if s.ms_alloctree (txgSlot t) = ∅ ∧ s.ms_freetree (txgSlot t) = ∅ then s
  else
    let s1 := { s with ms_alloctree := ffupd s.ms_alloctree (txgSlot t) ∅ }
    if pass = 1 then
      { s1 with
        ms_freetree :=
          ffupd (ffupd s1.ms_freetree (txgSlot t) (s.ms_freetree (cleanSlot t)))
            (cleanSlot t) (s.ms_freetree (txgSlot t)) }
    else
      { s1 with
        ms_freetree :=
          ffupd (ffupd s1.ms_freetree (cleanSlot t)
              (s.ms_freetree (cleanSlot t) ∪ s.ms_freetree (txgSlot t)))
            (txgSlot t) ∅ }

/- The condition under which metaslab_sync_done unloads the metaslab. -/
def sync_done_unloads (cfg : ZfsConfig) (t : Nat) (s : MsPipe) : Prop :=
  s.ms_loaded = true ∧ s.ms_access_txg < t ∧ cfg.metaslab_debug_unload = false

instance sync_done_unloads_dec (cfg t s) : Decidable (sync_done_unloads cfg t s) := by
  unfold sync_done_unloads; infer_instance

/- metaslab_sync_done(txg): push alloc_delta + defer_delta to the vdev
   counters, vacate the defer slot into the free tree (only when loaded),
   swap the freed tree into the emptied defer slot, account deferspace, and
   optionally unload an idle metaslab. -/
def metaslab_sync_done_model (cfg : ZfsConfig) (t : Nat) (s : MsPipe) : MsPipe :=
  let freed := s.ms_freetree (cleanSlot t)
  let defer := s.ms_defertree (deferSlot t)
  let defer_delta : Int := (freed.card : Int) - (defer.card : Int)
  let s1 :=
    { s with
      ms_vd_alloc := s.ms_vd_alloc + s.ms_sm_alloc_delta + defer_delta,
      ms_vd_defer := s.ms_vd_defer + defer_delta,
      ms_tree := if s.ms_loaded then s.ms_tree ∪ defer else s.ms_tree,
      ms_defertree := ffupd s.ms_defertree (deferSlot t) freed,
      ms_freetree := ffupd s.ms_freetree (cleanSlot t) ∅,
      ms_deferspace := s.ms_deferspace + defer_delta }
  if sync_done_unloads cfg t s then { s1 with ms_tree := ∅, ms_loaded := false }
  else s1

lemma ffupd_self {n β} (f : Fin n → β) (k : Fin n) (v : β) : ffupd f k v k = v := by
  simp [ffupd]

lemma ffupd_other {n β} (f : Fin n → β) {k j : Fin n} (v : β) (h : j ≠ k) :
    ffupd f k v j = f j := by
  simp [ffupd, h]

lemma sync_model_tree (pass t : Nat) (s : MsPipe) :
    (metaslab_sync_model pass t s).ms_tree = s.ms_tree := by
  unfold metaslab_sync_model
  split
  · rfl
  · split <;> rfl

lemma sync_model_defertree (pass t : Nat) (s : MsPipe) :
    (metaslab_sync_model pass t s).ms_defertree = s.ms_defertree := by
  unfold metaslab_sync_model
  split
  · rfl
  · split <;> rfl

lemma sync_model_loaded (pass t : Nat) (s : MsPipe) :
    (metaslab_sync_model pass t s).ms_loaded = s.ms_loaded := by
  unfold metaslab_sync_model
  split
  · rfl
  · split <;> rfl

lemma sync_model_access (pass t : Nat) (s : MsPipe) :
    (metaslab_sync_model pass t s).ms_access_txg = s.ms_access_txg := by
  unfold metaslab_sync_model
  split
  · rfl
  · split <;> rfl

lemma sync_model_free_disjoint (pass t : Nat) (s : MsPipe) (r : Finset Nat)
    (h : ∀ i, Disjoint r (s.ms_freetree i)) :
    ∀ i, Disjoint r ((metaslab_sync_model pass t s).ms_freetree i) := by
  intro i
  unfold metaslab_sync_model
  split
  · exact h i
  · split
    all_goals dsimp only
    · by_cases h1 : i = cleanSlot t
      · subst h1; rw [ffupd_self]; exact h _
      · rw [ffupd_other _ _ h1]
        by_cases h2 : i = txgSlot t
        · subst h2; rw [ffupd_self]; exact h _
        · rw [ffupd_other _ _ h2]; exact h i
    · by_cases h2 : i = txgSlot t
      · subst h2; rw [ffupd_self]; exact disjoint_bot_right
      · rw [ffupd_other _ _ h2]
        by_cases h1 : i = cleanSlot t
        · subst h1; rw [ffupd_self]
          exact Finset.disjoint_union_right.mpr ⟨h _, h _⟩
        · rw [ffupd_other _ _ h1]; exact h i

lemma cleanSlot_ne_txgSlot (t : Nat) : cleanSlot t ≠ txgSlot t := by
  simp only [cleanSlot, txgSlot, Ne, Fin.mk.injEq]
  omega

lemma sync1_step (t : Nat) (s : MsPipe) (r : Finset Nat) (hne : r.Nonempty)
    (hsub : r ⊆ s.ms_freetree (txgSlot t))
    (hothers : ∀ i, i ≠ txgSlot t → Disjoint r (s.ms_freetree i)) :
    r ⊆ (metaslab_sync_model 1 t s).ms_freetree (cleanSlot t) ∧
    ∀ i, i ≠ cleanSlot t → Disjoint r ((metaslab_sync_model 1 t s).ms_freetree i) := by
  have hfne : ¬(s.ms_alloctree (txgSlot t) = ∅ ∧ s.ms_freetree (txgSlot t) = ∅) := by
    rintro ⟨-, h2⟩
    rw [h2] at hsub
    obtain ⟨x, hx⟩ := hne
    exact absurd (hsub hx) (Finset.not_mem_empty x)
  unfold metaslab_sync_model
  rw [if_neg hfne, if_pos rfl]
  dsimp only
  constructor
  · rw [ffupd_self]; exact hsub
  · intro i hi
    rw [ffupd_other _ _ hi]
    by_cases h2 : i = txgSlot t
    · subst h2; rw [ffupd_self]
      exact hothers _ (cleanSlot_ne_txgSlot t)
    · rw [ffupd_other _ _ h2]; exact hothers i h2

lemma sync_done_defer_self (cfg : ZfsConfig) (t : Nat) (s : MsPipe) :
    (metaslab_sync_done_model cfg t s).ms_defertree (deferSlot t) =
      s.ms_freetree (cleanSlot t) := by
  unfold metaslab_sync_done_model
  dsimp only
  split <;> (dsimp only; exact ffupd_self _ _ _)

lemma sync_done_defer_other (cfg : ZfsConfig) (t : Nat) (s : MsPipe) {j : Fin 2}
    (h : j ≠ deferSlot t) :
    (metaslab_sync_done_model cfg t s).ms_defertree j = s.ms_defertree j := by
  unfold metaslab_sync_done_model
  dsimp only
  split <;> (dsimp only; exact ffupd_other _ _ h)

lemma sync_done_free_self (cfg : ZfsConfig) (t : Nat) (s : MsPipe) :
    (metaslab_sync_done_model cfg t s).ms_freetree (cleanSlot t) = ∅ := by
  unfold metaslab_sync_done_model
  dsimp only
  split <;> (dsimp only; exact ffupd_self _ _ _)

lemma sync_done_free_other (cfg : ZfsConfig) (t : Nat) (s : MsPipe) {i : Fin 4}
    (h : i ≠ cleanSlot t) :
    (metaslab_sync_done_model cfg t s).ms_freetree i = s.ms_freetree i := by
  unfold metaslab_sync_done_model
  dsimp only
  split <;> (dsimp only; exact ffupd_other _ _ h)

lemma sync_done_tree_loaded (cfg : ZfsConfig) (t : Nat) (s : MsPipe)
    (hl : s.ms_loaded = true) (hnu : ¬sync_done_unloads cfg t s) :
    (metaslab_sync_done_model cfg t s).ms_tree =
      s.ms_tree ∪ s.ms_defertree (deferSlot t) := by
  unfold metaslab_sync_done_model
  dsimp only
  rw [if_neg hnu]
  simp [hl]

lemma sync_done_tree_unloaded (cfg : ZfsConfig) (t : Nat) (s : MsPipe)
    (hl : s.ms_loaded = false) :
    (metaslab_sync_done_model cfg t s).ms_tree = s.ms_tree := by
  have hnu : ¬sync_done_unloads cfg t s := by
    rintro ⟨h1, -, -⟩; rw [hl] at h1; exact Bool.false_ne_true h1
  unfold metaslab_sync_done_model
  dsimp only
  rw [if_neg hnu]
  simp [hl]

lemma sync_done_loaded (cfg : ZfsConfig) (t : Nat) (s : MsPipe)
    (hnu : ¬sync_done_unloads cfg t s) :
    (metaslab_sync_done_model cfg t s).ms_loaded = s.ms_loaded := by
  unfold metaslab_sync_done_model
  dsimp only
  rw [if_neg hnu]

lemma sync_done_access (cfg : ZfsConfig) (t : Nat) (s : MsPipe) :
    (metaslab_sync_done_model cfg t s).ms_access_txg = s.ms_access_txg := by
  unfold metaslab_sync_done_model
  dsimp only
  split <;> rfl

lemma sync_done_counters (cfg : ZfsConfig) (t : Nat) (s : MsPipe) :
    (metaslab_sync_done_model cfg t s).ms_vd_defer =
      s.ms_vd_defer + ((s.ms_freetree (cleanSlot t)).card -
        (s.ms_defertree (deferSlot t)).card : Int) ∧
    (metaslab_sync_done_model cfg t s).ms_vd_alloc =
      s.ms_vd_alloc + s.ms_sm_alloc_delta + ((s.ms_freetree (cleanSlot t)).card -
        (s.ms_defertree (deferSlot t)).card : Int) := by
  unfold metaslab_sync_done_model
  dsimp only
  split <;> exact ⟨rfl, rfl⟩

lemma deferSlot_succ_ne (t : Nat) : deferSlot (t + 1) ≠ deferSlot t := by
  simp only [deferSlot, Ne, Fin.mk.injEq]
  omega

lemma deferSlot_add_two (t : Nat) : deferSlot (t + 2) = deferSlot t := by
  simp only [deferSlot, Fin.mk.injEq]
  omega

/- Concrete unloaded metaslab with a pending defer entry. -/
def c5s : MsPipe :=
  { ms_tree := ∅, ms_alloctree := fun _ => ∅, ms_freetree := fun _ => ∅,
    ms_defertree := fun i => if i = deferSlot 4 then {0} else ∅,
    ms_loaded := false, ms_access_txg := 100, ms_deferspace := 1,
    ms_vd_alloc := 0, ms_vd_defer := 0, ms_sm_alloc_delta := 0 }

/-- C5 counterexample: for an unloaded metaslab the defer contents are NOT
moved into the in-core free tree at metaslab_sync_done (the vacate callback
is NULL, so they are discarded); the claim asserts the move for every
metaslab, loaded or not. -/
theorem c5_sync_done_counterexample :
    (0 : Nat) ∈ c5s.ms_defertree (deferSlot 4) ∧
    (0 : Nat) ∉ (metaslab_sync_done_model {} 4 c5s).ms_tree := by
  decide

/-- C5 (amended): at metaslab_sync_done(t),
defer_delta = space(freed) − space(defer[t mod 2]) is pushed to the device
defer counter (and added together with alloc_delta to the alloc counter),
the defer contents are moved into the in-core free tree ONLY when the
metaslab is loaded (discarded otherwise), and the freed tree is swapped
with the emptied defer slot, leaving the freed tree empty. -/
theorem c5_sync_done_spec (cfg : ZfsConfig) (t : Nat) (s : MsPipe) :
    (metaslab_sync_done_model cfg t s).ms_vd_defer =
      s.ms_vd_defer + ((s.ms_freetree (cleanSlot t)).card -
        (s.ms_defertree (deferSlot t)).card : Int) ∧
    (metaslab_sync_done_model cfg t s).ms_vd_alloc =
      s.ms_vd_alloc + s.ms_sm_alloc_delta + ((s.ms_freetree (cleanSlot t)).card -
        (s.ms_defertree (deferSlot t)).card : Int) ∧
    (metaslab_sync_done_model cfg t s).ms_defertree (deferSlot t) =
      s.ms_freetree (cleanSlot t) ∧
    (metaslab_sync_done_model cfg t s).ms_freetree (cleanSlot t) = ∅ ∧
    (s.ms_loaded = true → ¬sync_done_unloads cfg t s →
      (metaslab_sync_done_model cfg t s).ms_tree =
        s.ms_tree ∪ s.ms_defertree (deferSlot t)) ∧
    (s.ms_loaded = false → (metaslab_sync_done_model cfg t s).ms_tree = s.ms_tree) :=
  ⟨(sync_done_counters cfg t s).1, (sync_done_counters cfg t s).2,
    sync_done_defer_self cfg t s, sync_done_free_self cfg t s,
    fun hl hnu => sync_done_tree_loaded cfg t s hl hnu,
    fun hl => sync_done_tree_unloaded cfg t s hl⟩

/- Concrete loaded metaslab at txg 7: freed = {1,2}, defer = {9}. -/
def c5sW : MsPipe :=
  { ms_tree := {5}, ms_alloctree := fun _ => ∅,
    ms_freetree := fun i => if i = cleanSlot 7 then {1, 2} else ∅,
    ms_defertree := fun i => if i = deferSlot 7 then {9} else ∅,
    ms_loaded := true, ms_access_txg := 10, ms_deferspace := 1,
    ms_vd_alloc := 0, ms_vd_defer := 0, ms_sm_alloc_delta := 3 }

/-- C5 witness: the sync_done effects at a concrete loaded metaslab. -/
theorem c5_sync_done_spec_witness :
    (metaslab_sync_done_model {} 7 c5sW).ms_vd_defer = 1 ∧
    (metaslab_sync_done_model {} 7 c5sW).ms_defertree (deferSlot 7) = {1, 2} ∧
    (metaslab_sync_done_model {} 7 c5sW).ms_freetree (cleanSlot 7) = ∅ ∧
    (metaslab_sync_done_model {} 7 c5sW).ms_tree = {5, 9} := by
  obtain ⟨h1, h2, h3, h4, h5, h6⟩ := c5_sync_done_spec {} 7 c5sW
  refine ⟨h1.trans (by decide), h3.trans (by decide), h4, ?_⟩
  exact (h5 rfl (by decide)).trans (by decide)

/- One full txg of the pipeline: metaslab_sync (pass 1) then
   metaslab_sync_done. -/
def pipeStep (cfg : ZfsConfig) (t : Nat) (s : MsPipe) : MsPipe :=
  metaslab_sync_done_model cfg t (metaslab_sync_model 1 t s)

/-- C1: a range r freed at txg T through the non-now path (r sits in
free[T mod 4] and nowhere else) stays out of the in-core free tree through
sync(T), sync_done(T), sync(T+1), sync_done(T+1) and sync(T+2) — so no
allocation, which only takes from the free tree, can return it — and
metaslab_sync_done(T+2) is the first step that places it back in the free
tree.  The metaslab is loaded and busy enough not to be unloaded
(access_txg ≥ T+2). -/
theorem c1_defer_pipeline (cfg : ZfsConfig) (T : Nat) (s0 : MsPipe) (r : Finset Nat)
    (hne : r.Nonempty)
    (hl : s0.ms_loaded = true)
    (hacc : T + 2 ≤ s0.ms_access_txg)
    (hsub : r ⊆ s0.ms_freetree (txgSlot T))
    (htree : Disjoint r s0.ms_tree)
    (hfree : ∀ i, i ≠ txgSlot T → Disjoint r (s0.ms_freetree i))
    (hdefer : ∀ j, Disjoint r (s0.ms_defertree j)) :
    Disjoint r (metaslab_sync_model 1 T s0).ms_tree ∧
    Disjoint r (pipeStep cfg T s0).ms_tree ∧
    Disjoint r (metaslab_sync_model 1 (T + 1) (pipeStep cfg T s0)).ms_tree ∧
    Disjoint r (pipeStep cfg (T + 1) (pipeStep cfg T s0)).ms_tree ∧
    Disjoint r
      (metaslab_sync_model 1 (T + 2)
        (pipeStep cfg (T + 1) (pipeStep cfg T s0))).ms_tree ∧
    r ⊆ (pipeStep cfg (T + 2) (pipeStep cfg (T + 1) (pipeStep cfg T s0))).ms_tree := by
  set s1 := metaslab_sync_model 1 T s0 with hs1
  -- after sync(T): r has moved to the freed slot, the free tree untouched
  obtain ⟨hs1sub, hs1oth⟩ := sync1_step T s0 r hne hsub hfree
  have hs1tree : Disjoint r s1.ms_tree := by
    rw [hs1, sync_model_tree]; exact htree
  have hs1def : ∀ j, Disjoint r (s1.ms_defertree j) := by
    intro j; rw [hs1, sync_model_defertree]; exact hdefer j
  have hs1loaded : s1.ms_loaded = true := by
    rw [hs1, sync_model_loaded]; exact hl
  have hs1acc : s1.ms_access_txg = s0.ms_access_txg := by
    rw [hs1, sync_model_access]
  -- after sync_done(T): r sits in defer[T mod 2]
  set s2 := metaslab_sync_done_model cfg T s1 with hs2
  have hnuT : ¬sync_done_unloads cfg T s1 := by
    rintro ⟨-, hlt, -⟩
    rw [hs1acc] at hlt
    omega
  have hs2tree : Disjoint r s2.ms_tree := by
    rw [hs2, sync_done_tree_loaded cfg T s1 hs1loaded hnuT]
    exact Finset.disjoint_union_right.mpr ⟨hs1tree, hs1def _⟩
  have hs2defT : r ⊆ s2.ms_defertree (deferSlot T) := by
    rw [hs2, sync_done_defer_self]; exact hs1sub
  have hs2defO : Disjoint r (s2.ms_defertree (deferSlot (T + 1))) := by
    rw [hs2, sync_done_defer_other cfg T s1 (deferSlot_succ_ne T)]
    exact hs1def _
  have hs2free : ∀ i, Disjoint r (s2.ms_freetree i) := by
    intro i
    by_cases hi : i = cleanSlot T
    · subst hi; rw [hs2, sync_done_free_self]; exact disjoint_bot_right
    · rw [hs2, sync_done_free_other cfg T s1 hi]; exact hs1oth i hi
  have hs2loaded : s2.ms_loaded = true := by
    rw [hs2, sync_done_loaded cfg T s1 hnuT]; exact hs1loaded
  have hs2acc : s2.ms_access_txg = s0.ms_access_txg := by
    rw [hs2, sync_done_access, hs1acc]
  -- after sync(T+1): nothing touching r moves
  set s3 := metaslab_sync_model 1 (T + 1) s2 with hs3
  have hs3tree : Disjoint r s3.ms_tree := by
    rw [hs3, sync_model_tree]; exact hs2tree
  have hs3defT : r ⊆ s3.ms_defertree (deferSlot T) := by
    rw [hs3, sync_model_defertree]; exact hs2defT
  have hs3defO : Disjoint r (s3.ms_defertree (deferSlot (T + 1))) := by
    rw [hs3, sync_model_defertree]; exact hs2defO
  have hs3free : ∀ i, Disjoint r (s3.ms_freetree i) :=
    sync_model_free_disjoint 1 (T + 1) s2 r hs2free
  have hs3loaded : s3.ms_loaded = true := by
    rw [hs3, sync_model_loaded]; exact hs2loaded
  have hs3acc : s3.ms_access_txg = s0.ms_access_txg := by
    rw [hs3, sync_model_access, hs2acc]
  -- after sync_done(T+1): the other defer slot is recycled; r stays put
  set s4 := metaslab_sync_done_model cfg (T + 1) s3 with hs4
  have hnuT1 : ¬sync_done_unloads cfg (T + 1) s3 := by
    rintro ⟨-, hlt, -⟩
    rw [hs3acc] at hlt
    omega
  have hs4tree : Disjoint r s4.ms_tree := by
    rw [hs4, sync_done_tree_loaded cfg (T + 1) s3 hs3loaded hnuT1]
    exact Finset.disjoint_union_right.mpr ⟨hs3tree, hs3defO⟩
  have hs4defT : r ⊆ s4.ms_defertree (deferSlot T) := by
    rw [hs4, sync_done_defer_other cfg (T + 1) s3 (deferSlot_succ_ne T).symm]
    exact hs3defT
  have hs4free : ∀ i, Disjoint r (s4.ms_freetree i) := by
    intro i
    by_cases hi : i = cleanSlot (T + 1)
    · subst hi; rw [hs4, sync_done_free_self]; exact disjoint_bot_right
    · rw [hs4, sync_done_free_other cfg (T + 1) s3 hi]; exact hs3free i
  have hs4loaded : s4.ms_loaded = true := by
    rw [hs4, sync_done_loaded cfg (T + 1) s3 hnuT1]; exact hs3loaded
  have hs4acc : s4.ms_access_txg = s0.ms_access_txg := by
    rw [hs4, sync_done_access, hs3acc]
  -- after sync(T+2)
  set s5 := metaslab_sync_model 1 (T + 2) s4 with hs5
  have hs5tree : Disjoint r s5.ms_tree := by
    rw [hs5, sync_model_tree]; exact hs4tree
  have hs5defT : r ⊆ s5.ms_defertree (deferSlot T) := by
    rw [hs5, sync_model_defertree]; exact hs4defT
  have hs5loaded : s5.ms_loaded = true := by
    rw [hs5, sync_model_loaded]; exact hs4loaded
  have hs5acc : s5.ms_access_txg = s0.ms_access_txg := by
    rw [hs5, sync_model_access, hs4acc]
  -- sync_done(T+2) finally vacates defer[T mod 2] into the free tree
  have hnuT2 : ¬sync_done_unloads cfg (T + 2) s5 := by
    rintro ⟨-, hlt, -⟩
    rw [hs5acc] at hlt
    omega
  have hfinal : r ⊆ (metaslab_sync_done_model cfg (T + 2) s5).ms_tree := by
    rw [sync_done_tree_loaded cfg (T + 2) s5 hs5loaded hnuT2]
    refine Finset.Subset.trans ?_ Finset.subset_union_right
    rw [deferSlot_add_two]
    exact hs5defT
  exact ⟨hs1tree, hs2tree, hs3tree, hs4tree, hs5tree, hfinal⟩

/- Concrete pipeline state: the range {7} freed at txg 5 and nowhere else. -/
def c1s0 : MsPipe :=
  { ms_tree := {100}, ms_alloctree := fun _ => ∅,
    ms_freetree := fun i => if i = txgSlot 5 then {7} else ∅,
    ms_defertree := fun _ => ∅, ms_loaded := true, ms_access_txg := 7,
    ms_deferspace := 0, ms_vd_alloc := 0, ms_vd_defer := 0,
    ms_sm_alloc_delta := 0 }

/-- C1 witness: the pipeline run at a concrete state with T = 5. -/
theorem c1_defer_pipeline_witness :
    Disjoint {7} (pipeStep {} 5 c1s0).ms_tree ∧
    Disjoint {7} (pipeStep {} 6 (pipeStep {} 5 c1s0)).ms_tree ∧
    ({7} : Finset Nat) ⊆ (pipeStep {} 7 (pipeStep {} 6 (pipeStep {} 5 c1s0))).ms_tree := by
  obtain ⟨-, h2, -, h4, -, h6⟩ :=
    c1_defer_pipeline {} 5 c1s0 {7} ⟨7, by decide⟩ rfl (by decide) (by decide)
      (by decide) (by decide) (by decide)
  exact ⟨h2, h4, h6⟩

/- Rotor-ring model (metaslab_group_activate / metaslab_group_passivate).
   Groups live in an arena indexed by Nat; the class holds the rotor
   pointer, each group its prev/next pointers and activation count. -/
structure RotorState where
  mc_rotor : Option Nat
  mg_next : Nat → Option Nat
  mg_prev : Nat → Option Nat
  mg_activation_count : Nat → Int

def rotorInit : RotorState :=
  { mc_rotor := none, mg_next := fun _ => none, mg_prev := fun _ => none,
    mg_activation_count := fun _ => 0 }

def upd {β : Type} (f : Nat → β) (k : Nat) (v : β) : Nat → β :=
  fun x => if x = k then v else f x

/- metaslab_group_activate: ++activation_count; if still ≤ 0 return;
   otherwise splice the group in right after the rotor and point the rotor
   at it (pointer assignments in source order). -/
def metaslab_group_activate (g : Nat) (s : RotorState) : RotorState :=
  let c := s.mg_activation_count g + 1
  let s0 := { s with mg_activation_count := upd s.mg_activation_count g c }
  if c ≤ 0 then s0
  else
    match s.mc_rotor with
    | none =>
      { s0 with
        mg_prev := upd s0.mg_prev g (some g),
        mg_next := upd s0.mg_next g (some g),
        mc_rotor := some g }
    | some mgprev =>
      let mgnext := (s.mg_next mgprev).getD mgprev
      { s0 with
        mg_prev := upd (upd s0.mg_prev g (some mgprev)) mgnext (some g),
        mg_next := upd (upd s0.mg_next g (some mgnext)) mgprev (some g),
        mc_rotor := some g }

/- metaslab_group_passivate: --activation_count; if nonzero return;
   otherwise unlink the group, moving the rotor to its successor (or to
   null if it was the only member). -/
def metaslab_group_passivate (g : Nat) (s : RotorState) : RotorState :=
  let c := s.mg_activation_count g - 1
  let s0 := { s with mg_activation_count := upd s.mg_activation_count g c }
  if c ≠ 0 then s0
  else
    let mgprev := (s.mg_prev g).getD g
    let mgnext := (s.mg_next g).getD g
    let s1 :=
      if mgnext = g then { s0 with mc_rotor := none }
      else
        { s0 with
          mc_rotor := some mgnext,
          mg_next := upd s0.mg_next mgprev (some mgnext),
          mg_prev := upd s0.mg_prev mgnext (some mgprev) }
    { s1 with
      mg_prev := upd s1.mg_prev g none,
      mg_next := upd s1.mg_next g none }

/- Valid call sequences: the ASSERTs at the top of
   metaslab_group_activate are its preconditions. -/
inductive RotorReachable : RotorState → Prop
  | init : RotorReachable rotorInit
  | activate (s : RotorState) (g : Nat) : RotorReachable s →
      s.mc_rotor ≠ some g →
      s.mg_prev g = none → s.mg_next g = none →
      s.mg_activation_count g ≤ 0 →
      RotorReachable (metaslab_group_activate g s)
  | passivate (s : RotorState) (g : Nat) : RotorReachable s →
      RotorReachable (metaslab_group_passivate g s)

/- Adjacent groups in the ring: next/prev pointers agree. -/
def ringRel (s : RotorState) (x y : Nat) : Prop :=
  s.mg_next x = some y ∧ s.mg_prev y = some x

/- The witness list l, read off from the rotor in next-order, forms a
   cycle: the linear chain l closed with a link back to its head. -/
def cyc (s : RotorState) (l : List Nat) : Prop :=
  List.Chain' (ringRel s) (l ++ l.head?.toList)

/- Full ring invariant with witness list l. -/
def RingInv (s : RotorState) (l : List Nat) : Prop :=
  l.Nodup ∧
  (∀ g, (0 < s.mg_activation_count g ↔ g ∈ l) ∧ s.mg_activation_count g ≤ 1) ∧
  (∀ g, g ∉ l → s.mg_next g = none ∧ s.mg_prev g = none) ∧
  s.mc_rotor = l.head? ∧
  cyc s l

lemma cyc_nil (s : RotorState) : cyc s [] := List.chain'_nil

lemma cyc_cons (s : RotorState) (x : Nat) (xs : List Nat) :
    cyc s (x :: xs) ↔ List.Chain' (ringRel s) (x :: (xs ++ [x])) := by
  simp [cyc]

/- Rotating the ring by one preserves the cycle property. -/
lemma cyc_rotate_one (s : RotorState) (x : Nat) (xs : List Nat)
    (h : cyc s (x :: xs)) : cyc s (xs ++ [x]) := by
  cases xs with
  | nil => simpa [cyc] using h
  | cons u ys =>
    have h' : List.Chain' (ringRel s) (x :: u :: (ys ++ [x])) := by
      simpa [cyc] using h
    rw [List.chain'_cons] at h'
    show List.Chain' (ringRel s) (((u :: ys) ++ [x]) ++ [u])
    refine List.Chain'.append ?_ (List.chain'_singleton u) ?_
    · exact h'.2
    · intro a ha b hb
      rw [List.getLast?_concat] at ha
      simp at ha hb
      subst ha
      subst hb
      exact h'.1

/- Rotating until g is at the head. -/
lemma cyc_to_head (s : RotorState) :
    ∀ (C : List Nat) (g : Nat) (D : List Nat),
      cyc s (C ++ g :: D) → cyc s (g :: (D ++ C)) := by
  intro C
  induction C with
  | nil => intro g D h; simpa using h
  | cons c C' ih =>
    intro g D h
    have h1 : cyc s ((C' ++ g :: D) ++ [c]) := cyc_rotate_one s c (C' ++ g :: D) h
    have h2 : (C' ++ g :: D) ++ [c] = C' ++ g :: (D ++ [c]) := by simp
    rw [h2] at h1
    have h3 := ih g (D ++ [c]) h1
    simpa using h3

/- A chain transports along a pointer update that leaves every link source
   (an element of dropLast) and every link target (an element of tail)
   untouched. -/
lemma chain'_congr_ptr {R R' : Nat → Nat → Prop} :
    ∀ {l : List Nat}, (∀ x y, x ∈ l.dropLast → y ∈ l.tail → R x y → R' x y) →
      List.Chain' R l → List.Chain' R' l := by
  intro l
  induction l with
  | nil => intro _ _; exact List.chain'_nil
  | cons a t ih =>
    cases t with
    | nil => intro _ _; exact List.chain'_singleton a
    | cons b u =>
      intro h hc
      rw [List.chain'_cons] at hc ⊢
      refine ⟨h a b (by simp) (by simp) hc.1, ih ?_ hc.2⟩
      intro x y hx hy
      refine h x y ?_ (List.mem_cons_of_mem _ hy)
      rw [List.dropLast_cons₂]
      exact List.mem_cons_of_mem _ hx

lemma upd_self {β : Type} (f : Nat → β) (k : Nat) (v : β) : upd f k v k = v := by
  simp [upd]

lemma upd_other {β : Type} (f : Nat → β) {k j : Nat} (v : β) (h : j ≠ k) :
    upd f k v j = f j := by
  simp [upd, h]

lemma cyc_congr {s s' : RotorState} (h1 : s'.mg_next = s.mg_next)
    (h2 : s'.mg_prev = s.mg_prev) {l : List Nat} (h : cyc s l) : cyc s' l := by
  unfold cyc at *
  have hr : ringRel s' = ringRel s := by
    funext x y
    unfold ringRel
    rw [h1, h2]
  rw [hr]
  exact h

lemma activate_cnt (g : Nat) (s : RotorState) :
    (metaslab_group_activate g s).mg_activation_count =
      upd s.mg_activation_count g (s.mg_activation_count g + 1) := by
  unfold metaslab_group_activate
  dsimp only
  split
  · rfl
  · split <;> rfl

lemma activate_early (g : Nat) (s : RotorState)
    (h : s.mg_activation_count g + 1 ≤ 0) :
    (metaslab_group_activate g s).mg_next = s.mg_next ∧
    (metaslab_group_activate g s).mg_prev = s.mg_prev ∧
    (metaslab_group_activate g s).mc_rotor = s.mc_rotor := by
  unfold metaslab_group_activate
  dsimp only
  rw [if_pos h]
  exact ⟨rfl, rfl, rfl⟩

lemma activate_none_fields (g : Nat) (s : RotorState)
    (hc : ¬s.mg_activation_count g + 1 ≤ 0) (hr : s.mc_rotor = none) :
    (metaslab_group_activate g s).mg_next = upd s.mg_next g (some g) ∧
    (metaslab_group_activate g s).mg_prev = upd s.mg_prev g (some g) ∧
    (metaslab_group_activate g s).mc_rotor = some g := by
  unfold metaslab_group_activate
  dsimp only
  rw [if_neg hc, hr]
  exact ⟨rfl, rfl, rfl⟩

lemma activate_some_fields (g : Nat) (s : RotorState) (p : Nat)
    (hc : ¬s.mg_activation_count g + 1 ≤ 0) (hr : s.mc_rotor = some p) :
    (metaslab_group_activate g s).mg_next =
      upd (upd s.mg_next g (some ((s.mg_next p).getD p))) p (some g) ∧
    (metaslab_group_activate g s).mg_prev =
      upd (upd s.mg_prev g (some p)) ((s.mg_next p).getD p) (some g) ∧
    (metaslab_group_activate g s).mc_rotor = some g := by
  unfold metaslab_group_activate
  dsimp only
  rw [if_neg hc, hr]
  exact ⟨rfl, rfl, rfl⟩

lemma passivate_cnt (g : Nat) (s : RotorState) :
    (metaslab_group_passivate g s).mg_activation_count =
      upd s.mg_activation_count g (s.mg_activation_count g - 1) := by
  unfold metaslab_group_passivate
  dsimp only
  split
  · rfl
  · split <;> rfl

lemma passivate_early (g : Nat) (s : RotorState)
    (h : s.mg_activation_count g - 1 ≠ 0) :
    (metaslab_group_passivate g s).mg_next = s.mg_next ∧
    (metaslab_group_passivate g s).mg_prev = s.mg_prev ∧
    (metaslab_group_passivate g s).mc_rotor = s.mc_rotor := by
  unfold metaslab_group_passivate
  dsimp only
  rw [if_pos h]
  exact ⟨rfl, rfl, rfl⟩

lemma passivate_single_fields (g : Nat) (s : RotorState)
    (h : ¬s.mg_activation_count g - 1 ≠ 0) (hn : (s.mg_next g).getD g = g) :
    (metaslab_group_passivate g s).mg_next = upd s.mg_next g none ∧
    (metaslab_group_passivate g s).mg_prev = upd s.mg_prev g none ∧
    (metaslab_group_passivate g s).mc_rotor = none := by
  unfold metaslab_group_passivate
  dsimp only
  rw [if_neg h, hn, if_pos rfl]
  exact ⟨rfl, rfl, rfl⟩

lemma passivate_multi_fields (g : Nat) (s : RotorState)
    (h : ¬s.mg_activation_count g - 1 ≠ 0) (hn : (s.mg_next g).getD g ≠ g) :
    (metaslab_group_passivate g s).mg_next =
      upd (upd s.mg_next ((s.mg_prev g).getD g) (some ((s.mg_next g).getD g))) g none ∧
    (metaslab_group_passivate g s).mg_prev =
      upd (upd s.mg_prev ((s.mg_next g).getD g) (some ((s.mg_prev g).getD g))) g none ∧
    (metaslab_group_passivate g s).mc_rotor = some ((s.mg_next g).getD g) := by
  unfold metaslab_group_passivate
  dsimp only
  rw [if_neg h, if_neg hn]
  exact ⟨rfl, rfl, rfl⟩

lemma ringInv_activate {s : RotorState} {l : List Nat} {g : Nat}
    (hinv : RingInv s l)
    (hrot : s.mc_rotor ≠ some g) (hp : s.mg_prev g = none)
    (hn : s.mg_next g = none) (hc : s.mg_activation_count g ≤ 0) :
    ∃ l', RingInv (metaslab_group_activate g s) l' := by
  obtain ⟨hnd, hcnt, hout, hrotm, hcyc⟩ := hinv
  have hgout : g ∉ l := fun hmem => by
    have := (hcnt g).1.mpr hmem
    omega
  by_cases hc1 : s.mg_activation_count g + 1 ≤ 0
  · -- activation count still non-positive: no structural change
    obtain ⟨e1, e2, e3⟩ := activate_early g s hc1
    refine ⟨l, hnd, ?_, ?_, ?_, ?_⟩
    · intro g'
      rw [activate_cnt]
      by_cases hg : g' = g
      · subst hg
        rw [upd_self]
        constructor
        · constructor
          · intro h0; omega
          · intro hmem; exact absurd hmem hgout
        · omega
      · rw [upd_other _ _ hg]
        exact hcnt g'
    · intro y hy
      rw [e1, e2]
      exact hout y hy
    · rw [e3]; exact hrotm
    · exact cyc_congr e1 e2 hcyc
  · have hc2 : s.mg_activation_count g + 1 = 1 := by omega
    cases hrcase : s.mc_rotor with
    | none =>
      obtain ⟨e1, e2, e3⟩ := activate_none_fields g s hc1 hrcase
      have hl : l = [] := by
        have hh : l.head? = none := (hrotm.symm.trans hrcase)
        exact List.head?_eq_none_iff.mp hh
      subst hl
      refine ⟨[g], by simp, ?_, ?_, ?_, ?_⟩
      · intro g'
        rw [activate_cnt]
        by_cases hg : g' = g
        · subst hg
          rw [upd_self]
          constructor
          · simp [hc2]
          · omega
        · rw [upd_other _ _ hg]
          constructor
          · simp only [List.mem_singleton]
            exact Iff.trans (hcnt g').1 (by simp [hg])
          · exact (hcnt g').2
      · intro y hy
        simp at hy
        rw [e1, e2, upd_other _ _ hy, upd_other _ _ hy]
        exact hout y (by simp)
      · rw [e3]; rfl
      · show List.Chain' (ringRel (metaslab_group_activate g s)) [g, g]
        rw [List.chain'_cons]
        refine ⟨⟨?_, ?_⟩, List.chain'_singleton g⟩
        · rw [e1, upd_self]
        · rw [e2, upd_self]
    | some p =>
      obtain ⟨e1, e2, e3⟩ := activate_some_fields g s p hc1 hrcase
      have hh : l.head? = some p := (hrotm.symm.trans hrcase)
      obtain ⟨xs, rfl⟩ : ∃ xs, l = p :: xs := by
        cases l with
        | nil => simp at hh
        | cons a b => simp at hh; exact ⟨b, by rw [hh]⟩
      have hgp : g ≠ p := by
        intro h0; subst h0; exact hgout (by simp)
      obtain ⟨u, rest, hur⟩ : ∃ u rest, xs ++ [p] = u :: rest := by
        cases hm2 : xs ++ [p] with
        | nil => simp at hm2
        | cons a b => exact ⟨a, b, rfl⟩
      have hchain : List.Chain' (ringRel s) (p :: (xs ++ [p])) := by
        simpa [cyc] using hcyc
      have hchain' : List.Chain' (ringRel s) (p :: u :: rest) := by
        rw [hur] at hchain
        exact hchain
      have hsplit := List.chain'_cons.mp hchain'
      have hpu : ringRel s p u := hsplit.1
      have hgetd : (s.mg_next p).getD p = u := by rw [hpu.1]; rfl
      have hperm : (xs ++ [p]).Perm (p :: xs) := List.perm_append_singleton p xs
      have hndm : (xs ++ [p]).Nodup := hperm.symm.nodup hnd
      have hgm : g ∉ xs ++ [p] := fun hmem => hgout (hperm.mem_iff.mp hmem)
      have hpm : p ∈ xs ++ [p] := by simp
      have hum : u ∈ xs ++ [p] := by rw [hur]; simp
      have hgu : g ≠ u := fun h0 => hgm (by rw [h0]; exact hum)
      refine ⟨g :: (xs ++ [p]), ?_, ?_, ?_, ?_, ?_⟩
      · exact List.nodup_cons.mpr ⟨hgm, hndm⟩
      · intro g'
        rw [activate_cnt]
        by_cases hg : g' = g
        · subst hg
          rw [upd_self]
          constructor
          · simp [hc2]
          · omega
        · rw [upd_other _ _ hg]
          have hmemiff : g' ∈ g :: (xs ++ [p]) ↔ g' ∈ p :: xs := by
            rw [List.mem_cons]
            constructor
            · rintro (h0 | h0)
              · exact absurd h0 hg
              · exact hperm.mem_iff.mp h0
            · intro h0
              exact Or.inr (hperm.mem_iff.mpr h0)
          exact ⟨Iff.trans (hcnt g').1 hmemiff.symm, (hcnt g').2⟩
      · intro y hy
        rw [List.mem_cons] at hy
        push_neg at hy
        have hyl : y ∉ p :: xs := fun h0 => hy.2 (hperm.mem_iff.mpr h0)
        have hyg : y ≠ g := hy.1
        have hyp : y ≠ p := fun h0 => hy.2 (by rw [h0]; exact hpm)
        have hyu : y ≠ u := fun h0 => hy.2 (by rw [h0]; exact hum)
        rw [e1, e2, hgetd]
        rw [upd_other _ _ hyp, upd_other _ _ hyg, upd_other _ _ hyu,
          upd_other _ _ hyg]
        exact hout y hyl
      · rw [e3]; rfl
      · have hrelgu : ringRel (metaslab_group_activate g s) g u := by
          constructor
          · rw [e1, hgetd, upd_other _ _ hgp, upd_self]
          · rw [e2, hgetd, upd_self]
        have hjunction : ringRel (metaslab_group_activate g s) p g := by
          constructor
          · rw [e1, hgetd, upd_self]
          · rw [e2, hgetd, upd_other _ _ hgu, upd_self]
        have hchain2 : List.Chain' (ringRel (metaslab_group_activate g s))
            (u :: rest) := by
          refine chain'_congr_ptr ?_ hsplit.2
          intro x y hx hy hxy
          have hxm : x ∈ xs ++ [p] := by
            rw [hur]
            exact List.dropLast_subset _ hx
          have hym : y ∈ xs ++ [p] := by
            rw [hur]
            exact List.mem_cons_of_mem _ hy
          have hxg : x ≠ g := fun h0 => hgm (by rw [← h0]; exact hxm)
          have hyg : y ≠ g := fun h0 => hgm (by rw [← h0]; exact hym)
          have hpdrop : p ∉ (u :: rest).dropLast := by
            rw [← hur, List.dropLast_concat]
            exact (List.nodup_cons.mp hnd).1
          have hxp : x ≠ p := fun h0 => hpdrop (by rw [← h0]; exact hx)
          have hyu : y ≠ u := by
            intro h0
            have hnur : (u :: rest).Nodup := by rw [← hur]; exact hndm
            exact (List.nodup_cons.mp hnur).1 (by rw [← h0]; exact hy)
          constructor
          · rw [e1, hgetd, upd_other _ _ hxp, upd_other _ _ hxg]
            exact hxy.1
          · rw [e2, hgetd, upd_other _ _ hyu, upd_other _ _ hyg]
            exact hxy.2
        show List.Chain' (ringRel (metaslab_group_activate g s))
          ((g :: (xs ++ [p])) ++ [g])
        rw [hur]
        rw [show (g :: u :: rest) ++ [g] = (g :: u :: rest) ++ [g] from rfl]
        refine List.Chain'.append ?_ (List.chain'_singleton g) ?_
        · rw [List.chain'_cons]
          exact ⟨hrelgu, hchain2⟩
        · intro a ha b hb
          simp at hb
          subst hb
          have hlast : (g :: u :: rest).getLast? = some p := by
            rw [show g :: u :: rest = g :: (u :: rest) from rfl, ← hur]
            rw [show g :: (xs ++ [p]) = (g :: xs) ++ [p] by simp]
            exact List.getLast?_concat _
          rw [hlast] at ha
          simp at ha
          subst ha
          exact hjunction

lemma getLast_not_mem_dropLast {l : List Nat} (hnd : l.Nodup) (h : l ≠ []) :
    l.getLast h ∉ l.dropLast := by
  intro hmem
  have heq : l.dropLast ++ [l.getLast h] = l := List.dropLast_append_getLast h
  have : (l.dropLast ++ [l.getLast h]).Nodup := by rw [heq]; exact hnd
  have hdisj := (List.nodup_append.mp this).2.2
  exact hdisj hmem (by simp)

lemma ringInv_passivate {s : RotorState} {l : List Nat} (g : Nat)
    (hinv : RingInv s l) :
    ∃ l', RingInv (metaslab_group_passivate g s) l' := by
  obtain ⟨hnd, hcnt, hout, hrotm, hcyc⟩ := hinv
  by_cases hc1 : s.mg_activation_count g - 1 ≠ 0
  · -- count not zero after decrement: no structural change, g was not a member
    have hgout : g ∉ l := by
      intro hmem
      have h1 := (hcnt g).1.mpr hmem
      have h2 := (hcnt g).2
      exact hc1 (by omega)
    obtain ⟨e1, e2, e3⟩ := passivate_early g s hc1
    refine ⟨l, hnd, ?_, ?_, ?_, ?_⟩
    · intro g'
      rw [passivate_cnt]
      by_cases hg : g' = g
      · rw [hg, upd_self]
        have h1 := (hcnt g).1
        refine ⟨⟨fun h0 => h1.mp (by omega), fun hmem => absurd hmem hgout⟩, ?_⟩
        have := (hcnt g).2
        omega
      · rw [upd_other _ _ hg]
        exact hcnt g'
    · intro y hy
      rw [e1, e2]
      exact hout y hy
    · rw [e3]; exact hrotm
    · exact cyc_congr e1 e2 hcyc
  · -- count reached zero: g was an active member, unlink it
    have hgmem : g ∈ l := (hcnt g).1.mp (by omega)
    obtain ⟨C, D, rfl⟩ : ∃ C D, l = C ++ g :: D := List.append_of_mem hgmem
    have hcyc2 : cyc s (g :: (D ++ C)) := cyc_to_head s C g D hcyc
    have hperm : (C ++ g :: D).Perm (g :: (D ++ C)) :=
      List.perm_middle.trans ((List.perm_append_comm).cons g)
    have hndM : (g :: (D ++ C)).Nodup := hperm.nodup hnd
    have hgM : g ∉ D ++ C := (List.nodup_cons.mp hndM).1
    cases hM : D ++ C with
    | nil =>
      -- g was the only member
      have hchgg : ringRel s g g := by
        have h0 : List.Chain' (ringRel s) [g, g] := by
          have := hcyc2
          rw [hM] at this
          simpa [cyc] using this
        exact (List.chain'_cons.mp h0).1
      have hgetd : (s.mg_next g).getD g = g := by rw [hchgg.1]; rfl
      obtain ⟨e1, e2, e3⟩ := passivate_single_fields g s hc1 hgetd
      refine ⟨[], by simp, ?_, ?_, ?_, cyc_nil _⟩
      · intro g'
        rw [passivate_cnt]
        by_cases hg : g' = g
        · rw [hg, upd_self]
          have := (hcnt g).2
          refine ⟨⟨fun h0 => by omega, fun hmem => by simp at hmem⟩, by omega⟩
        · rw [upd_other _ _ hg]
          have h1 := (hcnt g').1
          have hmm : g' ∈ C ++ g :: D ↔ False := by
            constructor
            · intro hmem
              have := hperm.mem_iff.mp hmem
              rw [hM] at this
              simp at this
              exact hg this
            · intro h0; exact absurd h0 (by simp)
          refine ⟨Iff.trans h1 (by rw [hmm]; simp), (hcnt g').2⟩
      · intro y _
        by_cases hyg : y = g
        · rw [hyg, e1, e2, upd_self, upd_self]
          exact ⟨rfl, rfl⟩
        · rw [e1, e2, upd_other _ _ hyg, upd_other _ _ hyg]
          refine hout y ?_
          intro hmem
          have := hperm.mem_iff.mp hmem
          rw [hM] at this
          simp at this
          exact hyg this
      · rw [e3]; rfl
    | cons u rest =>
      -- at least one other member remains
      have hcyc3 : List.Chain' (ringRel s) (g :: u :: (rest ++ [g])) := by
        have := hcyc2
        rw [hM] at this
        simpa [cyc] using this
      have hsplit := List.chain'_cons.mp hcyc3
      have hgu : ringRel s g u := hsplit.1
      have hgetdn : (s.mg_next g).getD g = u := by rw [hgu.1]; rfl
      have hgMur : g ∉ u :: rest := by rw [← hM]; exact hgM
      have hug : u ≠ g := fun h0 => hgMur (by rw [← h0]; simp)
      have hndur : (u :: rest).Nodup := by
        rw [← hM]
        exact (List.nodup_cons.mp hndM).2
      have hurne : (u :: rest) ≠ [] := by simp
      set w := (u :: rest).getLast hurne with hwdef
      have hwmem : w ∈ u :: rest := List.getLast_mem hurne
      have hwg : w ≠ g := fun h0 => hgMur (by rw [← h0]; exact hwmem)
      have hwrel : ringRel s w g := by
        have hconv : g :: u :: (rest ++ [g]) = (g :: u :: rest) ++ [g] := by simp
        rw [hconv] at hcyc3
        have hj := (List.chain'_append.mp hcyc3).2.2
        refine hj w ?_ g (by simp)
        rw [List.getLast?_cons_cons]
        rw [List.getLast?_eq_getLast _ hurne]
        rfl
      have hgetdp : (s.mg_prev g).getD g = w := by rw [hwrel.2]; rfl
      have hneq : (s.mg_next g).getD g ≠ g := by rw [hgetdn]; exact hug
      obtain ⟨e1, e2, e3⟩ := passivate_multi_fields g s hc1 hneq
      rw [hgetdn] at e1 e2 e3
      rw [hgetdp] at e1 e2
      refine ⟨u :: rest, hndur, ?_, ?_, ?_, ?_⟩
      · intro g'
        rw [passivate_cnt]
        by_cases hg : g' = g
        · rw [hg, upd_self]
          have := (hcnt g).2
          refine ⟨⟨fun h0 => by omega, fun hmem => absurd hmem hgMur⟩, by omega⟩
        · rw [upd_other _ _ hg]
          have h1 := (hcnt g').1
          have hmm : g' ∈ C ++ g :: D ↔ g' ∈ u :: rest := by
            rw [hperm.mem_iff, hM]
            simp [hg]
          exact ⟨Iff.trans h1 hmm, (hcnt g').2⟩
      · intro y hy
        by_cases hyg : y = g
        · rw [hyg, e1, e2, upd_self, upd_self]
          exact ⟨rfl, rfl⟩
        · have hyw : y ≠ w := fun h0 => hy (by rw [h0]; exact hwmem)
          have hyu : y ≠ u := fun h0 => hy (by rw [h0]; simp)
          have hyl : y ∉ C ++ g :: D := by
            intro hmem
            have := hperm.mem_iff.mp hmem
            rw [hM] at this
            simp at this
            rcases this with h0 | h0
            · exact hyg h0
            · exact hy (by simp [h0])
          rw [e1, e2, upd_other _ _ hyg, upd_other _ _ hyw,
            upd_other _ _ hyg, upd_other _ _ hyu]
          exact hout y hyl
      · rw [e3]; rfl
      · have hjun : ringRel (metaslab_group_passivate g s) w u := by
          constructor
          · rw [e1, upd_other _ _ hwg, upd_self]
          · rw [e2, upd_other _ _ hug, upd_self]
        have hchainur : List.Chain' (ringRel s) (u :: rest) := by
          have hconv : u :: (rest ++ [g]) = (u :: rest) ++ [g] := by simp
          have h0 := hsplit.2
          rw [hconv] at h0
          exact (List.chain'_append.mp h0).1
        have hchain2 : List.Chain' (ringRel (metaslab_group_passivate g s))
            (u :: rest) := by
          refine chain'_congr_ptr ?_ hchainur
          intro x y hx hy hxy
          have hxur : x ∈ u :: rest := List.dropLast_subset _ hx
          have hyur : y ∈ u :: rest := List.mem_cons_of_mem _ hy
          have hxg : x ≠ g := fun h0 => hgMur (by rw [← h0]; exact hxur)
          have hyg : y ≠ g := fun h0 => hgMur (by rw [← h0]; exact hyur)
          have hxw : x ≠ w := by
            intro h0
            have := getLast_not_mem_dropLast hndur hurne
            rw [← hwdef] at this
            exact this (h0 ▸ hx)
          have hyu : y ≠ u := by
            intro h0
            exact (List.nodup_cons.mp hndur).1 (h0 ▸ hy)
          constructor
          · rw [e1, upd_other _ _ hxg, upd_other _ _ hxw]
            exact hxy.1
          · rw [e2, upd_other _ _ hyg, upd_other _ _ hyu]
            exact hxy.2
        show List.Chain' (ringRel (metaslab_group_passivate g s))
          ((u :: rest) ++ [u])
        refine List.Chain'.append hchain2 (List.chain'_singleton u) ?_
        intro a ha b hb
        simp at hb
        subst hb
        rw [List.getLast?_eq_getLast _ hurne] at ha
        simp at ha
        rw [← hwdef] at ha
        subst ha
        exact hjun

lemma ringInv_init : RingInv rotorInit [] := by
  refine ⟨List.nodup_nil, ?_, ?_, rfl, cyc_nil _⟩
  · intro g
    constructor
    · simp [rotorInit]
    · simp [rotorInit]
  · intro g _
    exact ⟨rfl, rfl⟩

lemma rotor_reachable_inv {s : RotorState} (h : RotorReachable s) :
    ∃ l, RingInv s l := by
  induction h with
  | init => exact ⟨[], ringInv_init⟩
  | activate s g _ hrot hp hn hc ih =>
    obtain ⟨l, hinv⟩ := ih
    exact ringInv_activate hinv hrot hp hn hc
  | passivate s g _ ih =>
    obtain ⟨l, hinv⟩ := ih
    exact ringInv_passivate g hinv

lemma ringInv_member_ptrs {s : RotorState} {l : List Nat} (hinv : RingInv s l)
    {g : Nat} (hg : g ∈ l) : s.mg_next g ≠ none ∧ s.mg_prev g ≠ none := by
  obtain ⟨hnd, hcnt, hout, hrotm, hcyc⟩ := hinv
  obtain ⟨C, D, rfl⟩ : ∃ C D, l = C ++ g :: D := List.append_of_mem hg
  have hcyc2 : cyc s (g :: (D ++ C)) := cyc_to_head s C g D hcyc
  cases hM : D ++ C with
  | nil =>
    have h0 : List.Chain' (ringRel s) [g, g] := by
      have := hcyc2
      rw [hM] at this
      simpa [cyc] using this
    have hrel := (List.chain'_cons.mp h0).1
    exact ⟨by rw [hrel.1]; simp, by rw [hrel.2]; simp⟩
  | cons u rest =>
    have hcyc3 : List.Chain' (ringRel s) (g :: u :: (rest ++ [g])) := by
      have := hcyc2
      rw [hM] at this
      simpa [cyc] using this
    have hgu : ringRel s g u := (List.chain'_cons.mp hcyc3).1
    have hurne : (u :: rest) ≠ [] := by simp
    have hwrel : ringRel s ((u :: rest).getLast hurne) g := by
      have hconv : g :: u :: (rest ++ [g]) = (g :: u :: rest) ++ [g] := by simp
      rw [hconv] at hcyc3
      have hj := (List.chain'_append.mp hcyc3).2.2
      refine hj _ ?_ g (by simp)
      rw [List.getLast?_cons_cons, List.getLast?_eq_getLast _ hurne]
      rfl
    exact ⟨by rw [hgu.1]; simp, by rw [hwrel.2]; simp⟩

/-- C9: from a newly created class (null rotor, all activation counts 0,
all prev/next pointers null), after any valid sequence of
metaslab_group_activate / metaslab_group_passivate calls, the rotor is
null iff no group is active (activation count > 0), and the active groups
form a duplicate-free list that starts at the rotor and is cyclically
linked by the prev/next pointers, so every active group appears exactly
once in the ring and has non-null prev and next. -/
theorem c9_rotor_ring (s : RotorState) (h : RotorReachable s) :
    (s.mc_rotor = none ↔ ∀ g, s.mg_activation_count g ≤ 0) ∧
    ∃ l : List Nat, l.Nodup ∧ (∀ g, 0 < s.mg_activation_count g ↔ g ∈ l) ∧
      s.mc_rotor = l.head? ∧ cyc s l ∧
      ∀ g ∈ l, s.mg_next g ≠ none ∧ s.mg_prev g ≠ none := by
  obtain ⟨l, hinv⟩ := rotor_reachable_inv h
  obtain ⟨hnd, hcnt, hout, hrotm, hcyc⟩ := hinv
  constructor
  · constructor
    · intro h0 g
      have hl : l = [] := List.head?_eq_none_iff.mp (hrotm.symm.trans h0)
      have h1 := (hcnt g).1
      rw [hl] at h1
      simp at h1
      omega
    · intro hall
      cases hl : l with
      | nil => rw [hrotm, hl]; rfl
      | cons x xs =>
        have hx : x ∈ l := by rw [hl]; simp
        have h1 := (hcnt x).1.mpr hx
        have h2 := hall x
        omega
  · refine ⟨l, hnd, fun g => (hcnt g).1, hrotm, hcyc, fun g hg => ?_⟩
    exact ringInv_member_ptrs ⟨hnd, hcnt, hout, hrotm, hcyc⟩ hg

/-- C9 witness: one activation from the initial state. -/
theorem c9_rotor_ring_witness :
    (metaslab_group_activate 0 rotorInit).mc_rotor ≠ none ∧
    (metaslab_group_activate 0 rotorInit).mg_next 0 ≠ none ∧
    (metaslab_group_activate 0 rotorInit).mg_prev 0 ≠ none := by
  have h := c9_rotor_ring (metaslab_group_activate 0 rotorInit)
    (RotorReachable.activate rotorInit 0 RotorReachable.init
      (by simp [rotorInit]) rfl rfl (by simp [rotorInit]))
  have hcnt0 : 0 < (metaslab_group_activate 0 rotorInit).mg_activation_count 0 := by
    rw [activate_cnt, upd_self]
    simp [rotorInit]
  refine ⟨?_, ?_⟩
  · intro h0
    have := h.1.mp h0 0
    omega
  · obtain ⟨l, -, hmem, -, -, hptr⟩ := h.2
    exact hptr 0 ((hmem 0).mp hcnt0)

/- DVA: (vdev id, byte offset, allocated size, gang bit). -/
structure Dva where
  dva_vdev : Nat
  dva_offset : Nat
  dva_asize : Nat
  dva_gang : Bool
deriving DecidableEq, Repr

/- SPA state for the facade operations; vdevs are indexed by their id. -/
structure SpaM where
  spa_vdevs : List VdevM
  spa_writeable : Bool
  spa_freeze_txg : Nat

def SPA_GANGBLOCKSIZE : Nat := SPA_MINBLOCKSIZE

/- Modelled from the spec: vdev_psize_to_asize rounds the physical size up
   to the device's allocation unit (vdev.c is not in the excerpt). -/
def vdev_psize_to_asize (vd : VdevM) (psize : Nat) : Nat :=
  p2roundup psize (2 ^ vd.vdev_ashift)

/- metaslab_load: replay the space map in SM_FREE sense (all space free
   when no space map exists) and subtract the deferred frees. -/
def metaslab_load_model (m : MetaslabM) : MetaslabM :=
  let t0 := if m.ms_sm_present then m.ms_smfree
            else [⟨m.ms_start, m.ms_start + m.ms_size⟩]
  let t1 := ((m.ms_defertree 0) ++ (m.ms_defertree 1)).foldl
    (fun t sg => range_tree_remove t sg.rs_start (segLen sg)) t0
  { m with ms_loaded := true, ms_tree := t1 }

/- metaslab_activate: load if needed, then sort into the group with the
   activation weight OR'd in.  Space-map I/O succeeds in the model, so the
   error path of metaslab_load never triggers. -/
def metaslab_activate_model (m : MetaslabM) (activation_weight : Nat) : MetaslabM :=
  if m.ms_weight &&& METASLAB_ACTIVE_MASK = 0 then
    let m1 := if m.ms_loaded then m else metaslab_load_model m
    metaslab_group_sort m1 (m1.ms_weight ||| activation_weight)
  else m

/- Replace metaslab i of vdev v. -/
def spaSetMs (spa : SpaM) (v i : Nat) (m : MetaslabM) : SpaM :=
  match spa.spa_vdevs.get? v with
  | none => spa
  | some vd =>
    { spa with
      spa_vdevs := spa.spa_vdevs.set v { vd with vdev_ms := vd.vdev_ms.set i m } }

/- metaslab_claim_dva. -/
def metaslab_claim_dva (spa : SpaM) (d : Dva) (txg : Nat) : Nat × SpaM :=
  match spa.spa_vdevs.get? d.dva_vdev with
  | none => ( ENXIO, spa)
  | some vd =>
    if d.dva_offset >>> vd.vdev_ms_shift ≥ vd.vdev_ms_count then ( ENXIO, spa)
    else
      match vd.vdev_ms.get? (d.dva_offset >>> vd.vdev_ms_shift) with
      | none => ( ENXIO, spa)
      | some msp =>
        let size := if d.dva_gang then vdev_psize_to_asize vd SPA_GANGBLOCKSIZE
                    else d.dva_asize
        let msp1 := if (txg ≠ 0 ∧ spa.spa_writeable = true) ∨ msp.ms_loaded = false
                    then metaslab_activate_model msp METASLAB_WEIGHT_SECONDARY
                    else msp
        let err := if range_tree_contains msp1.ms_tree d.dva_offset size = true
                   then 0 else ENOENT
        if err ≠ 0 ∨ txg = 0 then
          (err, spaSetMs spa d.dva_vdev (d.dva_offset >>> vd.vdev_ms_shift) msp1)
        else
          let msp2 := { msp1 with
            ms_tree := range_tree_remove msp1.ms_tree d.dva_offset size }
          let msp3 := if spa.spa_writeable then
              { msp2 with
                ms_alloctree := ffupd msp2.ms_alloctree (txgSlot txg)
                  (range_tree_add (msp2.ms_alloctree (txgSlot txg))
                    d.dva_offset size) }
            else msp2
          (0, spaSetMs spa d.dva_vdev (d.dva_offset >>> vd.vdev_ms_shift) msp3)

/- The per-DVA loop of metaslab_claim (break on first error). -/
def claimDvas : List Dva → SpaM → Nat → Nat × SpaM
  | [], spa, _ => (0, spa)
  | d :: ds, spa, txg =>
    let r := metaslab_claim_dva spa d txg
    if r.1 ≠ 0 then r
    else claimDvas ds r.2 txg

/- metaslab_claim: dry run with txg = 0 first, then the real pass. -/
def metaslab_claim_model (spa : SpaM) (bp : List Dva) (txg : Nat) : Nat × SpaM :=
  if txg ≠ 0 then
    let dry := claimDvas bp spa 0
    if dry.1 ≠ 0 then dry
    else claimDvas bp dry.2 txg
  else claimDvas bp spa 0

/- Concrete failing input for C6: one vdev, one loaded metaslab whose free
   tree is exactly [0, 512), and a block pointer carrying the same DVA
   twice. -/
def c6ms : MetaslabM :=
  { msDefault with ms_size := 2 ^ 30, ms_loaded := true, ms_tree := [⟨0, 512⟩] }

def c6vd : VdevM :=
  { vdev_id := 0, vdev_ms_shift := 30, vdev_ms_count := 1, vdev_ashift := 9,
    vdev_asize := 2 ^ 30, vdev_children := 1, vdev_ms := [c6ms],
    vdev_removing := false, vdev_allocatable := true, vdev_write_errors := 0,
    vdev_below_healthy := false, vdev_degraded := false }

def c6spa : SpaM :=
  { spa_vdevs := [c6vd], spa_writeable := true, spa_freeze_txg := 2 ^ 62 }

def c6dva : Dva := { dva_vdev := 0, dva_offset := 0, dva_asize := 512, dva_gang := false }

/-- C6: evaluating metaslab_claim at the failing input: a bp whose two
copies are the same DVA passes the txg = 0 dry run (each copy is checked
against the untouched tree), but the real pass removes the range for the
first copy and then fails with ENOENT on the second — the call returns a
non-zero error with the first copy already claimed (free tree emptied,
alloctree filled), contradicting the claim and the source's own
ASSERT(error == 0 || txg == 0). -/
theorem c6_claim_partial_commit :
    (metaslab_claim_model c6spa [c6dva, c6dva] 1).1 = ENOENT ∧
    (((metaslab_claim_model c6spa [c6dva, c6dva] 1).2.spa_vdevs.headD
        c6vd).vdev_ms.headD c6ms).ms_tree = [] ∧
    ((c6spa.spa_vdevs.headD c6vd).vdev_ms.headD c6ms).ms_tree = [⟨0, 512⟩] ∧
    (((metaslab_claim_model c6spa [c6dva, c6dva] 1).2.spa_vdevs.headD
        c6vd).vdev_ms.headD c6ms).ms_alloctree (txgSlot 1) = [⟨0, 512⟩] := by
  decide

def metaslab_distance (ms_shift vd_id : Nat) (msp : MetaslabM) (d : Dva) : Nat :=
  if vd_id ≠ d.dva_vdev then 2 ^ 63
  else
    let offset := d.dva_offset >>> ms_shift
    let start := msp.ms_id
    if offset < start then (start - offset) <<< ms_shift
    else if offset > start then (offset - start) <<< ms_shift
    else 0

/- The avl walk inside metaslab_group_alloc: give up at the first metaslab
   whose weight is below asize (the tree iterates in weight order), skip
   condensing metaslabs, and for secondary activations require every prior
   copy to be at least target_distance away.  Returns the index of the
   chosen metaslab. -/
def groupScan (asize aw min_distance ms_shift vd_id : Nat) (dva : List Dva) :
    List MetaslabM → Option Nat
  | [] => none
  | msp :: rest =>
    if msp.ms_weight < asize then none
    else if msp.ms_condensing then
      (groupScan asize aw min_distance ms_shift vd_id dva rest).map (· + 1)
    else if aw = METASLAB_WEIGHT_PRIMARY then some 0
    else
      let target_distance := min_distance +
        (if space_map_allocated msp ≠ 0 then 0 else min_distance / 2)
      if dva.all (fun d =>
          decide (metaslab_distance ms_shift vd_id msp d ≥ target_distance))
      then some 0
      else (groupScan asize aw min_distance ms_shift vd_id dva rest).map (· + 1)

/- The retry loop of metaslab_group_alloc, fuel-bounded.  The Bool result
   records that every VERIFY(!ms_condensing) in metaslab_block_alloc held.
   The weight/activation re-checks after re-taking the metaslab lock are
   kept even though they cannot change outcome in this sequential model. -/
def groupAllocGo (cfg : ZfsConfig) (asize txg min_distance aw ms_shift vd_id : Nat)
    (dva : List Dva) : Nat → List MetaslabM → Option Nat × List MetaslabM × Bool
  | 0, msl => (none, msl, true)
  | fuel + 1, msl =>
    match groupScan asize aw min_distance ms_shift vd_id dva msl with
    | none => (none, msl, true)
    | some i =>
      match msl.get? i with
      | none => (none, msl, true)
      | some msp =>
        let was_active := msp.ms_weight &&& METASLAB_ACTIVE_MASK
        if msp.ms_weight < asize ∨
            (was_active ≠ 0 ∧ msp.ms_weight &&& METASLAB_ACTIVE_MASK = 0 ∧
              aw = METASLAB_WEIGHT_PRIMARY) then
          groupAllocGo cfg asize txg min_distance aw ms_shift vd_id dva fuel msl
        else if msp.ms_weight &&& METASLAB_WEIGHT_SECONDARY ≠ 0 ∧
            aw = METASLAB_WEIGHT_PRIMARY then
          let msp' := metaslab_passivate msp (msp.ms_weight &&& (2 ^ 62 - 1))
          groupAllocGo cfg asize txg min_distance aw ms_shift vd_id dva fuel
            (msl.set i msp')
        else
          let msp1 := metaslab_activate_model msp aw
          if msp1.ms_condensing then
            groupAllocGo cfg asize txg min_distance aw ms_shift vd_id dva fuel
              (msl.set i msp1)
          else
            match metaslab_block_alloc cfg msp1 asize with
            | (some o, msp2, ok) =>
              let msp3 := { msp2 with
                ms_alloctree := ffupd msp2.ms_alloctree (txgSlot txg)
                  (range_tree_add (msp2.ms_alloctree (txgSlot txg)) o asize),
                ms_access_txg := txg + cfg.metaslab_unload_delay }
              (some o, msl.set i msp3, ok)
            | (none, msp2, ok) =>
              let msp3 := metaslab_passivate msp2 (metaslab_block_maxsize msp2)
              let r := groupAllocGo cfg asize txg min_distance aw ms_shift vd_id
                dva fuel (msl.set i msp3)
              (r.1, r.2.1, ok && r.2.2)

/- metaslab_group_alloc: the activation weight is primary unless a prior
   copy already lives on this vdev. -/
def metaslab_group_alloc_model (cfg : ZfsConfig) (fuel : Nat)
    (ms_shift vd_id : Nat) (msl : List MetaslabM)
    (asize txg min_distance : Nat) (dva : List Dva) :
    Option Nat × List MetaslabM × Bool :=
  let aw := if dva.any (fun dv => decide (dv.dva_vdev = vd_id))
            then METASLAB_WEIGHT_SECONDARY else METASLAB_WEIGHT_PRIMARY
  groupAllocGo cfg asize txg min_distance aw ms_shift vd_id dva fuel msl

lemma list_get?_set_ne {α : Type} (l : List α) {i j : Nat} (a : α) (h : i ≠ j) :
    (l.set i a).get? j = l.get? j := by
  simp [List.get?_eq_getElem?, List.getElem?_set_ne h]

lemma activate_model_condensing (m : MetaslabM) (aw : Nat) :
    (metaslab_activate_model m aw).ms_condensing = m.ms_condensing := by
  by_cases h : m.ms_weight &&& METASLAB_ACTIVE_MASK = 0 <;>
    by_cases hl : m.ms_loaded <;>
      simp [metaslab_activate_model, metaslab_group_sort, metaslab_load_model, h, hl]

lemma passivate_condensing (m : MetaslabM) (sz : Nat) :
    (metaslab_passivate m sz).ms_condensing = m.ms_condensing := rfl

lemma block_alloc_condensing (cfg : ZfsConfig) (m : MetaslabM) (a : Nat) :
    (metaslab_block_alloc cfg m a).2.1.ms_condensing = m.ms_condensing := by
  unfold metaslab_block_alloc
  split <;> rfl

lemma block_alloc_ok (cfg : ZfsConfig) (m : MetaslabM) (a : Nat) :
    (metaslab_block_alloc cfg m a).2.2 = !m.ms_condensing := by
  unfold metaslab_block_alloc
  split <;> rfl

lemma groupScan_sound {asize aw min_distance ms_shift vd_id : Nat} {dva : List Dva} :
    ∀ {msl : List MetaslabM} {i : Nat},
      groupScan asize aw min_distance ms_shift vd_id dva msl = some i →
      ∃ m, msl.get? i = some m ∧ m.ms_condensing = false := by
  intro msl
  induction msl with
  | nil => intro i h; simp [groupScan] at h
  | cons msp rest ih =>
    intro i h
    simp only [groupScan] at h
    split at h
    · exact Option.noConfusion h
    · split at h
      · rename_i hcond
        rw [Option.map_eq_some'] at h
        obtain ⟨j, hj, rfl⟩ := h
        obtain ⟨m, hm, hmc⟩ := ih hj
        exact ⟨m, by simpa using hm, hmc⟩
      · rename_i hcond
        split at h
        · obtain rfl : (0 : Nat) = i := by injection h
          exact ⟨msp, rfl, by simpa using hcond⟩
        · split at h <;>
          · split at h
            · obtain rfl : (0 : Nat) = i := by injection h
              exact ⟨msp, rfl, by simpa using hcond⟩
            · rw [Option.map_eq_some'] at h
              obtain ⟨j, hj, rfl⟩ := h
              obtain ⟨m, hm, hmc⟩ := ih hj
              exact ⟨m, by simpa using hm, hmc⟩

lemma groupAllocGo_safe (cfg : ZfsConfig)
    (asize txg min_distance aw ms_shift vd_id : Nat) (dva : List Dva) :
    ∀ (fuel : Nat) (msl : List MetaslabM),
      (groupAllocGo cfg asize txg min_distance aw ms_shift vd_id dva fuel msl).2.2
          = true ∧
      ∀ i m, msl.get? i = some m → m.ms_condensing = true →
        (groupAllocGo cfg asize txg min_distance aw ms_shift vd_id dva
            fuel msl).2.1.get? i = some m := by
  intro fuel
  induction fuel with
  | zero => exact fun msl => ⟨rfl, fun i m h _ => h⟩
  | succ fuel ih =>
    intro msl
    unfold groupAllocGo
    cases hscan : groupScan asize aw min_distance ms_shift vd_id dva msl with
    | none => exact ⟨rfl, fun i m h _ => h⟩
    | some i0 =>
      obtain ⟨m0, hm0, hm0c⟩ := groupScan_sound hscan
      dsimp only
      rw [hm0]
      dsimp only
      by_cases hc1 : m0.ms_weight < asize ∨
          (m0.ms_weight &&& METASLAB_ACTIVE_MASK ≠ 0 ∧
            m0.ms_weight &&& METASLAB_ACTIVE_MASK = 0 ∧
            aw = METASLAB_WEIGHT_PRIMARY)
      · rw [if_pos hc1]
        exact ih msl
      · rw [if_neg hc1]
        by_cases hc2 : m0.ms_weight &&& METASLAB_WEIGHT_SECONDARY ≠ 0 ∧
            aw = METASLAB_WEIGHT_PRIMARY
        · rw [if_pos hc2]
          refine ⟨(ih _).1, fun i m hi hmc => ?_⟩
          have hne : i0 ≠ i := by
            intro h0
            rw [← h0, hm0] at hi
            have : m0 = m := by injection hi
            rw [← this] at hmc
            rw [hm0c] at hmc
            exact Bool.false_ne_true hmc
          refine (ih _).2 i m ?_ hmc
          rw [list_get?_set_ne _ _ hne]
          exact hi
        · rw [if_neg hc2]
          have hc3 : (metaslab_activate_model m0 aw).ms_condensing = false := by
            rw [activate_model_condensing]
            exact hm0c
          rw [if_neg (by simp [hc3])]
          rcases hba : metaslab_block_alloc cfg (metaslab_activate_model m0 aw)
              asize with ⟨o, msp2, ok⟩
          have hok : ok = true := by
            have := block_alloc_ok cfg (metaslab_activate_model m0 aw) asize
            rw [hba] at this
            simp [hc3] at this
            exact this
          cases o with
          | some off =>
            dsimp only
            refine ⟨hok, fun i m hi hmc => ?_⟩
            have hne : i0 ≠ i := by
              intro h0
              rw [← h0, hm0] at hi
              have : m0 = m := by injection hi
              rw [← this] at hmc
              rw [hm0c] at hmc
              exact Bool.false_ne_true hmc
            rw [list_get?_set_ne _ _ hne]
            exact hi
          | none =>
            dsimp only
            constructor
            · rw [hok, Bool.true_and]
              exact (ih _).1
            · intro i m hi hmc
              have hne : i0 ≠ i := by
                intro h0
                rw [← h0, hm0] at hi
                have : m0 = m := by injection hi
                rw [← this] at hmc
                rw [hm0c] at hmc
                exact Bool.false_ne_true hmc
              refine (ih _).2 i m ?_ hmc
              rw [list_get?_set_ne _ _ hne]
              exact hi

/-- C7: for every metaslab with the condensing flag set, no allocation
completes from it: metaslab_group_alloc's scan skips condensing metaslabs
and re-checks after activation, so the VERIFY(!ms_condensing) in
metaslab_block_alloc never fails (the Bool component is always true) and a
condensing metaslab's state — in particular its free tree — is left
completely untouched by the call. -/
theorem c7_condensing_untouched (cfg : ZfsConfig) (fuel ms_shift vd_id : Nat)
    (msl : List MetaslabM) (asize txg min_distance : Nat) (dva : List Dva) :
    (metaslab_group_alloc_model cfg fuel ms_shift vd_id msl asize txg
        min_distance dva).2.2 = true ∧
    ∀ i m, msl.get? i = some m → m.ms_condensing = true →
      (metaslab_group_alloc_model cfg fuel ms_shift vd_id msl asize txg
          min_distance dva).2.1.get? i = some m := by
  unfold metaslab_group_alloc_model
  exact groupAllocGo_safe cfg asize txg min_distance _ ms_shift vd_id dva fuel msl

/- Concrete group: a condensing metaslab ahead of a clean one. -/
def c7msCond : MetaslabM :=
  { msDefault with
    ms_size := 4096, ms_weight := 4096, ms_loaded := true,
    ms_condensing := true, ms_tree := [⟨0, 4096⟩] }

def c7msOk : MetaslabM :=
  { msDefault with
    ms_id := 1, ms_start := 4096, ms_size := 4096,
    ms_weight := 4096, ms_loaded := true, ms_tree := [⟨4096, 8192⟩] }

/-- C7 witness: with a condensing metaslab first in weight order, the
allocation succeeds from the second metaslab, every VERIFY held, and the
condensing metaslab's entry is byte-for-byte unchanged. -/
theorem c7_condensing_untouched_witness :
    (metaslab_group_alloc_model {} 4 12 0 [c7msCond, c7msOk] 512 3 0 []).2.2
        = true ∧
    (metaslab_group_alloc_model {} 4 12 0 [c7msCond, c7msOk] 512 3 0
        []).2.1.get? 0 = some c7msCond ∧
    (metaslab_group_alloc_model {} 4 12 0 [c7msCond, c7msOk] 512 3 0 []).1
        = some 4096 := by
  have h := c7_condensing_untouched {} 4 12 0 [c7msCond, c7msOk] 512 3 0 []
  refine ⟨h.1, h.2 0 c7msCond rfl rfl, ?_⟩
  decide

/- Segment-level groundwork for the metaslab_alloc unwind proofs (C10):
   removing a contained range and adding it back is the identity on a
   canonical tree, and vice versa. -/

lemma rtWF_tail {s : Seg} {rest : List Seg} (h : rtWF (s :: rest)) : rtWF rest := by
  obtain ⟨h1, h2⟩ := h
  exact ⟨fun t ht => h1 t (List.mem_cons_of_mem _ ht), h2.tail⟩

lemma rtWF_head_lt {s : Seg} {rest : List Seg} (h : rtWF (s :: rest)) :
    ∀ t ∈ rest, s.rs_end < t.rs_start := by
  induction rest generalizing s with
  | nil => intro t ht; simp at ht
  | cons u rest' ih =>
    intro t ht
    have hsu : s.rs_end < u.rs_start := (List.chain'_cons.mp h.2).1
    rcases List.mem_cons.mp ht with rfl | ht'
    · exact hsu
    · have hu : u.rs_start < u.rs_end := h.1 u (by simp)
      have := ih (rtWF_tail h) t ht'
      omega

lemma seg_ext {a b : Nat} {s : Seg} (h1 : a = s.rs_start) (h2 : b = s.rs_end) :
    Seg.mk a b = s := by
  cases s; cases h1; cases h2; rfl

lemma range_tree_add_seg_front {l : List Seg} {x : Seg}
    (h : ∀ t ∈ l.head?, x.rs_end < t.rs_start) :
    range_tree_add_seg l x = x :: l := by
  cases l with
  | nil => rfl
  | cons t rest =>
    have ht : x.rs_end < t.rs_start := h t rfl
    simp [range_tree_add_seg, ht]

lemma remove_add_seg_cancel :
    ∀ {l : List Seg}, rtWF l → ∀ {o e : Nat}, o < e →
    (∃ s ∈ l, s.rs_start ≤ o ∧ e ≤ s.rs_end) →
    range_tree_add_seg (range_tree_remove_seg l o e) ⟨o, e⟩ = l := by
  intro l
  induction l with
  | nil => intro _ o e _ hex; simp at hex
  | cons s rest ih =>
    intro hwf o e hoe hex
    have hne : s.rs_start < s.rs_end := hwf.1 s (by simp)
    have hfront : ∀ t ∈ rest.head?, s.rs_end < t.rs_start := by
      intro t ht
      cases rest with
      | nil => simp at ht
      | cons u rest' =>
        have heq : u = t := by simpa using ht
        subst heq
        exact rtWF_head_lt hwf u (by simp)
    by_cases hc : s.rs_start ≤ o ∧ e ≤ s.rs_end
    · simp only [range_tree_remove_seg, if_pos hc]
      by_cases h1 : s.rs_start < o <;> by_cases h2 : e < s.rs_end
      · -- both residues
        rw [if_pos h1, if_pos h2]
        show range_tree_add_seg
          (Seg.mk s.rs_start o :: Seg.mk e s.rs_end :: rest) (Seg.mk o e) = s :: rest
        rw [range_tree_add_seg]
        rw [if_neg (by first | (dsimp only; omega) | omega), if_neg (by first | (dsimp only; omega) | omega)]
        rw [range_tree_add_seg]
        rw [if_neg (by first | (dsimp only; omega) | omega), if_neg (by first | (dsimp only; omega) | omega)]
        have hx : Seg.mk (min (Seg.mk e s.rs_end).rs_start
            (Seg.mk (min s.rs_start (Seg.mk o e).rs_start)
              (max o (Seg.mk o e).rs_end)).rs_start)
            (max (Seg.mk e s.rs_end).rs_end
            (Seg.mk (min s.rs_start (Seg.mk o e).rs_start)
              (max o (Seg.mk o e).rs_end)).rs_end) = s := by
          dsimp only
          have : min s.rs_start o = s.rs_start := by omega
          have : max o e = e := by omega
          apply seg_ext <;> dsimp only <;> omega
        rw [hx, range_tree_add_seg_front hfront]
      · -- left residue only: e = s.rs_end
        rw [if_pos h1, if_neg h2]
        show range_tree_add_seg (Seg.mk s.rs_start o :: rest) (Seg.mk o e) = s :: rest
        rw [range_tree_add_seg]
        rw [if_neg (by first | (dsimp only; omega) | omega), if_neg (by first | (dsimp only; omega) | omega)]
        have hx : Seg.mk (min (Seg.mk s.rs_start o).rs_start (Seg.mk o e).rs_start)
            (max (Seg.mk s.rs_start o).rs_end (Seg.mk o e).rs_end) = s := by
          apply seg_ext <;> dsimp only <;> omega
        rw [hx, range_tree_add_seg_front hfront]
      · -- right residue only: o = s.rs_start
        rw [if_neg h1, if_pos h2]
        show range_tree_add_seg (Seg.mk e s.rs_end :: rest) (Seg.mk o e) = s :: rest
        rw [range_tree_add_seg]
        rw [if_neg (by first | (dsimp only; omega) | omega), if_neg (by first | (dsimp only; omega) | omega)]
        have hx : Seg.mk (min (Seg.mk e s.rs_end).rs_start (Seg.mk o e).rs_start)
            (max (Seg.mk e s.rs_end).rs_end (Seg.mk o e).rs_end) = s := by
          apply seg_ext <;> dsimp only <;> omega
        rw [hx, range_tree_add_seg_front hfront]
      · -- no residue: the removed range is exactly s
        rw [if_neg h1, if_neg h2]
        show range_tree_add_seg rest (Seg.mk o e) = s :: rest
        have hx : Seg.mk o e = s := by
          apply seg_ext <;> omega
        rw [hx, range_tree_add_seg_front hfront]
    · -- the containing segment lives deeper in the list
      obtain ⟨t, htl, ht1, ht2⟩ := hex
      have htr : t ∈ rest := by
        rcases List.mem_cons.mp htl with rfl | h
        · exact absurd ⟨ht1, ht2⟩ hc
        · exact h
      have hst : s.rs_end < t.rs_start := rtWF_head_lt hwf t htr
      simp only [range_tree_remove_seg, if_neg hc]
      rw [range_tree_add_seg]
      rw [if_neg (by first | (dsimp only; omega) | omega), if_pos (by first | (dsimp only; omega) | omega)]
      rw [ih (rtWF_tail hwf) hoe ⟨t, htr, ht1, ht2⟩]

lemma remove_after_front {l : List Seg} {a b o e : Nat}
    (ha : a ≤ o) (hoe : o < e) (heb : e ≤ b)
    (hl : ∀ u ∈ l, b < u.rs_start) :
    range_tree_remove_seg (range_tree_add_seg l (Seg.mk a b)) o e =
      (if a < o then [Seg.mk a o] else []) ++
      (if e < b then [Seg.mk e b] else []) ++ l := by
  have hfront : ∀ t ∈ l.head?, (Seg.mk a b).rs_end < t.rs_start := by
    intro t ht
    cases l with
    | nil => simp at ht
    | cons u rest =>
      have heq : u = t := by simpa using ht
      subst heq
      exact hl u (by simp)
  rw [range_tree_add_seg_front hfront]
  simp only [range_tree_remove_seg]
  rw [if_pos (show (Seg.mk a b).rs_start ≤ o ∧ e ≤ (Seg.mk a b).rs_end from ⟨ha, heb⟩)]

lemma add_remove_seg_cancel :
    ∀ {l : List Seg}, rtWF l → ∀ {o e : Nat}, o < e →
    (∀ s ∈ l, e ≤ s.rs_start ∨ s.rs_end ≤ o) →
    range_tree_remove_seg (range_tree_add_seg l (Seg.mk o e)) o e = l := by
  intro l
  induction l with
  | nil =>
    intro _ o e hoe _
    simp only [range_tree_add_seg, range_tree_remove_seg]
    rw [if_pos (by first | (dsimp only; omega) | omega), if_neg (by first | (dsimp only; omega) | omega),
      if_neg (by first | (dsimp only; omega) | omega)]
    rfl
  | cons s rest ih =>
    intro hwf o e hoe hdisj
    have hne : s.rs_start < s.rs_end := hwf.1 s (by simp)
    rcases hdisj s (by simp) with hs | hs
    · by_cases hlt : e < s.rs_start
      · rw [range_tree_add_seg, if_pos (by first | (dsimp only; omega) | omega)]
        simp only [range_tree_remove_seg]
        rw [if_pos (by first | (dsimp only; omega) | omega), if_neg (by first | (dsimp only; omega) | omega),
          if_neg (by first | (dsimp only; omega) | omega)]
        rfl
      · have he : e = s.rs_start := by omega
        rw [range_tree_add_seg, if_neg (by first | (dsimp only; omega) | omega),
          if_neg (by first | (dsimp only; omega) | omega)]
        have hx : Seg.mk (min s.rs_start (Seg.mk o e).rs_start)
            (max s.rs_end (Seg.mk o e).rs_end) = Seg.mk o s.rs_end := by
          apply seg_ext <;> dsimp only <;> omega
        rw [hx]
        rw [remove_after_front (le_refl o) hoe (by omega)
          (fun u hu => rtWF_head_lt hwf u hu)]
        rw [if_neg (by omega), if_pos (by omega)]
        have hy : Seg.mk e s.rs_end = s := seg_ext (by omega) rfl
        simp [hy]
    · by_cases hlt : s.rs_end < o
      · rw [range_tree_add_seg, if_neg (by first | (dsimp only; omega) | omega),
          if_pos (by first | (dsimp only; omega) | omega)]
        simp only [range_tree_remove_seg]
        rw [if_neg (by first | (dsimp only; omega) | omega)]
        rw [ih (rtWF_tail hwf) hoe
          (fun u hu => hdisj u (List.mem_cons_of_mem _ hu))]
      · have he : s.rs_end = o := by omega
        rw [range_tree_add_seg, if_neg (by first | (dsimp only; omega) | omega),
          if_neg (by first | (dsimp only; omega) | omega)]
        have hx : Seg.mk (min s.rs_start (Seg.mk o e).rs_start)
            (max s.rs_end (Seg.mk o e).rs_end) = Seg.mk s.rs_start e := by
          apply seg_ext <;> dsimp only <;> omega
        rw [hx]
        cases rest with
        | nil =>
          rw [remove_after_front (by omega) hoe (le_refl e)
            (fun u hu => by simp at hu)]
          rw [if_pos (by omega), if_neg (by omega)]
          have hy : Seg.mk s.rs_start o = s := seg_ext rfl (by omega)
          simp [hy]
        | cons t rest' =>
          have hst : s.rs_end < t.rs_start := rtWF_head_lt hwf t (by simp)
          have hnt : t.rs_start < t.rs_end := hwf.1 t (by simp)
          have hts : e ≤ t.rs_start := by
            rcases hdisj t (by simp) with h | h
            · exact h
            · omega
          by_cases htlt : e < t.rs_start
          · rw [remove_after_front (a := s.rs_start) (b := e) (by omega) hoe
              (le_refl e) ?hall]
            case hall =>
              intro u hu
              rcases List.mem_cons.mp hu with rfl | hu2
              · exact htlt
              · have := rtWF_head_lt (rtWF_tail hwf) u hu2
                omega
            rw [if_pos (by omega), if_neg (by omega)]
            have hy : Seg.mk s.rs_start o = s := seg_ext rfl (by omega)
            simp [hy]
          · have het : e = t.rs_start := by omega
            rw [range_tree_add_seg, if_neg (by first | (dsimp only; omega) | omega),
              if_neg (by first | (dsimp only; omega) | omega)]
            have hx2 : Seg.mk (min t.rs_start (Seg.mk s.rs_start e).rs_start)
                (max t.rs_end (Seg.mk s.rs_start e).rs_end) =
                Seg.mk s.rs_start t.rs_end := by
              apply seg_ext <;> dsimp only <;> omega
            rw [hx2]
            rw [remove_after_front (a := s.rs_start) (b := t.rs_end) (by omega)
              hoe (by omega) (fun u hu => rtWF_head_lt (rtWF_tail hwf) u hu)]
            rw [if_pos (by omega), if_pos (by omega)]
            have e1 : Seg.mk s.rs_start o = s := seg_ext rfl (by omega)
            have e2 : Seg.mk e t.rs_end = t := seg_ext (by omega) rfl
            simp [e1, e2]

/- Pointwise semantics of a range tree: the set of addresses it covers. -/
def rtMemP (l : List Seg) (y : Nat) : Prop :=
  ∃ s ∈ l, s.rs_start ≤ y ∧ y < s.rs_end

lemma rtMemP_nil {y : Nat} : rtMemP [] y ↔ False := by
  simp [rtMemP]

lemma rtMemP_cons {s : Seg} {l : List Seg} {y : Nat} :
    rtMemP (s :: l) y ↔ (s.rs_start ≤ y ∧ y < s.rs_end) ∨ rtMemP l y := by
  simp [rtMemP, or_comm]

lemma rtWF_remove_sub :
    ∀ {l : List Seg}, rtWF l → ∀ {o e : Nat}, o < e →
    rtWF (range_tree_remove_seg l o e) ∧
    ∀ u ∈ range_tree_remove_seg l o e,
      ∃ s ∈ l, s.rs_start ≤ u.rs_start ∧ u.rs_end ≤ s.rs_end := by
  intro l
  induction l with
  | nil =>
    intro _ o e _
    refine ⟨⟨?_, ?_⟩, ?_⟩
    · intro u hu
      simp [range_tree_remove_seg] at hu
    · exact List.chain'_nil
    · intro u hu
      simp [range_tree_remove_seg] at hu
  | cons s rest ih =>
    intro hwf o e hoe
    have hne : s.rs_start < s.rs_end := hwf.1 s (by simp)
    have hwfr := rtWF_tail hwf
    have hhd := rtWF_head_lt hwf
    have hch : ∀ b ∈ rest.head?, s.rs_end < b.rs_start := by
      intro b hb
      exact hhd b (List.mem_of_mem_head? hb)
    obtain ⟨ihw, ihs⟩ := ih hwfr hoe
    by_cases hc : s.rs_start ≤ o ∧ e ≤ s.rs_end
    · simp only [range_tree_remove_seg, if_pos hc]
      by_cases h1 : s.rs_start < o <;> by_cases h2 : e < s.rs_end
      · rw [if_pos h1, if_pos h2]
        simp only [List.cons_append, List.nil_append]
        refine ⟨⟨?_, ?_⟩, ?_⟩
        · intro u hu
          rcases List.mem_cons.mp hu with rfl | hu
          · dsimp only; omega
          rcases List.mem_cons.mp hu with rfl | hu
          · dsimp only; omega
          · exact hwf.1 u (List.mem_cons_of_mem _ hu)
        · refine List.chain'_cons.mpr ⟨by dsimp only; omega, ?_⟩
          refine List.chain'_cons'.mpr ⟨?_, hwf.2.tail⟩
          intro b hb
          have := hch b hb
          dsimp only
          omega
        · intro u hu
          rcases List.mem_cons.mp hu with rfl | hu
          · exact ⟨s, by simp, by dsimp only; omega⟩
          rcases List.mem_cons.mp hu with rfl | hu
          · exact ⟨s, by simp, by dsimp only; omega⟩
          · exact ⟨u, List.mem_cons_of_mem _ hu, le_refl _, le_refl _⟩
      · rw [if_pos h1, if_neg h2]
        simp only [List.cons_append, List.nil_append]
        refine ⟨⟨?_, List.chain'_cons'.mpr ⟨?_, hwf.2.tail⟩⟩, ?_⟩
        · intro u hu
          rcases List.mem_cons.mp hu with rfl | hu
          · dsimp only; omega
          · exact hwf.1 u (List.mem_cons_of_mem _ hu)
        · intro b hb
          have := hch b hb
          dsimp only
          omega
        · intro u hu
          rcases List.mem_cons.mp hu with rfl | hu
          · exact ⟨s, by simp, by dsimp only; omega⟩
          · exact ⟨u, List.mem_cons_of_mem _ hu, le_refl _, le_refl _⟩
      · rw [if_neg h1, if_pos h2]
        simp only [List.cons_append, List.nil_append]
        refine ⟨⟨?_, List.chain'_cons'.mpr ⟨?_, hwf.2.tail⟩⟩, ?_⟩
        · intro u hu
          rcases List.mem_cons.mp hu with rfl | hu
          · dsimp only; omega
          · exact hwf.1 u (List.mem_cons_of_mem _ hu)
        · intro b hb
          have := hch b hb
          dsimp only
          omega
        · intro u hu
          rcases List.mem_cons.mp hu with rfl | hu
          · exact ⟨s, by simp, by dsimp only; omega⟩
          · exact ⟨u, List.mem_cons_of_mem _ hu, le_refl _, le_refl _⟩
      · rw [if_neg h1, if_neg h2]
        simp only [List.nil_append]
        exact ⟨⟨fun u hu => hwf.1 u (List.mem_cons_of_mem _ hu), hwf.2.tail⟩,
          fun u hu => ⟨u, List.mem_cons_of_mem _ hu, le_refl _, le_refl _⟩⟩
    · simp only [range_tree_remove_seg, if_neg hc]
      constructor
      · refine ⟨?_, List.chain'_cons'.mpr ⟨?_, ihw.2⟩⟩
        · intro u hu
          rcases List.mem_cons.mp hu with rfl | hu2
          · exact hne
          · exact ihw.1 u hu2
        · intro b hb
          obtain ⟨t, htm, ht1, _⟩ := ihs b (List.mem_of_mem_head? hb)
          have := hhd t htm
          omega
      · intro u hu
        rcases List.mem_cons.mp hu with rfl | hu2
        · exact ⟨u, by simp, le_refl _, le_refl _⟩
        · obtain ⟨t, htm, ht1, ht2⟩ := ihs u hu2
          exact ⟨t, List.mem_cons_of_mem _ htm, ht1, ht2⟩

lemma rtWF_add_aux :
    ∀ {l : List Seg} {x : Seg}, rtWF l → x.rs_start < x.rs_end →
    rtWF (range_tree_add_seg l x) ∧
    ∀ u ∈ range_tree_add_seg l x,
      x.rs_start ≤ u.rs_start ∨ ∃ s ∈ l, s.rs_start ≤ u.rs_start := by
  intro l
  induction l with
  | nil =>
    intro x _ hx
    refine ⟨⟨by simpa [range_tree_add_seg] using hx, by simp [range_tree_add_seg]⟩, ?_⟩
    intro u hu
    simp only [range_tree_add_seg, List.mem_singleton] at hu
    subst hu
    exact Or.inl (le_refl _)
  | cons s rest ih =>
    intro x hwf hx
    have hne : s.rs_start < s.rs_end := hwf.1 s (by simp)
    have hwfr := rtWF_tail hwf
    have hhd := rtWF_head_lt hwf
    rw [range_tree_add_seg]
    by_cases h1 : x.rs_end < s.rs_start
    · rw [if_pos h1]
      refine ⟨⟨?_, List.chain'_cons'.mpr ⟨fun b hb => ?_, hwf.2⟩⟩, ?_⟩
      · intro u hu
        rcases List.mem_cons.mp hu with rfl | hu2
        · exact hx
        · exact hwf.1 u hu2
      · have hb2 : s = b := by simpa using hb
        rw [← hb2]
        exact h1
      · intro u hu
        rcases List.mem_cons.mp hu with rfl | hu2
        · exact Or.inl (le_refl _)
        · exact Or.inr ⟨u, hu2, le_refl _⟩
    · rw [if_neg h1]
      by_cases h2 : s.rs_end < x.rs_start
      · rw [if_pos h2]
        obtain ⟨ihw, ihs⟩ := ih hwfr hx
        refine ⟨⟨?_, List.chain'_cons'.mpr ⟨fun b hb => ?_, ihw.2⟩⟩, ?_⟩
        · intro u hu
          rcases List.mem_cons.mp hu with rfl | hu2
          · exact hne
          · exact ihw.1 u hu2
        · have hbm := List.mem_of_mem_head? hb
          rcases ihs b hbm with hl | ⟨t, htm, ht⟩
          · omega
          · have := hhd t htm
            omega
        · intro u hu
          rcases List.mem_cons.mp hu with rfl | hu2
          · exact Or.inr ⟨u, by simp, le_refl _⟩
          · rcases ihs u hu2 with hl | ⟨t, htm, ht⟩
            · exact Or.inl hl
            · exact Or.inr ⟨t, List.mem_cons_of_mem _ htm, ht⟩
      · rw [if_neg h2]
        have hx2 : (Seg.mk (min s.rs_start x.rs_start) (max s.rs_end x.rs_end)).rs_start <
            (Seg.mk (min s.rs_start x.rs_start) (max s.rs_end x.rs_end)).rs_end := by
          dsimp only
          omega
        obtain ⟨ihw, ihs⟩ := ih hwfr hx2
        refine ⟨ihw, ?_⟩
        intro u hu
        rcases ihs u hu with hl | ⟨t, htm, ht⟩
        · dsimp only at hl
          rcases Nat.le_total s.rs_start x.rs_start with hmin | hmin
          · exact Or.inr ⟨s, by simp, by omega⟩
          · exact Or.inl (by omega)
        · exact Or.inr ⟨t, List.mem_cons_of_mem _ htm, ht⟩

lemma rtMemP_add :
    ∀ {l : List Seg} {x : Seg}, rtWF l → x.rs_start < x.rs_end → ∀ {y : Nat},
    (rtMemP (range_tree_add_seg l x) y ↔
      rtMemP l y ∨ (x.rs_start ≤ y ∧ y < x.rs_end)) := by
  intro l
  induction l with
  | nil =>
    intro x _ _ y
    simp only [range_tree_add_seg]
    rw [rtMemP_cons, rtMemP_nil]
    tauto
  | cons s rest ih =>
    intro x hwf hx y
    rw [range_tree_add_seg]
    by_cases h1 : x.rs_end < s.rs_start
    · rw [if_pos h1, rtMemP_cons, rtMemP_cons]
      tauto
    · rw [if_neg h1]
      by_cases h2 : s.rs_end < x.rs_start
      · rw [if_pos h2, rtMemP_cons, ih (rtWF_tail hwf) hx, rtMemP_cons]
        tauto
      · rw [if_neg h2]
        have hne : s.rs_start < s.rs_end := hwf.1 s (by simp)
        have hx2 : (Seg.mk (min s.rs_start x.rs_start)
            (max s.rs_end x.rs_end)).rs_start <
            (Seg.mk (min s.rs_start x.rs_start) (max s.rs_end x.rs_end)).rs_end := by
          dsimp only
          omega
        rw [ih (rtWF_tail hwf) hx2, rtMemP_cons]
        dsimp only
        have harith : (min s.rs_start x.rs_start ≤ y ∧ y < max s.rs_end x.rs_end) ↔
            ((s.rs_start ≤ y ∧ y < s.rs_end) ∨ (x.rs_start ≤ y ∧ y < x.rs_end)) := by
          omega
        rw [harith]
        tauto

lemma rtMemP_remove :
    ∀ {l : List Seg}, rtWF l → ∀ {o e : Nat}, o < e →
    (∃ s ∈ l, s.rs_start ≤ o ∧ e ≤ s.rs_end) → ∀ {y : Nat},
    (rtMemP (range_tree_remove_seg l o e) y ↔
      rtMemP l y ∧ ¬(o ≤ y ∧ y < e)) := by
  intro l
  induction l with
  | nil => intro _ o e _ hex; simp at hex
  | cons s rest ih =>
    intro hwf o e hoe hex y
    have hne : s.rs_start < s.rs_end := hwf.1 s (by simp)
    by_cases hc : s.rs_start ≤ o ∧ e ≤ s.rs_end
    · simp only [range_tree_remove_seg, if_pos hc]
      have hrest : ∀ z, rtMemP rest z → s.rs_end ≤ z := by
        rintro z ⟨t, ht, hz1, hz2⟩
        have := rtWF_head_lt hwf t ht
        omega
      by_cases h1 : s.rs_start < o <;> by_cases h2 : e < s.rs_end
      · rw [if_pos h1, if_pos h2]
        simp only [List.cons_append, List.nil_append]
        rw [rtMemP_cons, rtMemP_cons, rtMemP_cons]
        dsimp only
        constructor
        · rintro (h | h | h)
          · exact ⟨Or.inl (by omega), by omega⟩
          · exact ⟨Or.inl (by omega), by omega⟩
          · have := hrest y h
            exact ⟨Or.inr h, by omega⟩
        · rintro ⟨h | h, hmid⟩
          · by_cases hy : y < o
            · exact Or.inl (by omega)
            · exact Or.inr (Or.inl (by omega))
          · exact Or.inr (Or.inr h)
      · rw [if_pos h1, if_neg h2]
        simp only [List.cons_append, List.nil_append]
        rw [rtMemP_cons, rtMemP_cons]
        dsimp only
        constructor
        · rintro (h | h)
          · exact ⟨Or.inl (by omega), by omega⟩
          · have := hrest y h
            exact ⟨Or.inr h, by omega⟩
        · rintro ⟨h | h, hmid⟩
          · exact Or.inl (by omega)
          · exact Or.inr h
      · rw [if_neg h1, if_pos h2]
        simp only [List.cons_append, List.nil_append]
        rw [rtMemP_cons, rtMemP_cons]
        dsimp only
        constructor
        · rintro (h | h)
          · exact ⟨Or.inl (by omega), by omega⟩
          · have := hrest y h
            exact ⟨Or.inr h, by omega⟩
        · rintro ⟨h | h, hmid⟩
          · exact Or.inl (by omega)
          · exact Or.inr h
      · rw [if_neg h1, if_neg h2]
        simp only [List.nil_append]
        rw [rtMemP_cons]
        constructor
        · intro h
          have := hrest y h
          exact ⟨Or.inr h, by omega⟩
        · rintro ⟨h | h, hmid⟩
          · exfalso
            omega
          · exact h
    · obtain ⟨t, htl, ht1, ht2⟩ := hex
      have htr : t ∈ rest := by
        rcases List.mem_cons.mp htl with rfl | h
        · exact absurd ⟨ht1, ht2⟩ hc
        · exact h
      have hst := rtWF_head_lt hwf t htr
      simp only [range_tree_remove_seg, if_neg hc]
      rw [rtMemP_cons, ih (rtWF_tail hwf) hoe ⟨t, htr, ht1, ht2⟩, rtMemP_cons]
      constructor
      · rintro (h | ⟨h, hmid⟩)
        · exact ⟨Or.inl h, by omega⟩
        · exact ⟨Or.inr h, hmid⟩
      · rintro ⟨h | h, hmid⟩
        · exact Or.inl h
        · exact Or.inr ⟨h, hmid⟩

lemma le_p2roundup {x a : Nat} : x ≤ p2roundup x a := by
  unfold p2roundup
  split
  · exact le_refl x
  · rename_i ha
    have h0 : 0 < a := Nat.pos_of_ne_zero ha
    have h1 : x + a - 1 < (x + a - 1) / a * a + a := Nat.lt_div_mul_add h0
    omega

lemma metaslab_picker_walk_contains :
    ∀ {l : List Seg} {size align o : Nat},
    metaslab_picker_walk l size align = some o →
    ∃ s ∈ l, s.rs_start ≤ o ∧ o + size ≤ s.rs_end := by
  intro l
  induction l with
  | nil => intro _ _ o h; simp [metaslab_picker_walk] at h
  | cons s rest ih =>
    intro size align o h
    simp only [metaslab_picker_walk] at h
    split at h
    · rename_i hcond
      have ho : p2roundup s.rs_start align = o := by injection h
      subst ho
      exact ⟨s, by simp, le_p2roundup, hcond⟩
    · obtain ⟨t, htm, h1, h2⟩ := ih h
      exact ⟨t, List.mem_cons_of_mem _ htm, h1, h2⟩

lemma metaslab_block_picker_contains {l : List Seg} {cursor size align o : Nat}
    (h : (metaslab_block_picker l cursor size align).1 = some o) :
    ∃ s ∈ l, s.rs_start ≤ o ∧ o + size ≤ s.rs_end := by
  unfold metaslab_block_picker at h
  split at h
  · rename_i off hscan
    obtain ⟨s, hm, h1, h2⟩ := metaslab_picker_walk_contains hscan
    have : off = o := by simpa using h
    subst this
    exact ⟨s, List.dropWhile_subset _ hm, h1, h2⟩
  · rename_i hscan
    split at h
    · simp at h
    · split at h
      · rename_i off hscan0
        obtain ⟨s, hm, h1, h2⟩ := metaslab_picker_walk_contains hscan0
        have : off = o := by simpa using h
        subst this
        exact ⟨s, List.dropWhile_subset _ hm, h1, h2⟩
      · simp at h

lemma metaslab_smallest_fit_spec :
    ∀ {l : List Seg} {size : Nat} {s : Seg},
    metaslab_smallest_fit l size = some s → s ∈ l ∧ size ≤ segLen s := by
  intro l
  induction l with
  | nil => intro _ s h; simp [metaslab_smallest_fit] at h
  | cons t rest ih =>
    intro size s h
    rw [metaslab_smallest_fit] at h
    split at h
    · split at h
      · rename_i hsz
        have : t = s := by injection h
        subst this
        exact ⟨by simp, hsz⟩
      · simp at h
    · rename_i u hu
      split at h
      · rename_i hcond
        have : t = s := by injection h
        subst this
        exact ⟨by simp, hcond.1⟩
      · have : u = s := by injection h
        subst this
        obtain ⟨hm, hs⟩ := ih hu
        exact ⟨List.mem_cons_of_mem _ hm, hs⟩

lemma msop_alloc_contains {cfg : ZfsConfig} {m : MetaslabM} {size o : Nat}
    {lb : Nat → Nat} (hops : m.ms_ops ≠ OpsKind.cf) (hsz : 0 < size)
    (h : msop_alloc cfg m size = (some o, lb)) :
    ∃ s ∈ m.ms_tree, s.rs_start ≤ o ∧ o + size ≤ s.rs_end := by
  unfold msop_alloc at h
  cases hop : m.ms_ops with
  | cf => exact absurd hop hops
  | ff =>
    rw [hop] at h
    unfold metaslab_ff_alloc at h
    have h1 : (metaslab_block_picker m.ms_tree
        (m.ms_lbas (highbit64 (lowbit64 size) - 1)) size (lowbit64 size)).1
        = some o := congrArg Prod.fst h
    exact metaslab_block_picker_contains h1
  | df =>
    rw [hop] at h
    unfold metaslab_df_alloc at h
    dsimp only at h
    split at h
    · simp at h
    · split at h
      · split at h
        · rename_i rs hfit
          obtain ⟨hm, hlen⟩ := metaslab_smallest_fit_spec hfit
          have ho : rs.rs_start = o := by
            have := congrArg Prod.fst h
            simpa using this
          subst ho
          refine ⟨rs, hm, le_refl _, ?_⟩
          unfold segLen at hlen
          omega
        · simp at h
      · have h1 : (metaslab_block_picker m.ms_tree
            (m.ms_lbas (highbit64 (lowbit64 size) - 1)) size 1).1 = some o :=
          congrArg Prod.fst h
        exact metaslab_block_picker_contains h1
  | ndf =>
    rw [hop] at h
    unfold metaslab_ndf_alloc at h
    dsimp only at h
    split at h
    · simp at h
    · split at h
      · rename_i rs hrs
        split at h
        · rename_i hfit
          have ho : rs.rs_start = o := by
            have := congrArg Prod.fst h
            simpa using this
          subst ho
          have hm : rs ∈ m.ms_tree := by
            split at hrs
            · rename_i rs0 hrs0
              split at hrs
              · exact (metaslab_smallest_fit_spec hrs).1
              · have : rs0 = rs := by injection hrs
                subst this
                exact List.mem_of_find?_eq_some hrs0
            · exact (metaslab_smallest_fit_spec hrs).1
          refine ⟨rs, hm, le_refl _, ?_⟩
          unfold segLen at hfit
          omega
        · simp at h
      · simp at h

lemma list_get?_set_self {α : Type} {l : List α} {i : Nat} (h : i < l.length)
    (a : α) : (l.set i a).get? i = some a := by
  simp [List.get?_eq_getElem?, List.getElem?_set_self h]

/- The metaslab fields tracked through metaslab_group_alloc's retry loop:
   everything the C10 invariant and metaslab_free_dva's now-path read.
   Failed attempts only touch the cursors and the weight, so they preserve
   this relation. -/
def msEqC (a b : MetaslabM) : Prop :=
  a.ms_loaded = b.ms_loaded ∧ a.ms_ops = b.ms_ops ∧ a.ms_start = b.ms_start ∧
  a.ms_size = b.ms_size ∧ a.ms_tree = b.ms_tree ∧ a.ms_alloctree = b.ms_alloctree

lemma msEqC_refl (m : MetaslabM) : msEqC m m :=
  ⟨rfl, rfl, rfl, rfl, rfl, rfl⟩

lemma msEqC_trans {a b c : MetaslabM} (h1 : msEqC a b) (h2 : msEqC b c) :
    msEqC a c := by
  obtain ⟨a1, a2, a3, a4, a5, a6⟩ := h1
  obtain ⟨b1, b2, b3, b4, b5, b6⟩ := h2
  exact ⟨a1.trans b1, a2.trans b2, a3.trans b3, a4.trans b4, a5.trans b5, a6.trans b6⟩

lemma activate_model_msEqC {m : MetaslabM} (aw : Nat) (hl : m.ms_loaded = true) :
    msEqC (metaslab_activate_model m aw) m := by
  by_cases h : m.ms_weight &&& METASLAB_ACTIVE_MASK = 0 <;>
    simp [metaslab_activate_model, metaslab_group_sort, h, hl, msEqC]

lemma passivate_msEqC (m : MetaslabM) (sz : Nat) :
    msEqC (metaslab_passivate m sz) m :=
  ⟨rfl, rfl, rfl, rfl, rfl, rfl⟩

lemma block_alloc_none_msEqC {cfg : ZfsConfig} {m : MetaslabM} {a : Nat}
    {m' : MetaslabM} {ok : Bool}
    (h : metaslab_block_alloc cfg m a = (none, m', ok)) : msEqC m' m := by
  unfold metaslab_block_alloc at h
  split at h
  · exact absurd (congrArg Prod.fst h) (by simp)
  · rename_i lbas hmsop
    have h2 : ({ m with ms_lbas := lbas } : MetaslabM) = m' :=
      congrArg (fun p => p.2.1) h
    rw [← h2]
    exact ⟨rfl, rfl, rfl, rfl, rfl, rfl⟩

lemma metaslab_block_alloc_some_spec {cfg : ZfsConfig} {m : MetaslabM}
    {size o : Nat} {m' : MetaslabM} {ok : Bool}
    (h : metaslab_block_alloc cfg m size = (some o, m', ok)) :
    m'.ms_tree = range_tree_remove m.ms_tree o size ∧
    m'.ms_alloctree = m.ms_alloctree ∧ m'.ms_loaded = m.ms_loaded ∧
    m'.ms_ops = m.ms_ops ∧ m'.ms_start = m.ms_start ∧ m'.ms_size = m.ms_size ∧
    ∃ lb, msop_alloc cfg m size = (some o, lb) := by
  unfold metaslab_block_alloc at h
  split at h
  · rename_i start lbas hmsop
    have hso : start = o := by
      have h1 := congrArg Prod.fst h
      simpa using h1
    subst hso
    have h2 := congrArg (fun p => p.2.1) h
    dsimp only at h2
    rw [← h2]
    exact ⟨rfl, rfl, rfl, rfl, rfl, rfl, lbas, hmsop⟩
  · rename_i lbas hmsop
    have h1 := congrArg Prod.fst h
    simp at h1

def optMsEqC : Option MetaslabM → Option MetaslabM → Prop
  | none, none => True
  | some a, some b => msEqC a b
  | _, _ => False

lemma optMsEqC_refl (x : Option MetaslabM) : optMsEqC x x := by
  cases x with
  | none => trivial
  | some a => exact msEqC_refl a

lemma optMsEqC_trans {x y z : Option MetaslabM} (h1 : optMsEqC x y)
    (h2 : optMsEqC y z) : optMsEqC x z := by
  cases x <;> cases y <;> cases z
  · trivial
  · exact False.elim h2
  · exact False.elim h1
  · exact False.elim h1
  · exact False.elim h1
  · exact False.elim h1
  · exact False.elim h2
  · exact msEqC_trans h1 h2

lemma set_optMsEqC {msl : List MetaslabM} {i0 : Nat} {m0 q : MetaslabM}
    (hm0 : msl.get? i0 = some m0) (hq : msEqC q m0) :
    ∀ j, optMsEqC ((msl.set i0 q).get? j) (msl.get? j) := by
  intro j
  by_cases hj : i0 = j
  · subst hj
    have hlen : i0 < msl.length := (List.get?_eq_some.mp hm0).1
    rw [list_get?_set_self hlen q, hm0]
    exact hq
  · rw [list_get?_set_ne _ _ hj]
    exact optMsEqC_refl _

/- What one successful pass of metaslab_group_alloc does to the group's
   metaslab list: exactly one entry has the allocated range moved from its
   free tree into alloctree[txg & TXG_MASK] (plus cursor/weight churn),
   every other entry keeps all tracked fields. -/
def allocSpecAt (txg asize o : Nat) (msl msl' : List MetaslabM) : Prop :=
  ∃ i m m', msl.get? i = some m ∧ msl'.get? i = some m' ∧
    m'.ms_tree = range_tree_remove m.ms_tree o asize ∧
    m'.ms_alloctree = ffupd m.ms_alloctree (txgSlot txg)
      (range_tree_add (m.ms_alloctree (txgSlot txg)) o asize) ∧
    m'.ms_loaded = m.ms_loaded ∧ m'.ms_ops = m.ms_ops ∧
    m'.ms_start = m.ms_start ∧ m'.ms_size = m.ms_size ∧
    (∃ s ∈ m.ms_tree, s.rs_start ≤ o ∧ o + asize ≤ s.rs_end) ∧
    ∀ j, j ≠ i → optMsEqC (msl'.get? j) (msl.get? j)

lemma allocSpecAt_set {txg asize o : Nat} {msl : List MetaslabM} {i0 : Nat}
    {m0 q : MetaslabM} (hm0 : msl.get? i0 = some m0) (hq : msEqC q m0)
    {msl' : List MetaslabM}
    (h : allocSpecAt txg asize o (msl.set i0 q) msl') :
    allocSpecAt txg asize o msl msl' := by
  obtain ⟨i, m, m', hi, hi', ht, ha, hl, hop, hst, hsz, hcont, hoth⟩ := h
  have hlen : i0 < msl.length := (List.get?_eq_some.mp hm0).1
  by_cases hii : i = i0
  · subst hii
    have hqi : (msl.set i q).get? i = some q := list_get?_set_self hlen q
    have hmq : m = q := by
      rw [hi] at hqi
      injection hqi
    subst hmq
    obtain ⟨e1, e2, e3, e4, e5, e6⟩ := hq
    refine ⟨i, m0, m', hm0, hi', ?_, ?_, ?_, ?_, ?_, ?_, ?_, ?_⟩
    · rw [ht, e5]
    · rw [ha, e6]
    · rw [hl, e1]
    · rw [hop, e2]
    · rw [hst, e3]
    · rw [hsz, e4]
    · rw [e5] at hcont
      exact hcont
    · intro j hj
      have h2 := hoth j hj
      rwa [list_get?_set_ne _ _ (fun hh => hj hh.symm)] at h2
  · have hgi : (msl.set i0 q).get? i = msl.get? i :=
      list_get?_set_ne _ _ (fun hh => hii hh.symm)
    refine ⟨i, m, m', by rw [← hgi]; exact hi, hi', ht, ha, hl, hop, hst, hsz,
      hcont, ?_⟩
    intro j hj
    by_cases hji0 : j = i0
    · subst hji0
      have h2 := hoth j hj
      have hqj : (msl.set j q).get? j = some q := list_get?_set_self hlen q
      rw [hqj] at h2
      rw [hm0]
      cases hcase : msl'.get? j with
      | none => rw [hcase] at h2; exact h2.elim
      | some w =>
        rw [hcase] at h2
        exact msEqC_trans h2 hq
    · have h2 := hoth j hj
      rwa [list_get?_set_ne _ _ (fun hh => hji0 hh.symm)] at h2

lemma allLoaded_set {msl : List MetaslabM} {i : Nat} {q : MetaslabM}
    (hload : ∀ m ∈ msl, m.ms_loaded = true) (hq : q.ms_loaded = true) :
    ∀ m ∈ msl.set i q, m.ms_loaded = true := by
  intro m hm
  rcases List.mem_or_eq_of_mem_set hm with h | rfl
  · exact hload m h
  · exact hq

lemma msEqC_loaded {q m0 : MetaslabM} (hq : msEqC q m0)
    (h : m0.ms_loaded = true) : q.ms_loaded = true := by
  rw [hq.1]
  exact h

lemma groupAllocGo_none_pres (cfg : ZfsConfig)
    (asize txg min_distance aw ms_shift vd_id : Nat) (dva : List Dva) :
    ∀ (fuel : Nat) (msl msl' : List MetaslabM) (okv : Bool),
    (∀ m ∈ msl, m.ms_loaded = true) →
    groupAllocGo cfg asize txg min_distance aw ms_shift vd_id dva fuel msl
      = (none, msl', okv) →
    ∀ j, optMsEqC (msl'.get? j) (msl.get? j) := by
  intro fuel
  induction fuel with
  | zero =>
    intro msl msl' okv _ h j
    have h2 : msl = msl' := congrArg (fun p => p.2.1) h
    rw [← h2]
    exact optMsEqC_refl _
  | succ fuel ih =>
    intro msl msl' okv hload h j
    unfold groupAllocGo at h
    cases hscan : groupScan asize aw min_distance ms_shift vd_id dva msl with
    | none =>
      rw [hscan] at h
      have h2 : msl = msl' := congrArg (fun p => p.2.1) h
      rw [← h2]
      exact optMsEqC_refl _
    | some i0 =>
      rw [hscan] at h
      dsimp only at h
      cases hm0 : msl.get? i0 with
      | none =>
        rw [hm0] at h
        have h2 : msl = msl' := congrArg (fun p => p.2.1) h
        rw [← h2]
        exact optMsEqC_refl _
      | some m0 =>
        have hl0 : m0.ms_loaded = true := hload m0 (List.get?_mem hm0)
        rw [hm0] at h
        dsimp only at h
        split at h
        · exact ih msl msl' okv hload h j
        · split at h
          · have hq := passivate_msEqC m0 (m0.ms_weight &&& (2 ^ 62 - 1))
            exact optMsEqC_trans
              (ih _ msl' okv (allLoaded_set hload (msEqC_loaded hq hl0)) h j)
              (set_optMsEqC hm0 hq j)
          · split at h
            · have hq := activate_model_msEqC (m := m0) aw hl0
              exact optMsEqC_trans
                (ih _ msl' okv (allLoaded_set hload (msEqC_loaded hq hl0)) h j)
                (set_optMsEqC hm0 hq j)
            · rcases hba : metaslab_block_alloc cfg (metaslab_activate_model m0 aw)
                  asize with ⟨ob, msp2, okb⟩
              rw [hba] at h
              cases ob with
              | some off =>
                dsimp only at h
                exact absurd (congrArg Prod.fst h) (by simp)
              | none =>
                dsimp only at h
                have hq1 := activate_model_msEqC (m := m0) aw hl0
                have hq2 := block_alloc_none_msEqC hba
                have hq3 := passivate_msEqC msp2 (metaslab_block_maxsize msp2)
                have hq : msEqC
                    (metaslab_passivate msp2 (metaslab_block_maxsize msp2)) m0 :=
                  msEqC_trans hq3 (msEqC_trans hq2 hq1)
                rcases hr : groupAllocGo cfg asize txg min_distance aw ms_shift
                    vd_id dva fuel
                    (msl.set i0 (metaslab_passivate msp2 (metaslab_block_maxsize msp2)))
                  with ⟨ro, rl, rb⟩
                rw [hr] at h
                have hro : ro = none := by
                  have := congrArg Prod.fst h
                  simpa using this
                have hrl : rl = msl' := by
                  have := congrArg (fun p => p.2.1) h
                  simpa using this
                subst hro
                rw [← hrl]
                exact optMsEqC_trans
                  (ih _ rl rb (allLoaded_set hload (msEqC_loaded hq hl0)) hr j)
                  (set_optMsEqC hm0 hq j)

lemma allOps_set {msl : List MetaslabM} {i : Nat} {q : MetaslabM}
    (hops : ∀ m ∈ msl, m.ms_ops ≠ OpsKind.cf) (hq : q.ms_ops ≠ OpsKind.cf) :
    ∀ m ∈ msl.set i q, m.ms_ops ≠ OpsKind.cf := by
  intro m hm
  rcases List.mem_or_eq_of_mem_set hm with h | rfl
  · exact hops m h
  · exact hq

lemma msEqC_ops {q m0 : MetaslabM} (hq : msEqC q m0)
    (h : m0.ms_ops ≠ OpsKind.cf) : q.ms_ops ≠ OpsKind.cf := by
  rw [hq.2.1]
  exact h

lemma groupAllocGo_some_spec (cfg : ZfsConfig)
    (asize txg min_distance aw ms_shift vd_id : Nat) (dva : List Dva)
    (hasz : 0 < asize) :
    ∀ (fuel : Nat) (msl : List MetaslabM) (o : Nat) (msl' : List MetaslabM)
      (okv : Bool),
    (∀ m ∈ msl, m.ms_loaded = true) →
    (∀ m ∈ msl, m.ms_ops ≠ OpsKind.cf) →
    groupAllocGo cfg asize txg min_distance aw ms_shift vd_id dva fuel msl
      = (some o, msl', okv) →
    allocSpecAt txg asize o msl msl' := by
  intro fuel
  induction fuel with
  | zero =>
    intro msl o msl' okv _ _ h
    unfold groupAllocGo at h
    exact absurd (congrArg Prod.fst h) (by simp)
  | succ fuel ih =>
    intro msl o msl' okv hload hops h
    unfold groupAllocGo at h
    cases hscan : groupScan asize aw min_distance ms_shift vd_id dva msl with
    | none =>
      rw [hscan] at h
      exact absurd (congrArg Prod.fst h) (by simp)
    | some i0 =>
      rw [hscan] at h
      dsimp only at h
      cases hm0 : msl.get? i0 with
      | none =>
        rw [hm0] at h
        exact absurd (congrArg Prod.fst h) (by simp)
      | some m0 =>
        have hl0 : m0.ms_loaded = true := hload m0 (List.get?_mem hm0)
        have hop0 : m0.ms_ops ≠ OpsKind.cf := hops m0 (List.get?_mem hm0)
        rw [hm0] at h
        dsimp only at h
        split at h
        · exact ih msl o msl' okv hload hops h
        · split at h
          · have hq := passivate_msEqC m0 (m0.ms_weight &&& (2 ^ 62 - 1))
            exact allocSpecAt_set hm0 hq
              (ih _ o msl' okv (allLoaded_set hload (msEqC_loaded hq hl0))
                (allOps_set hops (msEqC_ops hq hop0)) h)
          · split at h
            · have hq := activate_model_msEqC (m := m0) aw hl0
              exact allocSpecAt_set hm0 hq
                (ih _ o msl' okv (allLoaded_set hload (msEqC_loaded hq hl0))
                  (allOps_set hops (msEqC_ops hq hop0)) h)
            · rcases hba : metaslab_block_alloc cfg (metaslab_activate_model m0 aw)
                  asize with ⟨ob, msp2, okb⟩
              rw [hba] at h
              cases ob with
              | some off =>
                dsimp only at h
                have hoo : off = o := by
                  have h1 := congrArg Prod.fst h
                  simpa using h1
                subst hoo
                have hml := congrArg (fun p => p.2.1) h
                dsimp only at hml
                have hlen : i0 < msl.length := (List.get?_eq_some.mp hm0).1
                obtain ⟨q1, q2, q3, q4, q5, q6⟩ :=
                  activate_model_msEqC (m := m0) aw hl0
                obtain ⟨sp1, sp2, sp3, sp4, sp5, sp6, lb, hmsop⟩ :=
                  metaslab_block_alloc_some_spec hba
                rw [← hml]
                refine ⟨i0, m0, _, hm0, list_get?_set_self hlen _, ?_, ?_, ?_,
                  ?_, ?_, ?_, ?_, ?_⟩
                · dsimp only
                  rw [sp1, q5]
                · dsimp only
                  rw [sp2, q6]
                · dsimp only
                  rw [sp3, q1]
                · dsimp only
                  rw [sp4, q2]
                · dsimp only
                  rw [sp5, q3]
                · dsimp only
                  rw [sp6, q4]
                · have hcont := msop_alloc_contains
                    (m := metaslab_activate_model m0 aw)
                    (by rw [q2]; exact hop0) hasz hmsop
                  rw [q5] at hcont
                  exact hcont
                · intro j hj
                  rw [list_get?_set_ne _ _ (fun hh => hj hh.symm)]
                  exact optMsEqC_refl _
              | none =>
                dsimp only at h
                have hq1 := activate_model_msEqC (m := m0) aw hl0
                have hq2 := block_alloc_none_msEqC hba
                have hq3 := passivate_msEqC msp2 (metaslab_block_maxsize msp2)
                have hq : msEqC
                    (metaslab_passivate msp2 (metaslab_block_maxsize msp2)) m0 :=
                  msEqC_trans hq3 (msEqC_trans hq2 hq1)
                rcases hr : groupAllocGo cfg asize txg min_distance aw ms_shift
                    vd_id dva fuel
                    (msl.set i0 (metaslab_passivate msp2 (metaslab_block_maxsize msp2)))
                  with ⟨ro, rl, rb⟩
                rw [hr] at h
                have hro : ro = some o := by
                  have h1 := congrArg Prod.fst h
                  simpa using h1
                have hrl : rl = msl' := by
                  have h1 := congrArg (fun p => p.2.1) h
                  simpa using h1
                subst hro
                rw [← hrl]
                exact allocSpecAt_set hm0 hq
                  (ih _ o rl rb (allLoaded_set hload (msEqC_loaded hq hl0))
                    (allOps_set hops (msEqC_ops hq hop0)) hr)

def zeroDva : Dva :=
  { dva_vdev := 0, dva_offset := 0, dva_asize := 0, dva_gang := false }

/- metaslab_free_dva.  The now path pulls the range out of the current
   txg's alloc tree and returns it to the in-core free tree; the non-now
   path adds it to freetree[txg & TXG_MASK].  Frees above the freeze txg
   are dropped, and a bad vdev/offset hits the ASSERT(0)-and-return path. -/
def metaslab_free_dva (spa : SpaM) (d : Dva) (txg : Nat) (now : Bool) : SpaM :=
  if txg > spa.spa_freeze_txg then spa
  else
    match spa.spa_vdevs.get? d.dva_vdev with
    | none => spa
    | some vd =>
      if d.dva_offset >>> vd.vdev_ms_shift ≥ vd.vdev_ms_count then spa
      else
        match vd.vdev_ms.get? (d.dva_offset >>> vd.vdev_ms_shift) with
        | none => spa
        | some msp =>
          let size := if d.dva_gang then vdev_psize_to_asize vd SPA_GANGBLOCKSIZE
                      else d.dva_asize
          let msp1 :=
            if now then
              { msp with
                ms_alloctree := ffupd msp.ms_alloctree (txgSlot txg)
                  (range_tree_remove (msp.ms_alloctree (txgSlot txg))
                    d.dva_offset size),
                ms_tree := range_tree_add msp.ms_tree d.dva_offset size }
            else
              { msp with
                ms_freetree := ffupd msp.ms_freetree (txgSlot txg)
                  (range_tree_add (msp.ms_freetree (txgSlot txg))
                    d.dva_offset size) }
          spaSetMs spa d.dva_vdev (d.dva_offset >>> vd.vdev_ms_shift) msp1

/- One metaslab-group attempt of metaslab_alloc_dva's rotor walk:
   non-allocatable vdevs are skipped, otherwise metaslab_group_alloc runs
   and on success the DVA is filled in from the group's vdev. -/
def vdevTryAlloc (cfg : ZfsConfig) (fuel : Nat) (vd : VdevM)
    (psize txg : Nat) (dva : List Dva) (gang : Bool) : Option Dva × VdevM :=
  if vd.vdev_allocatable then
    let asize := vdev_psize_to_asize vd psize
    let r := metaslab_group_alloc_model cfg fuel vd.vdev_ms_shift vd.vdev_id
      vd.vdev_ms asize txg 0 dva
    match r.1 with
    | some offset =>
      (some { dva_vdev := vd.vdev_id, dva_offset := offset, dva_asize := asize,
              dva_gang := gang }, { vd with vdev_ms := r.2.1 })
    | none => (none, { vd with vdev_ms := r.2.1 })
  else (none, vd)

/- The rotor do-while of metaslab_alloc_dva, collapsed to a single pass in
   list order with min_distance 0 (the dshift/bias retry loops only affect
   which group wins, not what a success or failure does to the trees). -/
def allocDvaGo (cfg : ZfsConfig) (fuel psize txg : Nat) (dva : List Dva)
    (gang : Bool) : List VdevM → Option Dva × List VdevM
  | [] => (none, [])
  | vd :: rest =>
    match vdevTryAlloc cfg fuel vd psize txg dva gang with
    | (some d, vd') => (some d, vd' :: rest)
    | (none, vd') =>
      let r := allocDvaGo cfg fuel psize txg dva gang rest
      (r.1, vd' :: r.2)

/- metaslab_alloc_dva: the metaslab_gang_bang test hook may force ENOSPC
   up front (lbolt models ddi_get_lbolt()); otherwise walk the groups. -/
def metaslab_alloc_dva_model (cfg : ZfsConfig) (fuel : Nat) (spa : SpaM)
    (psize txg : Nat) (dva : List Dva) (gang : Bool) (lbolt : Nat) :
    Option Dva × SpaM :=
  if psize ≥ cfg.metaslab_gang_bang ∧ lbolt &&& 3 = 0 then (none, spa)
  else
    let r := allocDvaGo cfg fuel psize txg dva gang spa.spa_vdevs
    (r.1, { spa with spa_vdevs := r.2 })

/- The copy loop of metaslab_alloc with its unwind: on the first failed
   copy, every previously allocated DVA is freed back through the now path
   in reverse order and the block pointer is left all-zero. -/
def metaslab_alloc_go (cfg : ZfsConfig) (fuel psize txg : Nat) (gang : Bool)
    (lbolt : Nat) : Nat → List Dva → SpaM → Nat × List Dva × SpaM
  | 0, acc, spa => (0, acc, spa)
  | Nat.succ n, acc, spa =>
    match metaslab_alloc_dva_model cfg fuel spa psize txg acc gang lbolt with
    | (some d, spa1) =>
      metaslab_alloc_go cfg fuel psize txg gang lbolt n (acc ++ [d]) spa1
    | (none, spa1) =>
      (ENOSPC, List.replicate (acc.length + n + 1) zeroDva,
        acc.reverse.foldl (fun s dv => metaslab_free_dva s dv txg true) spa1)

/- metaslab_alloc: empty class (no rotor) fails up front, otherwise
   allocate ndvas copies with unwind on failure. -/
def metaslab_alloc_model (cfg : ZfsConfig) (fuel : Nat) (spa : SpaM)
    (psize ndvas txg : Nat) (gang : Bool) (lbolt : Nat) :
    Nat × List Dva × SpaM :=
  if spa.spa_vdevs.length = 0 then (ENOSPC, List.replicate ndvas zeroDva, spa)
  else metaslab_alloc_go cfg fuel psize txg gang lbolt ndvas [] spa

/- State equivalence tracked across the alloc/unwind roundtrip: the fields
   metaslab_free_dva reads plus the trees the claim is about.  Cursor and
   weight churn is deliberately not tracked. -/
def vdEqC (a b : VdevM) : Prop :=
  a.vdev_ms_shift = b.vdev_ms_shift ∧ a.vdev_ms_count = b.vdev_ms_count ∧
  a.vdev_id = b.vdev_id ∧
  ∀ i, optMsEqC (a.vdev_ms.get? i) (b.vdev_ms.get? i)

def optVdEqC : Option VdevM → Option VdevM → Prop
  | none, none => True
  | some a, some b => vdEqC a b
  | _, _ => False

def spaEqC (s t : SpaM) : Prop :=
  s.spa_freeze_txg = t.spa_freeze_txg ∧ s.spa_writeable = t.spa_writeable ∧
  ∀ v, optVdEqC (s.spa_vdevs.get? v) (t.spa_vdevs.get? v)

lemma vdEqC_refl (a : VdevM) : vdEqC a a :=
  ⟨rfl, rfl, rfl, fun _ => optMsEqC_refl _⟩

lemma vdEqC_trans {a b c : VdevM} (h1 : vdEqC a b) (h2 : vdEqC b c) :
    vdEqC a c :=
  ⟨h1.1.trans h2.1, h1.2.1.trans h2.2.1, h1.2.2.1.trans h2.2.2.1,
    fun i => optMsEqC_trans (h1.2.2.2 i) (h2.2.2.2 i)⟩

lemma optVdEqC_refl (x : Option VdevM) : optVdEqC x x := by
  cases x with
  | none => trivial
  | some a => exact vdEqC_refl a

lemma optVdEqC_trans {x y z : Option VdevM} (h1 : optVdEqC x y)
    (h2 : optVdEqC y z) : optVdEqC x z := by
  cases x <;> cases y <;> cases z
  · trivial
  · exact False.elim h2
  · exact False.elim h1
  · exact False.elim h1
  · exact False.elim h1
  · exact False.elim h1
  · exact False.elim h2
  · exact vdEqC_trans h1 h2

lemma spaEqC_refl (s : SpaM) : spaEqC s s :=
  ⟨rfl, rfl, fun _ => optVdEqC_refl _⟩

lemma spaEqC_trans {s t u : SpaM} (h1 : spaEqC s t) (h2 : spaEqC t u) :
    spaEqC s u :=
  ⟨h1.1.trans h2.1, h1.2.1.trans h2.2.1,
    fun v => optVdEqC_trans (h1.2.2 v) (h2.2.2 v)⟩

/- Invariant of the C10 theorem, phrased per metaslab: loaded, a strategy
   other than cf (whose cursor validity is an extra invariant the model
   does not carry), canonical trees, address-disjointness of the free tree
   from the pending alloc tree, and the id-indexed address layout that
   makes free_dva's vdev_ms[offset >> shift] find the right metaslab
   again. -/
def msInv (txg sh i : Nat) (m : MetaslabM) : Prop :=
  m.ms_loaded = true ∧ m.ms_ops ≠ OpsKind.cf ∧
  rtWF m.ms_tree ∧ rtWF (m.ms_alloctree (txgSlot txg)) ∧
  (∀ y, rtMemP m.ms_tree y → rtMemP (m.ms_alloctree (txgSlot txg)) y → False) ∧
  m.ms_start = i <<< sh ∧ m.ms_size ≤ 2 ^ sh ∧
  (∀ s ∈ m.ms_tree, m.ms_start ≤ s.rs_start ∧ s.rs_end ≤ m.ms_start + m.ms_size)

def vdInv (txg v : Nat) (vd : VdevM) : Prop :=
  vd.vdev_id = v ∧ vd.vdev_ms_count = vd.vdev_ms.length ∧
  ∀ i m, vd.vdev_ms.get? i = some m → msInv txg vd.vdev_ms_shift i m

def spaInv (txg : Nat) (spa : SpaM) : Prop :=
  txg ≤ spa.spa_freeze_txg ∧
  ∀ v vd, spa.spa_vdevs.get? v = some vd → vdInv txg v vd

lemma allocSpecAt_length {txg asize o : Nat} {msl msl' : List MetaslabM}
    (h : allocSpecAt txg asize o msl msl') : msl'.length = msl.length := by
  obtain ⟨i, m, m', hi, hi', _, _, _, _, _, _, _, hoth⟩ := h
  by_contra hne
  rcases Nat.lt_or_ge msl'.length msl.length with hlt | hge
  · have hii : i < msl'.length := (List.get?_eq_some.mp hi').1
    have hj := hoth msl'.length (by omega)
    rw [List.get?_eq_none.mpr (le_refl _)] at hj
    cases hm : msl.get? msl'.length with
    | none =>
      have := List.get?_eq_none.mp hm
      omega
    | some w =>
      rw [hm] at hj
      exact hj.elim
  · have hlt2 : msl.length < msl'.length := by omega
    have hii : i < msl.length := (List.get?_eq_some.mp hi).1
    have hj := hoth msl.length (by omega)
    cases hm : msl'.get? msl.length with
    | none =>
      have := List.get?_eq_none.mp hm
      omega
    | some w =>
      rw [hm, List.get?_eq_none.mpr (le_refl _)] at hj
      exact hj.elim

lemma vdevTryAlloc_none_spec {cfg : ZfsConfig} {fuel : Nat} {vd : VdevM}
    {psize txg : Nat} {dva : List Dva} {gang : Bool} {vd' : VdevM}
    (hload : ∀ m ∈ vd.vdev_ms, m.ms_loaded = true)
    (h : vdevTryAlloc cfg fuel vd psize txg dva gang = (none, vd')) :
    vdEqC vd' vd := by
  unfold vdevTryAlloc at h
  split at h
  · dsimp only at h
    rcases hr : metaslab_group_alloc_model cfg fuel vd.vdev_ms_shift vd.vdev_id
        vd.vdev_ms (vdev_psize_to_asize vd psize) txg 0 dva with ⟨ro, rl, rb⟩
    rw [hr] at h
    cases ro with
    | some off =>
      dsimp only at h
      exact absurd (congrArg Prod.fst h) (by simp)
    | none =>
      dsimp only at h
      have hv : ({ vd with vdev_ms := rl } : VdevM) = vd' := congrArg Prod.snd h
      unfold metaslab_group_alloc_model at hr
      have hpres := groupAllocGo_none_pres cfg (vdev_psize_to_asize vd psize)
        txg 0 _ vd.vdev_ms_shift vd.vdev_id dva fuel vd.vdev_ms rl rb hload hr
      rw [← hv]
      exact ⟨rfl, rfl, rfl, hpres⟩
  · have hv : vd = vd' := congrArg Prod.snd h
    rw [← hv]
    exact vdEqC_refl vd

lemma vdevTryAlloc_some_spec {cfg : ZfsConfig} {fuel : Nat} {vd : VdevM}
    {psize txg : Nat} {dva : List Dva} {gang : Bool} {d : Dva} {vd' : VdevM}
    (hload : ∀ m ∈ vd.vdev_ms, m.ms_loaded = true)
    (hops : ∀ m ∈ vd.vdev_ms, m.ms_ops ≠ OpsKind.cf)
    (hpsz : 0 < psize)
    (h : vdevTryAlloc cfg fuel vd psize txg dva gang = (some d, vd')) :
    d.dva_vdev = vd.vdev_id ∧ d.dva_asize = vdev_psize_to_asize vd psize ∧
    d.dva_gang = gang ∧ vd'.vdev_ms_shift = vd.vdev_ms_shift ∧
    vd'.vdev_ms_count = vd.vdev_ms_count ∧ vd'.vdev_id = vd.vdev_id ∧
    allocSpecAt txg (vdev_psize_to_asize vd psize) d.dva_offset vd.vdev_ms
      vd'.vdev_ms := by
  have hasz : 0 < vdev_psize_to_asize vd psize :=
    lt_of_lt_of_le hpsz le_p2roundup
  unfold vdevTryAlloc at h
  split at h
  · dsimp only at h
    rcases hr : metaslab_group_alloc_model cfg fuel vd.vdev_ms_shift vd.vdev_id
        vd.vdev_ms (vdev_psize_to_asize vd psize) txg 0 dva with ⟨ro, rl, rb⟩
    rw [hr] at h
    cases ro with
    | none =>
      dsimp only at h
      exact absurd (congrArg Prod.fst h) (by simp)
    | some off =>
      dsimp only at h
      have hd : ({ dva_vdev := vd.vdev_id,
                   dva_offset := off,
                   dva_asize := vdev_psize_to_asize vd psize,
                   dva_gang := gang } : Dva) = d := by
        have h1 := congrArg Prod.fst h
        dsimp only at h1
        injection h1
      have hv : ({ vd with vdev_ms := rl } : VdevM) = vd' := congrArg Prod.snd h
      unfold metaslab_group_alloc_model at hr
      have hspec := groupAllocGo_some_spec cfg (vdev_psize_to_asize vd psize)
        txg 0 _ vd.vdev_ms_shift vd.vdev_id dva hasz fuel vd.vdev_ms off rl rb
        hload hops hr
      rw [← hd, ← hv]
      exact ⟨rfl, rfl, rfl, rfl, rfl, rfl, hspec⟩
  · exact absurd (congrArg Prod.fst h) (by simp)

lemma allocDvaGo_none_spec {cfg : ZfsConfig} {fuel psize txg : Nat}
    {dva : List Dva} {gang : Bool} :
    ∀ {vds vds' : List VdevM},
    (∀ vd ∈ vds, ∀ m ∈ vd.vdev_ms, m.ms_loaded = true) →
    allocDvaGo cfg fuel psize txg dva gang vds = (none, vds') →
    ∀ w, optVdEqC (vds'.get? w) (vds.get? w) := by
  intro vds
  induction vds with
  | nil =>
    intro vds' _ h w
    unfold allocDvaGo at h
    have h2 : ([] : List VdevM) = vds' := congrArg Prod.snd h
    rw [← h2]
    exact optVdEqC_refl _
  | cons vd rest ih =>
    intro vds' hload h w
    unfold allocDvaGo at h
    rcases ht : vdevTryAlloc cfg fuel vd psize txg dva gang with ⟨od, vd1⟩
    rw [ht] at h
    cases od with
    | some d =>
      dsimp only at h
      exact absurd (congrArg Prod.fst h) (by simp)
    | none =>
      dsimp only at h
      rcases hrr : allocDvaGo cfg fuel psize txg dva gang rest with ⟨ro, rl⟩
      rw [hrr] at h
      have hro : ro = none := by
        have h1 := congrArg Prod.fst h
        simpa using h1
      subst hro
      have hvds : vd1 :: rl = vds' := congrArg Prod.snd h
      rw [← hvds]
      have hvd1 : vdEqC vd1 vd := vdevTryAlloc_none_spec (hload vd (by simp)) ht
      have hrest := ih (fun u hu => hload u (List.mem_cons_of_mem _ hu)) hrr
      cases w with
      | zero => exact hvd1
      | succ w2 => exact hrest w2

lemma allocDvaGo_some_spec {cfg : ZfsConfig} {fuel psize txg : Nat}
    {dva : List Dva} {gang : Bool} (hpsz : 0 < psize) :
    ∀ {vds vds' : List VdevM} {d : Dva},
    (∀ vd ∈ vds, ∀ m ∈ vd.vdev_ms, m.ms_loaded = true) →
    (∀ vd ∈ vds, ∀ m ∈ vd.vdev_ms, m.ms_ops ≠ OpsKind.cf) →
    allocDvaGo cfg fuel psize txg dva gang vds = (some d, vds') →
    ∃ v vd vd', vds.get? v = some vd ∧ vds'.get? v = some vd' ∧
      d.dva_vdev = vd.vdev_id ∧ d.dva_asize = vdev_psize_to_asize vd psize ∧
      d.dva_gang = gang ∧ vd'.vdev_ms_shift = vd.vdev_ms_shift ∧
      vd'.vdev_ms_count = vd.vdev_ms_count ∧ vd'.vdev_id = vd.vdev_id ∧
      allocSpecAt txg (vdev_psize_to_asize vd psize) d.dva_offset vd.vdev_ms
        vd'.vdev_ms ∧
      ∀ w, w ≠ v → optVdEqC (vds'.get? w) (vds.get? w) := by
  intro vds
  induction vds with
  | nil =>
    intro vds' d _ _ h
    unfold allocDvaGo at h
    exact absurd (congrArg Prod.fst h) (by simp)
  | cons vd rest ih =>
    intro vds' d hload hops h
    unfold allocDvaGo at h
    rcases ht : vdevTryAlloc cfg fuel vd psize txg dva gang with ⟨od, vd1⟩
    rw [ht] at h
    cases od with
    | some d0 =>
      dsimp only at h
      have hd0 : d0 = d := by
        have h1 := congrArg Prod.fst h
        simpa using h1
      subst hd0
      have hvds : vd1 :: rest = vds' := congrArg Prod.snd h
      obtain ⟨e1, e2, e3, e4, e5, e6, hspec⟩ :=
        vdevTryAlloc_some_spec (hload vd (by simp)) (hops vd (by simp)) hpsz ht
      refine ⟨0, vd, vd1, rfl, by rw [← hvds]; rfl, e1, e2, e3, e4, e5, e6,
        hspec, ?_⟩
      intro w hw
      rw [← hvds]
      cases w with
      | zero => exact absurd rfl hw
      | succ w2 => exact optVdEqC_refl _
    | none =>
      dsimp only at h
      rcases hrr : allocDvaGo cfg fuel psize txg dva gang rest with ⟨ro, rl⟩
      rw [hrr] at h
      have hro : ro = some d := by
        have h1 := congrArg Prod.fst h
        simpa using h1
      subst hro
      have hvds : vd1 :: rl = vds' := congrArg Prod.snd h
      obtain ⟨v, vdv, vdv', hv1, hv2, f1, f2, f3, f4, f5, f6, fspec, foth⟩ :=
        ih (fun u hu => hload u (List.mem_cons_of_mem _ hu))
          (fun u hu => hops u (List.mem_cons_of_mem _ hu)) hrr
      have hvd1 : vdEqC vd1 vd := vdevTryAlloc_none_spec (hload vd (by simp)) ht
      refine ⟨v + 1, vdv, vdv', hv1, by rw [← hvds]; exact hv2, f1, f2, f3, f4,
        f5, f6, fspec, ?_⟩
      intro w hw
      rw [← hvds]
      cases w with
      | zero => exact hvd1
      | succ w2 => exact foth w2 (fun hh => hw (by rw [hh]))

lemma msEqC_free_now {ms mt : MetaslabM} (hms : msEqC ms mt)
    (slot : Fin 4) (off size : Nat) :
    msEqC
      { ms with
        ms_alloctree := ffupd ms.ms_alloctree slot
          (range_tree_remove (ms.ms_alloctree slot) off size),
        ms_tree := range_tree_add ms.ms_tree off size }
      { mt with
        ms_alloctree := ffupd mt.ms_alloctree slot
          (range_tree_remove (mt.ms_alloctree slot) off size),
        ms_tree := range_tree_add mt.ms_tree off size } := by
  obtain ⟨e1, e2, e3, e4, e5, e6⟩ := hms
  exact ⟨e1, e2, e3, e4, by rw [e5], by rw [e6]⟩

lemma metaslab_free_dva_congr {s t : SpaM} (h : spaEqC s t) {d : Dva}
    (hg : d.dva_gang = false) (txg : Nat) :
    spaEqC (metaslab_free_dva s d txg true) (metaslab_free_dva t d txg true) := by
  obtain ⟨hf, hw, hvd⟩ := h
  unfold metaslab_free_dva
  rw [hf]
  by_cases hfr : txg > t.spa_freeze_txg
  · simp only [if_pos hfr]
    exact ⟨hf, hw, hvd⟩
  · simp only [if_neg hfr]
    have hv := hvd d.dva_vdev
    cases hs1 : s.spa_vdevs.get? d.dva_vdev with
    | none =>
      cases ht1 : t.spa_vdevs.get? d.dva_vdev with
      | none =>
        exact ⟨hf, hw, hvd⟩
      | some vt =>
        rw [hs1, ht1] at hv
        exact hv.elim
    | some vs =>
      cases ht1 : t.spa_vdevs.get? d.dva_vdev with
      | none =>
        rw [hs1, ht1] at hv
        exact hv.elim
      | some vt =>
        rw [hs1, ht1] at hv
        dsimp only
        obtain ⟨g1, g2, g3, g4⟩ := hv
        rw [g1, g2]
        by_cases hc : d.dva_offset >>> vt.vdev_ms_shift ≥ vt.vdev_ms_count
        · simp only [if_pos hc]
          exact ⟨hf, hw, hvd⟩
        · simp only [if_neg hc]
          have hms := g4 (d.dva_offset >>> vt.vdev_ms_shift)
          cases hs2 : vs.vdev_ms.get? (d.dva_offset >>> vt.vdev_ms_shift) with
          | none =>
            cases ht2 : vt.vdev_ms.get? (d.dva_offset >>> vt.vdev_ms_shift) with
            | none =>
              exact ⟨hf, hw, hvd⟩
            | some mt =>
              rw [hs2, ht2] at hms
              exact hms.elim
          | some ms =>
            cases ht2 : vt.vdev_ms.get? (d.dva_offset >>> vt.vdev_ms_shift) with
            | none =>
              rw [hs2, ht2] at hms
              exact hms.elim
            | some mt =>
              rw [hs2, ht2] at hms
              dsimp only
              have hsz1 : (if d.dva_gang then vdev_psize_to_asize vs
                  SPA_GANGBLOCKSIZE else d.dva_asize) = d.dva_asize := by
                rw [hg]
                rfl
              have hsz2 : (if d.dva_gang then vdev_psize_to_asize vt
                  SPA_GANGBLOCKSIZE else d.dva_asize) = d.dva_asize := by
                rw [hg]
                rfl
              rw [hsz1, hsz2]
              simp only [if_true]
              unfold spaSetMs
              rw [hs1, ht1]
              refine ⟨hf, hw, ?_⟩
              intro v
              by_cases hvv : v = d.dva_vdev
              · subst hvv
                have hlens : d.dva_vdev < s.spa_vdevs.length :=
                  (List.get?_eq_some.mp hs1).1
                have hlent : d.dva_vdev < t.spa_vdevs.length :=
                  (List.get?_eq_some.mp ht1).1
                rw [list_get?_set_self hlens, list_get?_set_self hlent]
                refine ⟨g1, g2, g3, ?_⟩
                intro j
                by_cases hjj : j = d.dva_offset >>> vt.vdev_ms_shift
                · subst hjj
                  have hl1 : d.dva_offset >>> vt.vdev_ms_shift < vs.vdev_ms.length :=
                    (List.get?_eq_some.mp hs2).1
                  have hl2 : d.dva_offset >>> vt.vdev_ms_shift < vt.vdev_ms.length :=
                    (List.get?_eq_some.mp ht2).1
                  rw [list_get?_set_self hl1, list_get?_set_self hl2]
                  exact msEqC_free_now hms (txgSlot txg) d.dva_offset d.dva_asize
                · rw [list_get?_set_ne _ _ (fun hh => hjj hh.symm),
                    list_get?_set_ne _ _ (fun hh => hjj hh.symm)]
                  exact g4 j
              · rw [list_get?_set_ne _ _ (fun hh => hvv hh.symm),
                  list_get?_set_ne _ _ (fun hh => hvv hh.symm)]
                exact hvd v

lemma unwind_congr {txg : Nat} :
    ∀ {acc : List Dva} {s t : SpaM}, spaEqC s t →
    (∀ dv ∈ acc, dv.dva_gang = false) →
    spaEqC (acc.foldl (fun u dv => metaslab_free_dva u dv txg true) s)
      (acc.foldl (fun u dv => metaslab_free_dva u dv txg true) t) := by
  intro acc
  induction acc with
  | nil => intro s t h _; exact h
  | cons dv rest ih =>
    intro s t h hgang
    exact ih (metaslab_free_dva_congr h (hgang dv (by simp)) txg)
      (fun u hu => hgang u (List.mem_cons_of_mem _ hu))

lemma length_eq_of_optMsEqC {a b : List MetaslabM}
    (h : ∀ j, optMsEqC (a.get? j) (b.get? j)) : a.length = b.length := by
  by_contra hne
  rcases Nat.lt_or_ge a.length b.length with hlt | hge
  · have hj := h a.length
    rw [List.get?_eq_none.mpr (le_refl _)] at hj
    cases hm : b.get? a.length with
    | none =>
      have := List.get?_eq_none.mp hm
      omega
    | some w =>
      rw [hm] at hj
      exact hj.elim
  · have hlt2 : b.length < a.length := by omega
    have hj := h b.length
    cases hm : a.get? b.length with
    | none =>
      have := List.get?_eq_none.mp hm
      omega
    | some w =>
      rw [hm, List.get?_eq_none.mpr (le_refl _)] at hj
      exact hj.elim

lemma msInv_of_msEqC {txg sh i : Nat} {a b : MetaslabM} (hab : msEqC a b)
    (h : msInv txg sh i b) : msInv txg sh i a := by
  obtain ⟨e1, e2, e3, e4, e5, e6⟩ := hab
  obtain ⟨f1, f2, f3, f4, f5, f6, f7, f8⟩ := h
  rw [msInv, e1, e2, e3, e4, e5, e6]
  exact ⟨f1, f2, f3, f4, f5, f6, f7, f8⟩

lemma vdInv_of_vdEqC {txg w : Nat} {a b : VdevM} (hab : vdEqC a b)
    (h : vdInv txg w b) : vdInv txg w a := by
  obtain ⟨e1, e2, e3, e4⟩ := hab
  obtain ⟨f1, f2, f3⟩ := h
  refine ⟨e3.trans f1, ?_, ?_⟩
  · rw [e2, f2]
    exact (length_eq_of_optMsEqC e4).symm
  · intro i m hi
    have h4 := e4 i
    rw [hi] at h4
    cases hb : b.vdev_ms.get? i with
    | none =>
      rw [hb] at h4
      exact h4.elim
    | some mb =>
      rw [hb] at h4
      rw [e1]
      exact msInv_of_msEqC h4 (f3 i mb hb)

lemma spaInv_loaded {txg : Nat} {spa : SpaM} (h : spaInv txg spa) :
    ∀ vd ∈ spa.spa_vdevs, ∀ m ∈ vd.vdev_ms, m.ms_loaded = true := by
  intro vd hvd m hm
  obtain ⟨v, hv⟩ := List.get?_of_mem hvd
  obtain ⟨i, hi⟩ := List.get?_of_mem hm
  exact ((h.2 v vd hv).2.2 i m hi).1

lemma spaInv_ops {txg : Nat} {spa : SpaM} (h : spaInv txg spa) :
    ∀ vd ∈ spa.spa_vdevs, ∀ m ∈ vd.vdev_ms, m.ms_ops ≠ OpsKind.cf := by
  intro vd hvd m hm
  obtain ⟨v, hv⟩ := List.get?_of_mem hvd
  obtain ⟨i, hi⟩ := List.get?_of_mem hm
  exact ((h.2 v vd hv).2.2 i m hi).2.1

lemma disj_to_segwise {tree alloc : List Seg}
    (hdisj : ∀ y, rtMemP tree y → rtMemP alloc y → False)
    (hwfA : rtWF alloc) {s : Seg} (hs : s ∈ tree) {off asize : Nat}
    (hasz : 0 < asize)
    (h1 : s.rs_start ≤ off) (h2 : off + asize ≤ s.rs_end) :
    ∀ t ∈ alloc, off + asize ≤ t.rs_start ∨ t.rs_end ≤ off := by
  intro t htm
  by_contra hcon
  push_neg at hcon
  have hne := hwfA.1 t htm
  exact hdisj (max off t.rs_start)
    ⟨s, hs, by omega, by omega⟩ ⟨t, htm, by omega, by omega⟩

lemma alloc_dva_none_spec {cfg : ZfsConfig} {fuel : Nat} {spa : SpaM}
    {psize txg : Nat} {dva : List Dva} {gang : Bool} {lbolt : Nat} {spa1 : SpaM}
    (hload : ∀ vd ∈ spa.spa_vdevs, ∀ m ∈ vd.vdev_ms, m.ms_loaded = true)
    (h : metaslab_alloc_dva_model cfg fuel spa psize txg dva gang lbolt
      = (none, spa1)) :
    spaEqC spa1 spa := by
  unfold metaslab_alloc_dva_model at h
  split at h
  · have h2 : spa = spa1 := congrArg Prod.snd h
    rw [← h2]
    exact spaEqC_refl spa
  · dsimp only at h
    rcases hr : allocDvaGo cfg fuel psize txg dva gang spa.spa_vdevs with ⟨ro, rl⟩
    rw [hr] at h
    have hro : ro = none := by
      have h1 := congrArg Prod.fst h
      simpa using h1
    subst hro
    have h2 : ({ spa with spa_vdevs := rl } : SpaM) = spa1 := congrArg Prod.snd h
    rw [← h2]
    exact ⟨rfl, rfl, fun v => allocDvaGo_none_spec hload hr v⟩

lemma alloc_dva_some_spec {cfg : ZfsConfig} {fuel : Nat} {spa : SpaM}
    {psize txg : Nat} {dva : List Dva} {lbolt : Nat} {d : Dva} {spa1 : SpaM}
    (hinv : spaInv txg spa) (hpsz : 0 < psize)
    (h : metaslab_alloc_dva_model cfg fuel spa psize txg dva false lbolt
      = (some d, spa1)) :
    spaInv txg spa1 ∧ d.dva_gang = false ∧
    spaEqC (metaslab_free_dva spa1 d txg true) spa := by
  unfold metaslab_alloc_dva_model at h
  split at h
  · exact absurd (congrArg Prod.fst h) (by simp)
  · dsimp only at h
    rcases hr : allocDvaGo cfg fuel psize txg dva false spa.spa_vdevs with ⟨ro, rl⟩
    rw [hr] at h
    have hro : ro = some d := by
      have h1 := congrArg Prod.fst h
      simpa using h1
    subst hro
    have hsp1 : ({ spa with spa_vdevs := rl } : SpaM) = spa1 := congrArg Prod.snd h
    obtain ⟨v, vd, vd', hv1, hv2, f1, f2, f3, f4, f5, f6, hspec, foth⟩ :=
      allocDvaGo_some_spec hpsz (spaInv_loaded hinv) (spaInv_ops hinv) hr
    obtain ⟨i, m, m', hi, hi', ht, ha, hl, hop, hst, hsz, ⟨s, hsm, hs1, hs2⟩,
      hoth⟩ := hspec
    have hspec2 : allocSpecAt txg (vdev_psize_to_asize vd psize) d.dva_offset
        vd.vdev_ms vd'.vdev_ms :=
      ⟨i, m, m', hi, hi', ht, ha, hl, hop, hst, hsz, ⟨s, hsm, hs1, hs2⟩, hoth⟩
    obtain ⟨hid, hcnt, hmsInv⟩ := hinv.2 v vd hv1
    obtain ⟨k1, k2, k3, k4, k5, k6, k7, k8⟩ := hmsInv i m hi
    have hasz : 0 < vdev_psize_to_asize vd psize :=
      lt_of_lt_of_le hpsz le_p2roundup
    have hb := k8 s hsm
    have hsh : d.dva_offset >>> vd.vdev_ms_shift = i := by
      rw [Nat.shiftRight_eq_div_pow]
      refine Nat.div_eq_of_lt_le ?_ ?_
      · have he := Nat.shiftLeft_eq i vd.vdev_ms_shift
        omega
      · have he := Nat.shiftLeft_eq i vd.vdev_ms_shift
        have h2p : (i + 1) * 2 ^ vd.vdev_ms_shift =
            i * 2 ^ vd.vdev_ms_shift + 2 ^ vd.vdev_ms_shift := by ring
        omega
    refine ⟨?_, f3, ?_⟩
    · rw [← hsp1]
      refine ⟨hinv.1, ?_⟩
      intro w vdw hw
      dsimp only at hw
      by_cases hwv : w = v
      · subst hwv
        have hvd' : vdw = vd' := by
          rw [hv2] at hw
          injection hw with hh
          exact hh.symm
        subst hvd'
        refine ⟨f6.trans hid, ?_, ?_⟩
        · rw [f5, hcnt]
          exact (allocSpecAt_length hspec2).symm
        · intro j mj hj
          rw [f4]
          by_cases hji : j = i
          · subst hji
            have hmj : mj = m' := by
              rw [hi'] at hj
              injection hj with hh
              exact hh.symm
            subst hmj
            refine ⟨hl.trans k1, ?_, ?_, ?_, ?_, hst.trans k6, ?_, ?_⟩
            · rw [hop]
              exact k2
            · rw [ht]
              exact (rtWF_remove_sub k3 (by omega)).1
            · rw [ha, ffupd_self]
              exact (rtWF_add_aux k4 (by dsimp only; omega)).1
            · intro y hy1 hy2
              rw [ht] at hy1
              rw [ha, ffupd_self] at hy2
              have hy1' := (rtMemP_remove k3 (by omega)
                ⟨s, hsm, hs1, hs2⟩).mp hy1
              have hy2' := (rtMemP_add k4 (by dsimp only; omega)).mp hy2
              rcases hy2' with h2a | h2mid
              · exact k5 y hy1'.1 h2a
              · exact hy1'.2 (by dsimp only at h2mid; omega)
            · rw [hsz]
              exact k7
            · intro u hu
              rw [ht] at hu
              obtain ⟨s0, hs0, hsub1, hsub2⟩ :=
                (rtWF_remove_sub k3 (by omega)).2 u hu
              have hb0 := k8 s0 hs0
              rw [hst, hsz]
              exact ⟨by omega, by omega⟩
          · have hoj := hoth j hji
            rw [hj] at hoj
            cases hj0 : vd.vdev_ms.get? j with
            | none =>
              rw [hj0] at hoj
              exact hoj.elim
            | some mj0 =>
              rw [hj0] at hoj
              exact msInv_of_msEqC hoj (hmsInv j mj0 hj0)
      · have how := foth w hwv
        rw [hw] at how
        cases hw0 : spa.spa_vdevs.get? w with
        | none =>
          rw [hw0] at how
          exact how.elim
        | some vdw0 =>
          rw [hw0] at how
          exact vdInv_of_vdEqC how (hinv.2 w vdw0 hw0)
    · rw [← hsp1]
      unfold metaslab_free_dva
      dsimp only
      rw [if_neg (by have := hinv.1; omega)]
      have hdv : d.dva_vdev = v := f1.trans hid
      rw [hdv, hv2]
      dsimp only
      rw [f4, f5, hsh]
      rw [if_neg (by
        rw [hcnt]
        have hii : i < vd.vdev_ms.length := (List.get?_eq_some.mp hi).1
        omega)]
      rw [hi']
      dsimp only
      have hsz0 : (if d.dva_gang then vdev_psize_to_asize vd'
          SPA_GANGBLOCKSIZE else d.dva_asize) = vdev_psize_to_asize vd psize := by
        rw [f3]
        exact f2
      rw [hsz0]
      simp only [if_true]
      unfold spaSetMs
      dsimp only
      rw [hv2]
      dsimp only
      refine ⟨rfl, rfl, ?_⟩
      intro w
      dsimp only
      by_cases hwv : w = v
      · subst hwv
        have hlenv : w < rl.length := (List.get?_eq_some.mp hv2).1
        rw [list_get?_set_self hlenv, hv1]
        refine ⟨f4, f5, f6, ?_⟩
        intro j
        dsimp only
        by_cases hji : j = i
        · subst hji
          have hleni : j < vd'.vdev_ms.length := (List.get?_eq_some.mp hi').1
          rw [list_get?_set_self hleni, hi]
          refine ⟨hl, hop, hst, hsz, ?_, ?_⟩
          · dsimp only
            rw [ht]
            unfold range_tree_add range_tree_remove
            exact remove_add_seg_cancel k3 (by omega) ⟨s, hsm, hs1, hs2⟩
          · dsimp only
            funext k
            by_cases hk : k = txgSlot txg
            · subst hk
              rw [ffupd_self, ha, ffupd_self]
              unfold range_tree_add range_tree_remove
              exact add_remove_seg_cancel k4 (by omega)
                (disj_to_segwise k5 k4 hsm hasz hs1 hs2)
            · rw [ffupd_other _ _ hk, ha, ffupd_other _ _ hk]
        · rw [list_get?_set_ne _ _ (fun hh => hji hh.symm)]
          exact hoth j hji
      · rw [list_get?_set_ne _ _ (fun hh => hwv hh.symm)]
        exact foth w hwv

lemma metaslab_alloc_go_dvas (cfg : ZfsConfig) (fuel psize txg lbolt : Nat)
    (gang : Bool) :
    ∀ (n : Nat) (acc : List Dva) (spa : SpaM),
    (metaslab_alloc_go cfg fuel psize txg gang lbolt n acc spa).1 ≠ 0 →
    (metaslab_alloc_go cfg fuel psize txg gang lbolt n acc spa).2.1 =
      List.replicate (acc.length + n) zeroDva := by
  intro n
  induction n with
  | zero =>
    intro acc spa hne
    exact absurd rfl hne
  | succ n ih =>
    intro acc spa hne
    unfold metaslab_alloc_go at hne ⊢
    rcases hd : metaslab_alloc_dva_model cfg fuel spa psize txg acc gang lbolt
      with ⟨od, spa1⟩
    rw [hd] at hne
    cases od with
    | some d =>
      dsimp only at hne ⊢
      have := ih (acc ++ [d]) spa1 hne
      rw [this, List.length_append]
      have : acc.length + 1 + n = acc.length + (n + 1) := by omega
      rw [List.length_singleton, this]
    | none =>
      dsimp only
      rfl

lemma metaslab_alloc_go_spec (cfg : ZfsConfig) (fuel psize txg lbolt : Nat) :
    ∀ (n : Nat) (acc : List Dva) (spa : SpaM),
    spaInv txg spa → 0 < psize →
    (∀ dv ∈ acc, dv.dva_gang = false) →
    (metaslab_alloc_go cfg fuel psize txg false lbolt n acc spa).1 ≠ 0 →
    spaEqC (metaslab_alloc_go cfg fuel psize txg false lbolt n acc spa).2.2
      (acc.reverse.foldl (fun u dv => metaslab_free_dva u dv txg true) spa) := by
  intro n
  induction n with
  | zero =>
    intro acc spa _ _ _ hne
    exact absurd rfl hne
  | succ n ih =>
    intro acc spa hinv hpsz hgang hne
    unfold metaslab_alloc_go at hne ⊢
    rcases hd : metaslab_alloc_dva_model cfg fuel spa psize txg acc false lbolt
      with ⟨od, spa1⟩
    rw [hd] at hne
    cases od with
    | some d =>
      dsimp only at hne ⊢
      obtain ⟨hinv1, hgd, hfree⟩ := alloc_dva_some_spec hinv hpsz hd
      have hgang1 : ∀ dv ∈ acc ++ [d], dv.dva_gang = false := by
        intro dv hdv
        rcases List.mem_append.mp hdv with hh | hh
        · exact hgang dv hh
        · have hde : dv = d := by simpa using hh
          subst hde
          exact hgd
      have hstep := ih (acc ++ [d]) spa1 hinv1 hpsz hgang1 hne
      rw [List.reverse_append] at hstep
      simp only [List.reverse_cons, List.reverse_nil, List.nil_append,
        List.singleton_append, List.foldl_cons] at hstep
      refine spaEqC_trans hstep ?_
      exact unwind_congr hfree
        (fun dv hdv => hgang dv (List.mem_reverse.mp hdv))
    | none =>
      dsimp only at hne ⊢
      have hsp1 := alloc_dva_none_spec (spaInv_loaded hinv) hd
      exact unwind_congr hsp1
        (fun dv hdv => hgang dv (List.mem_reverse.mp hdv))

lemma spaEqC_trees {s t : SpaM} (h : spaEqC s t) (txg : Nat) :
    ∀ v i,
      ((s.spa_vdevs.get? v).bind (fun vd => vd.vdev_ms.get? i)).map
        (fun m => (m.ms_tree, m.ms_alloctree (txgSlot txg))) =
      ((t.spa_vdevs.get? v).bind (fun vd => vd.vdev_ms.get? i)).map
        (fun m => (m.ms_tree, m.ms_alloctree (txgSlot txg))) := by
  intro v i
  have hv := h.2.2 v
  cases h1 : s.spa_vdevs.get? v with
  | none =>
    cases h2 : t.spa_vdevs.get? v with
    | none => rfl
    | some bt =>
      rw [h1, h2] at hv
      exact hv.elim
  | some av =>
    cases h2 : t.spa_vdevs.get? v with
    | none =>
      rw [h1, h2] at hv
      exact hv.elim
    | some bt =>
      rw [h1, h2] at hv
      dsimp only [Option.bind]
      have hms := hv.2.2.2 i
      cases h3 : av.vdev_ms.get? i with
      | none =>
        cases h4 : bt.vdev_ms.get? i with
        | none => rfl
        | some mb =>
          rw [h3, h4] at hms
          exact hms.elim
      | some ma =>
        cases h4 : bt.vdev_ms.get? i with
        | none =>
          rw [h3, h4] at hms
          exact hms.elim
        | some mb =>
          rw [h3, h4] at hms
          dsimp only [Option.map]
          rw [hms.2.2.2.2.1, hms.2.2.2.2.2]

/-- C10 (amended): provided the pool is not frozen before this txg
(txg ≤ spa_freeze_txg, carried in spaInv together with loadedness,
canonical disjoint trees and the id-indexed metaslab layout) and the
request is a positive-size non-gang allocation, whenever metaslab_alloc
returns a non-zero error the returned block pointer carries only zeroed
DVAs, and — because the unwind frees every already-allocated copy through
metaslab_free_dva's now path in reverse order — every metaslab's in-core
free tree and current-txg alloc tree are exactly their pre-call values. -/
theorem c10_alloc_unwind (cfg : ZfsConfig) (fuel : Nat) (spa : SpaM)
    (psize ndvas txg lbolt : Nat)
    (hinv : spaInv txg spa) (hpsz : 0 < psize)
    (herr : (metaslab_alloc_model cfg fuel spa psize ndvas txg false
      lbolt).1 ≠ 0) :
    (∀ dv ∈ (metaslab_alloc_model cfg fuel spa psize ndvas txg false
        lbolt).2.1, dv = zeroDva) ∧
    ∀ v i,
      (((metaslab_alloc_model cfg fuel spa psize ndvas txg false
          lbolt).2.2.spa_vdevs.get? v).bind
        (fun vd => vd.vdev_ms.get? i)).map
          (fun m => (m.ms_tree, m.ms_alloctree (txgSlot txg))) =
      ((spa.spa_vdevs.get? v).bind (fun vd => vd.vdev_ms.get? i)).map
        (fun m => (m.ms_tree, m.ms_alloctree (txgSlot txg))) := by
  unfold metaslab_alloc_model at herr ⊢
  by_cases hvde : spa.spa_vdevs.length = 0
  · rw [if_pos hvde]
    dsimp only
    constructor
    · intro dv hdv
      exact List.eq_of_mem_replicate hdv
    · intro v i
      rfl
  · rw [if_neg hvde] at herr ⊢
    have hzeros := metaslab_alloc_go_dvas cfg fuel psize txg lbolt false ndvas
      [] spa herr
    have hspec := metaslab_alloc_go_spec cfg fuel psize txg lbolt ndvas [] spa
      hinv hpsz (by simp) herr
    constructor
    · intro dv hdv
      rw [hzeros] at hdv
      exact List.eq_of_mem_replicate hdv
    · exact spaEqC_trees hspec txg

def c10ms : MetaslabM :=
  { msDefault with
    ms_size := 2 ^ 30, ms_weight := 4096, ms_loaded := true,
    ms_tree := [⟨0, 512⟩] }

def c10vd : VdevM :=
  { vdev_id := 0, vdev_ms_shift := 30, vdev_ms_count := 1, vdev_ashift := 9,
    vdev_asize := 2 ^ 30, vdev_children := 1, vdev_ms := [c10ms],
    vdev_removing := false, vdev_allocatable := true, vdev_write_errors := 0,
    vdev_below_healthy := false, vdev_degraded := false }

def c10spa : SpaM :=
  { spa_vdevs := [c10vd], spa_writeable := true, spa_freeze_txg := 2 ^ 62 }

def c10fspa : SpaM :=
  { spa_vdevs := [c10vd], spa_writeable := true, spa_freeze_txg := 0 }

/-- C10 counterexample: on a frozen pool (txg past spa_freeze_txg) the
unwind's metaslab_free_dva calls return before touching anything, so a
failing metaslab_alloc zeroes the block pointer but does not restore the
trees: with 512 bytes free and ndvas = 2 the second copy fails, and the
first copy's space stays removed from the free tree and parked in
alloctree[txg & TXG_MASK] — contradicting the claim's unconditional "each
touched metaslab's free tree and current-txg alloc tree equal their state
before the call". -/
theorem c10_freeze_counterexample :
    (metaslab_alloc_model {} 4 c10fspa 512 2 1 false 1).1 = ENOSPC ∧
    (∀ dv ∈ (metaslab_alloc_model {} 4 c10fspa 512 2 1 false 1).2.1,
      dv = zeroDva) ∧
    (((metaslab_alloc_model {} 4 c10fspa 512 2 1 false 1).2.2.spa_vdevs.headD
        c10vd).vdev_ms.headD c10ms).ms_tree = [] ∧
    (((metaslab_alloc_model {} 4 c10fspa 512 2 1 false 1).2.2.spa_vdevs.headD
        c10vd).vdev_ms.headD c10ms).ms_alloctree (txgSlot 1) = [⟨0, 512⟩] ∧
    ((c10fspa.spa_vdevs.headD c10vd).vdev_ms.headD c10ms).ms_tree
      = [⟨0, 512⟩] := by
  decide

/-- C10 witness: the same pool, not frozen: ndvas = 2 with only 512 free
bytes fails with ENOSPC, the block pointer is all zeros, and metaslab 0's
free tree and alloc tree are exactly their pre-call values. -/
theorem c10_alloc_unwind_witness :
    spaInv 1 c10spa ∧ 0 < 512 ∧
    (metaslab_alloc_model {} 4 c10spa 512 2 1 false 1).1 ≠ 0 ∧
    (∀ dv ∈ (metaslab_alloc_model {} 4 c10spa 512 2 1 false 1).2.1,
      dv = zeroDva) ∧
    (((metaslab_alloc_model {} 4 c10spa 512 2 1 false
        1).2.2.spa_vdevs.get? 0).bind (fun vd => vd.vdev_ms.get? 0)).map
        (fun m => (m.ms_tree, m.ms_alloctree (txgSlot 1))) =
      ((c10spa.spa_vdevs.get? 0).bind (fun vd => vd.vdev_ms.get? 0)).map
        (fun m => (m.ms_tree, m.ms_alloctree (txgSlot 1))) := by
  have hinv : spaInv 1 c10spa := by
    refine ⟨by decide, ?_⟩
    intro v vd h
    cases v with
    | succ v2 => simp [c10spa, List.get?] at h
    | zero =>
      have hvd : vd = c10vd := by
        have h2 : some c10vd = some vd := h
        injection h2 with hh
        exact hh.symm
      subst hvd
      refine ⟨rfl, rfl, ?_⟩
      intro i m h2
      cases i with
      | succ i2 => simp [c10vd, List.get?] at h2
      | zero =>
        have hm : m = c10ms := by
          have h3 : some c10ms = some m := h2
          injection h3 with hh
          exact hh.symm
        subst hm
        refine ⟨rfl, by decide, by decide, by decide, ?_, by decide, by decide,
          by decide⟩
        intro y hy1 hy2
        simp [rtMemP, c10ms, msDefault] at hy2
  have herr : (metaslab_alloc_model {} 4 c10spa 512 2 1 false 1).1 ≠ 0 := by
    decide
  have h := c10_alloc_unwind {} 4 c10spa 512 2 1 1 hinv (by decide) herr
  exact ⟨hinv, by decide, herr, h.1, h.2 0 0⟩
